import Mathlib

/-!
# Connection state machine and nocopy buffer of `due`

A shallow embedding of `core/buffer/nocopy_buffer.go` and `network/tcp/server_conn.go`:
the definitions first, then the theorems about them.
-/

namespace buffer

/-- Where a region is linked in: `Head` prepends, anything else appends. -/
inductive Whence
  | Head
  | Tail
  deriving DecidableEq

/-- Modelled from the spec: the buffer node type (its declaration is not among the
sources): an ownership-tagged byte region with doubly-linked neighbours. `buf` is the
byte region, `pool` tells whether it is pool-backed, `prev`/`next` are node addresses
(`none` is the nil pointer) and `released` records that the node was released. -/
structure NocopyNode where
  buf : List Nat
  pool : Bool
  prev : Option Nat
  next : Option Nat
  released : Bool
  deriving DecidableEq

/-- Modelled from the spec: the length of a node is the length of its byte region. -/
def NocopyNode.Len (n : NocopyNode) : Int := n.buf.length

/-- Modelled from the spec: releasing a node hands a pool-backed region back to its
bucket; the node is marked as released. -/
def NocopyNode.Release (n : NocopyNode) : NocopyNode := { n with released := true }

/-- The buffer of `nocopy_buffer.go`: the cached length (`-1` is "unknown"), the head
and tail pointers, and the node store `mem` in which a pointer is an index. -/
structure NocopyBuffer where
  len : Int
  head : Option Nat
  tail : Option Nat
  mem : List NocopyNode
  deriving DecidableEq

/-- Go `NewNocopyBuffer`: `&NocopyBuffer{len: -1}`. -/
def NewNocopyBuffer : NocopyBuffer := { len := -1, head := none, tail := none, mem := [] }

/-- The loop of `Len`: `for node := b.head; node != nil; { n += node.Len(); node = node.next }`.
`none` is returned when the fuel runs out or a pointer leaves the store. -/
def lenLoop (mem : List NocopyNode) : Nat → Option Nat → Int → Option Int
  | _, none, n => some n
  | 0, some _, _ => none
  | fuel + 1, some p, n =>
    match mem[p]? with
    | none => none
    | some node => lenLoop mem fuel node.next (n + node.Len)

/-- Go `Len`: the cached length when it is known, else the sum over the chain, which is
then cached. Returns the result and the buffer after the call. -/
def NocopyBuffer.Len (b : NocopyBuffer) : Option (Int × NocopyBuffer) :=
  if b.len ≥ 0 then some (b.len, b)
  else
    match lenLoop b.mem b.mem.length b.head 0 with
    | none => none
    | some n => some (n, { b with len := n })

/-- Allocation of a node (`&NocopyNode{...}`): the new node gets the next free address. -/
def NocopyBuffer.alloc (b : NocopyBuffer) (node : NocopyNode) : Nat × NocopyBuffer :=
  (b.mem.length, { b with mem := b.mem ++ [node] })

/-- Assignment `p.next = v`; `none` is a nil-pointer dereference. -/
def setNext (mem : List NocopyNode) (p : Nat) (v : Option Nat) : Option (List NocopyNode) :=
  match mem[p]? with
  | none => none
  | some node => some (mem.set p { node with next := v })

/-- Assignment `p.prev = v`; `none` is a nil-pointer dereference. -/
def setPrev (mem : List NocopyNode) (p : Nat) (v : Option Nat) : Option (List NocopyNode) :=
  match mem[p]? with
  | none => none
  | some node => some (mem.set p { node with prev := v })

/-- Go `addToTail`: the node at address `node` becomes the last node. -/
def NocopyBuffer.addToTail (b : NocopyBuffer) (node : Nat) : Option NocopyBuffer :=
  match b.head with
  | none => some { b with head := some node, tail := some node, len := -1 }
  | some _ =>
    match b.tail with
    | none => none
    | some t =>
      match setNext b.mem t (some node) with
      | none => none
      | some mem1 =>
        match setPrev mem1 node (some t) with
        | none => none
        | some mem2 => some { b with mem := mem2, tail := some node, len := -1 }

/-- Go `addToHead`: the node at address `node` becomes the first node. -/
def NocopyBuffer.addToHead (b : NocopyBuffer) (node : Nat) : Option NocopyBuffer :=
  match b.head with
  | none => some { b with head := some node, tail := some node, len := -1 }
  | some h =>
    match setNext b.mem node (some h) with
    | none => none
    | some mem1 =>
      match setPrev mem1 h (some node) with
      | none => none
      | some mem2 => some { b with mem := mem2, head := some node, len := -1 }

/-- Go `Mount(data, whence...)`: a fresh caller-owned node is linked in at the head when
the first `whence` is `Head`, at the tail otherwise. -/
def NocopyBuffer.Mount (b : NocopyBuffer) (data : List Nat) (whence : List Whence) :
    Option NocopyBuffer :=
  let (p, b1) := b.alloc { buf := data, pool := false, prev := none, next := none,
                           released := false }
  if whence.length > 0 ∧ whence.head? = some Whence.Head then b1.addToHead p
  else b1.addToTail p

/-- The loop of `Range`: the successor is read before the callback runs, and the walk
stops after the first node on which the callback answers `false`. The result is the
list of nodes handed to the callback. -/
def rangeLoop (mem : List NocopyNode) (fn : NocopyNode → Bool) :
    Nat → Option Nat → Option (List NocopyNode)
  | _, none => some []
  | 0, some _ => none
  | fuel + 1, some p =>
    match mem[p]? with
    | none => none
    | some node =>
      let next := node.next
      if fn node then (rangeLoop mem fn fuel next).map (fun vs => node :: vs)
      else some [node]

/-- Go `Range(fn)`: the nodes visited, in visiting order. -/
def NocopyBuffer.Range (b : NocopyBuffer) (fn : NocopyNode → Bool) :
    Option (List NocopyNode) :=
  rangeLoop b.mem fn b.mem.length b.head

/-- The loop of `Release`: every node of the chain is released. -/
def releaseLoop : Nat → Option Nat → List NocopyNode → Option (List NocopyNode)
  | _, none, mem => some mem
  | 0, some _, _ => none
  | fuel + 1, some p, mem =>
    match mem[p]? with
    | none => none
    | some node =>
      let next := node.next
      releaseLoop fuel next (mem.set p node.Release)

/-- Go `Release`: releases every node, then `b.head = nil; b.tail = nil`. The cached
length `b.len` is not assigned. -/
def NocopyBuffer.Release (b : NocopyBuffer) : Option NocopyBuffer :=
  match releaseLoop b.mem.length b.head b.mem with
  | none => none
  | some mem1 => some { b with mem := mem1, head := none, tail := none }

/-- A call on a buffer. -/
inductive Call
  | mount (data : List Nat) (whence : List Whence)
  | len
  | release
  deriving DecidableEq

/-- One call; the result of a `Len` call is recorded in the log. -/
def Call.run : Call → NocopyBuffer × List Int → Option (NocopyBuffer × List Int)
  | .mount data whence, (b, log) => (b.Mount data whence).map (fun b1 => (b1, log))
  | .len, (b, log) => b.Len.map (fun r => (r.2, log ++ [r.1]))
  | .release, (b, log) => b.Release.map (fun b1 => (b1, log))

/-- A sequence of calls, one after the other. -/
def runCalls : List Call → NocopyBuffer × List Int → Option (NocopyBuffer × List Int)
  | [], s => some s
  | c :: cs, s =>
    match c.run s with
    | none => none
    | some s1 => runCalls cs s1

/-- The regions of a buffer in the order the claims describe: each `Head`-mounted
region is prepended, every other mounted region is appended, a release empties. -/
def regionsAfter : List Call → List (List Nat) → List (List Nat)
  | [], rs => rs
  | .mount data whence :: cs, rs =>
    if whence.head? = some Whence.Head then regionsAfter cs (data :: rs)
    else regionsAfter cs (rs ++ [data])
  | .len :: cs, rs => regionsAfter cs rs
  | .release :: cs, _ => regionsAfter cs []

/-- The sum of the lengths of a list of regions. -/
def totalLen (rs : List (List Nat)) : Int := (rs.map (fun r => (r.length : Int))).sum

/-- The front of a list up to and including the first element on which `fn` fails. -/
def visitThrough {α : Type} (fn : α → Bool) : List α → List α
  | [] => []
  | x :: xs => if fn x then x :: visitThrough fn xs else [x]

/-- The chain of addresses reached from `p` by following `next` is exactly `l`. -/
def Chain (mem : List NocopyNode) : Option Nat → List Nat → Prop
  | p, [] => p = none
  | p, i :: l => p = some i ∧ ∃ n, mem[i]? = some n ∧ Chain mem n.next l

/-- The nodes stored at the addresses `l`. -/
def nodesAt (mem : List NocopyNode) (l : List Nat) : List NocopyNode :=
  l.filterMap (fun i => mem[i]?)

/-- The buffer is a well-formed list: its chain is `l`, without repetition, and the
tail pointer is the last address. -/
structure Linked (b : NocopyBuffer) (l : List Nat) : Prop where
  chain : Chain b.mem b.head l
  nodup : l.Nodup
  last : b.tail = l.getLast?

/-- The cached length is unknown or right. -/
def CacheOk (b : NocopyBuffer) (rs : List (List Nat)) : Prop :=
  b.len = -1 ∨ b.len = totalLen rs

/-- The buffer holds exactly the regions `rs`, front to back. -/
def Holds (b : NocopyBuffer) (rs : List (List Nat)) : Prop :=
  ∃ l, Linked b l ∧ (nodesAt b.mem l).map (fun n => n.buf) = rs

/-- The sum of the lengths of the regions mounted by a sequence of calls. -/
def mountedLen : List Call → Int
  | [] => 0
  | .mount data _ :: cs => data.length + mountedLen cs
  | _ :: cs => mountedLen cs

/-- What each `Len` call of a sequence has to return when `t` bytes are mounted
before the sequence: the sum of the lengths of the regions mounted so far. -/
def lenLog : List Call → Int → List Int
  | [], _ => []
  | .mount data _ :: cs, t => lenLog cs (t + data.length)
  | .len :: cs, t => t :: lenLog cs t
  | .release :: cs, t => lenLog cs t

end buffer

namespace tcp


/-- Modelled from the spec: the tri-state lifecycle field `network.ConnState` (declared
outside the sources): Opened, Hanged, Closed. -/
inductive ConnState
  | ConnOpened
  | ConnHanged
  | ConnClosed
  deriving DecidableEq

/-- The errors an operation can return: the two state errors of the `errors` package and
socket errors, which carry a code of the socket layer. -/
inductive Error
  | ErrConnectionHanged
  | ErrConnectionClosed
  | io (code : Nat)
  deriving DecidableEq

/-- Modelled from the spec: the heartbeat mechanism, ticked, responsive or disabled. -/
inductive HeartbeatMechanism
  | NoneHeartbeat
  | RespHeartbeat
  | TickHeartbeat
  deriving DecidableEq

/-- Modelled from the spec: what the framing primitives `encode-frame` and
`encode-heartbeat` produce; the byte layout is outside the sources. -/
inductive Frame
  | message (payload : List Nat)
  | heartbeat (withServerTime : Bool)
  deriving DecidableEq

/-- Modelled from the spec: `packMessage` is `encode-frame`. -/
def packMessage (msg : List Nat) : Frame := Frame.message msg

/-- Modelled from the spec: `packHeartbeat` is `encode-heartbeat`. -/
def packHeartbeat (withServerTime : Bool) : Frame := Frame.heartbeat withServerTime

/-- An item of the write queue: `chWrite{typ: dataPacket, msg: msg}` or
`chWrite{typ: closeSig}`. -/
inductive chWrite
  | dataPacket (msg : Frame)
  | closeSig
  deriving DecidableEq

/-- What happens on the socket, in order: a `conn.Write` or the `conn.Close`. -/
inductive SockEvent
  | write (frame : Frame)
  | close
  deriving DecidableEq

/-- The options the connection code reads. The interval is in nanoseconds. -/
structure serverOptions where
  heartbeatInterval : Int
  heartbeatMechanism : HeartbeatMechanism
  heartbeatWithServerTime : Bool
  deriving DecidableEq

/-- The server as the connection code sees it: the options, and for each hook whether
it is registered (non-nil). -/
structure server where
  opts : serverOptions
  connectHandler : Bool
  disconnectHandler : Bool
  receiveHandler : Bool
  deriving DecidableEq

/-- Where the reader goroutine stands: at the `select` of its loop, inside the blocking
`read(conn)`, inside `c.rw.Lock()` of the forced close it calls on a decode error
(lines 251 and 217), or returned. -/
inductive ReaderPc
  | polling
  | decoding
  | locking
  | exited
  deriving DecidableEq

/-- Where the writer goroutine stands: at the `select` of its loop, inside `c.rw.Lock()`
of the forced close it calls on a heartbeat timeout (lines 330 and 217), or returned. -/
inductive WriterPc
  | selecting
  | locking
  | exited
  deriving DecidableEq

/-- Where the caller of a graceful close stands: no such call in flight; blocked in
`c.chWrite <- chWrite{typ: closeSig}` with the lock held; blocked in `<-c.done`; or
past `<-c.done` and about to take the lock again. -/
inductive Closer
  | idle
  | sending
  | waiting
  | resumed
  deriving DecidableEq

/-- The connection. The first block is the struct of `server_conn.go` (`conn` tells
whether `c.conn` is non-nil, `chWrite` holds the buffered items oldest first, `pushing`
holds the frames of the `Push` calls blocked in their send on the full queue, oldest
first, each holding the read lock, and the three `...Closed` flags tell whether the
channel is closed); then the goroutines; then what the socket, the manager and the hooks
have seen. `crashed` records a Go run-time panic (closing a closed channel, sending on a
closed channel, a nil socket). -/
structure serverConn where
  state : ConnState
  conn : Bool
  chWrite : List chWrite
  pushing : List Frame
  chWriteClosed : Bool
  doneClosed : Bool
  closeClosed : Bool
  lastHeartbeatTime : Int
  reader : ReaderPc
  writer : WriterPc
  closer : Closer
  wire : List SockEvent
  recycled : Nat
  connects : Nat
  disconnects : Nat
  received : List (List Nat)
  doneSent : Nat
  crashed : Bool
  deriving DecidableEq

/-- How a call ends: it returns (with or without an error), it blocks, or it panics. -/
inductive Outcome
  | returned (err : Option Error)
  | blocked
  | crash
  deriving DecidableEq

/-- Whether a loop goes round again or returns. -/
inductive Loop
  | again
  | stop
  deriving DecidableEq

/-- The capacity of the write queue: `make(chan chWrite, 4096)`. -/
def chWriteCap : Nat := 4096

/-- Go `checkState`. -/
def serverConn.checkState (c : serverConn) : Option Error :=
  match c.state with
  | .ConnHanged => some Error.ErrConnectionHanged
  | .ConnClosed => some Error.ErrConnectionClosed
  | _ => none

/-- Go `isClosed`. -/
def serverConn.isClosed (c : serverConn) : Bool :=
  c.state = ConnState.ConnClosed

/-- Go `State`. -/
def serverConn.State (c : serverConn) : ConnState := c.state

/-- Whether `c.rw` is held for writing across steps: a graceful close is blocked in its
send of the stop sentinel on the full queue (lines 183-191). `c.rw.RLock()` waits then. -/
def serverConn.wlocked (c : serverConn) : Bool :=
  c.closer = Closer.sending

/-- Whether `c.rw` is held for reading across steps: a `Push` is blocked in its send on
the full queue (lines 78-85). -/
def serverConn.rlocked (c : serverConn) : Bool :=
  match c.pushing with
  | [] => false
  | _ :: _ => true

/-- Whether `c.rw.Lock()` has to wait: the lock is held, for writing by a graceful close
blocked in its send or for reading by a `Push` blocked in its send. -/
def serverConn.locked (c : serverConn) : Bool :=
  c.wlocked || c.rlocked

/-- Go `init` (the struct as it is when `init` returns): the state is Opened, the channels
are fresh, the timestamp is `now`, both loops are started, the connect hook has run. -/
def serverConn.init (srv : server) (now : Int) : serverConn :=
  { state := ConnState.ConnOpened, conn := true, chWrite := [], pushing := [],
    chWriteClosed := false, doneClosed := false, closeClosed := false,
    lastHeartbeatTime := now, reader := ReaderPc.polling, writer := WriterPc.selecting,
    closer := Closer.idle, wire := [],
    recycled := 0, connects := if srv.connectHandler then 1 else 0, disconnects := 0,
    received := [], doneSent := 0, crashed := false }

/-- Go `Send`: the state check, then the write on the socket captured under the lock;
`werr` is what that `conn.Write` returns. -/
def serverConn.Send (c : serverConn) (msg : List Nat) (werr : Option Nat) :
    serverConn × Outcome :=
  match c.checkState with
  | some err => (c, Outcome.returned (some err))
  | none =>
    if c.conn then
      ({ c with wire := c.wire ++ [SockEvent.write (packMessage msg)] },
        Outcome.returned (werr.map Error.io))
    else ({ c with crashed := true }, Outcome.crash)

/-- Go `Push`: the state check, then the send on the queue, which panics on a closed
queue and blocks while the queue is full: the call then stays in the send with its frame,
the read lock held. -/
def serverConn.Push (c : serverConn) (msg : List Nat) : serverConn × Outcome :=
  let msg := packMessage msg
  match c.checkState with
  | some err => (c, Outcome.returned (some err))
  | none =>
    if c.chWriteClosed then ({ c with crashed := true }, Outcome.crash)
    else if c.chWrite.length < chWriteCap then
      ({ c with chWrite := c.chWrite ++ [chWrite.dataPacket msg] }, Outcome.returned none)
    else ({ c with pushing := c.pushing ++ [msg] }, Outcome.blocked)

/-- Go `Push`, lines 85-87 completing: the longest-blocked send goes through once the
queue has room; that call returns and gives up its read lock (taken as one step: the call
needs nothing more to return). -/
def serverConn.pushSend (c : serverConn) : serverConn :=
  match c.pushing with
  | [] => c
  | msg :: rest =>
    if c.chWrite.length < chWriteCap then
      { c with chWrite := c.chWrite ++ [chWrite.dataPacket msg], pushing := rest }
    else c

/-- Go `LocalAddr`: the state check, then the address of the socket. -/
def serverConn.LocalAddr (c : serverConn) : serverConn × Outcome :=
  match c.checkState with
  | some err => (c, Outcome.returned (some err))
  | none => if c.conn then (c, Outcome.returned none) else ({ c with crashed := true }, Outcome.crash)

/-- Go `RemoteAddr`: the state check, then the address of the socket. -/
def serverConn.RemoteAddr (c : serverConn) : serverConn × Outcome :=
  match c.checkState with
  | some err => (c, Outcome.returned (some err))
  | none => if c.conn then (c, Outcome.returned none) else ({ c with crashed := true }, Outcome.crash)

/-- The three channel closes `close(c.chWrite); close(c.close); close(c.done)`; closing
a closed channel panics and ends the sequence. -/
def serverConn.closeChans (c : serverConn) : serverConn :=
  if c.chWriteClosed then { c with crashed := true }
  else
    let c1 := { c with chWriteClosed := true }
    if c1.closeClosed then { c1 with crashed := true }
    else
      let c2 := { c1 with closeClosed := true }
      if c2.doneClosed then { c2 with crashed := true }
      else { c2 with doneClosed := true }

/-- What both close paths do once they go ahead (lines 197-210 and 224-235): the state
becomes Closed, the channels are closed, the socket is closed, `c.conn = nil`, the
connection is recycled, and after the unlock the disconnect hook runs. `cerr` is what
`conn.Close()` returns. -/
def serverConn.teardown (srv : server) (isNeedRecycle : Bool) (cerr : Option Nat)
    (c : serverConn) : serverConn × Outcome :=
  let c1 := ({ c with state := ConnState.ConnClosed }).closeChans
  if c1.crashed then (c1, Outcome.crash)
  else if c1.conn then
    let c2 := { c1 with wire := c1.wire ++ [SockEvent.close], conn := false }
    let c3 := if isNeedRecycle then { c2 with recycled := c2.recycled + 1 } else c2
    let c4 := if srv.disconnectHandler then { c3 with disconnects := c3.disconnects + 1 } else c3
    (c4, Outcome.returned (cerr.map Error.io))
  else ({ c1 with crashed := true }, Outcome.crash)

/-- Go `forceClose`: the state check under the lock, then the teardown. -/
def serverConn.forceClose (srv : server) (cerr : Option Nat) (c : serverConn) :
    serverConn × Outcome :=
  match c.checkState with
  | some err => (c, Outcome.returned (some err))
  | none => c.teardown srv true cerr

/-- Go `graceClose`, lines 183-192: the state check under the lock; then the state becomes
Hanged and the stop sentinel is sent on the queue. With room in the queue the caller
goes on to `<-c.done`; on a full queue it stays in the send, the lock held. The result
is `some` when the call is over. -/
def serverConn.graceCloseEnter (c : serverConn) : serverConn × Option Outcome :=
  match c.checkState with
  | some err => (c, some (Outcome.returned (some err)))
  | none =>
    let c1 := { c with state := ConnState.ConnHanged }
    if c1.chWriteClosed then ({ c1 with crashed := true }, some Outcome.crash)
    else if c1.chWrite.length < chWriteCap then
      ({ c1 with chWrite := c1.chWrite ++ [chWrite.closeSig], closer := Closer.waiting }, none)
    else ({ c1 with closer := Closer.sending }, none)

/-- Go `graceClose`, lines 191-192 completing: the blocked send of the stop sentinel goes
through once the queue has room, and the lock is released. -/
def serverConn.graceCloseSend (c : serverConn) : serverConn :=
  if c.closer = Closer.sending then
    if c.chWriteClosed then { c with crashed := true }
    else if c.chWrite.length < chWriteCap then
      { c with chWrite := c.chWrite ++ [chWrite.closeSig], closer := Closer.waiting }
    else c
  else c

/-- What a receive from the queue does for the senders blocked on it: the slot it frees
goes at once to a blocked `Push`, or else to the blocked send of a graceful close. -/
def serverConn.wakeSender (c : serverConn) : serverConn :=
  if c.rlocked then c.pushSend else c.graceCloseSend

/-- Go `graceClose`, line 194 on a closed channel: `<-c.done` returns at once. -/
def serverConn.graceCloseWake (c : serverConn) : serverConn :=
  if c.closer = Closer.waiting ∧ c.doneClosed then { c with closer := Closer.resumed } else c

/-- Go `graceClose`, lines 196-212: after `<-c.done` the lock is taken again and the
teardown runs, without a second state check. -/
def serverConn.graceCloseExit (srv : server) (isNeedRecycle : Bool) (cerr : Option Nat)
    (c : serverConn) : serverConn × Outcome :=
  ({ c with closer := Closer.idle }).teardown srv isNeedRecycle cerr

/-- Signed 64-bit wrap-around. -/
def wrapInt64 (x : Int) : Int := (x + 9223372036854775808) % 18446744073709551616 - 9223372036854775808

/-- Go `xtime.Now().Add(-2 * heartbeatInterval).UnixNano()` at time `now` (nanoseconds). -/
def deadline (now interval : Int) : Int := wrapInt64 (now + wrapInt64 (-2 * interval))

/-- The body of the reader loop after `read(conn)` returned (lines 249-286). `r` is what
was decoded (`none` is a decode error, else the heartbeat flag and the payload), `now`
is the clock. -/
def serverConn.readFrame (srv : server) (r : Option (Bool × List Nat)) (now : Int)
    (c : serverConn) : serverConn × Loop :=
  match r with
  | none => ((c.forceClose srv none).1, Loop.stop)
  | some (isHeartbeat, msg) =>
    let c1 := if srv.opts.heartbeatInterval > 0 then { c with lastHeartbeatTime := now } else c
    match c1.State with
    | .ConnHanged => (c1, Loop.again)
    | .ConnClosed => (c1, Loop.stop)
    | _ =>
      if isHeartbeat then
        if srv.opts.heartbeatMechanism = HeartbeatMechanism.RespHeartbeat then
          ({ c1 with wire := c1.wire ++
              [SockEvent.write (packHeartbeat srv.opts.heartbeatWithServerTime)] }, Loop.again)
        else (c1, Loop.again)
      else if msg.length = 0 then (c1, Loop.again)
      else if srv.receiveHandler then
        ({ c1 with received := c1.received ++ [msg] }, Loop.again)
      else (c1, Loop.again)

/-- The writer loop on `case r, ok := <-c.chWrite` (lines 307-325); `r = none` is `!ok`.
On the stop sentinel the drain-complete signal is handed to the caller blocked in
`<-c.done`. -/
def serverConn.writeItem (r : Option tcp.chWrite) (c : serverConn) : serverConn × Loop :=
  match r with
  | none => (c, Loop.stop)
  | some .closeSig =>
    if c.doneClosed then ({ c with crashed := true }, Loop.stop)
    else ({ c with doneSent := c.doneSent + 1, closer := Closer.resumed }, Loop.stop)
  | some (.dataPacket msg) =>
    if c.isClosed then (c, Loop.stop)
    else ({ c with wire := c.wire ++ [SockEvent.write msg] }, Loop.again)

/-- The writer loop on `case <-ticker.C` (lines 326-343) at time `now`. -/
def serverConn.writeTick (srv : server) (now : Int) (c : serverConn) : serverConn × Loop :=
  if c.lastHeartbeatTime < deadline now srv.opts.heartbeatInterval then
    ((c.forceClose srv none).1, Loop.stop)
  else if srv.opts.heartbeatMechanism = HeartbeatMechanism.TickHeartbeat then
    if c.isClosed then (c, Loop.stop)
    else
      ({ c with wire := c.wire ++
          [SockEvent.write (packHeartbeat srv.opts.heartbeatWithServerTime)] }, Loop.again)
  else (c, Loop.again)

/-- What the two loops and a blocked graceful close can do next: the reader goes through
its `select`; a `read(conn)` returns; the writer takes the queue case or the ticker case
of its `select`; `<-c.done` returns on a closed channel; the reader or the writer, blocked
in the `c.rw.Lock()` of a forced close, gets the lock. -/
inductive Event
  | poll
  | decoded (r : Option (Bool × List Nat)) (now : Int)
  | recv
  | tick (now : Int)
  | closeWake
  | readerLock
  | writerLock
  deriving DecidableEq

/-- The writer after one round of its loop. -/
def serverConn.afterWrite (r : serverConn × Loop) : serverConn :=
  match r.2 with
  | .again => r.1
  | .stop => { r.1 with writer := WriterPc.exited }

/-- The reader after one round of its loop. -/
def serverConn.afterRead (r : serverConn × Loop) : serverConn :=
  match r.2 with
  | .again => { r.1 with reader := ReaderPc.polling }
  | .stop => { r.1 with reader := ReaderPc.exited }

/-- One event. An event that cannot go ahead yet (a loop that is not at that point, an
empty open queue, a ticker that is not running, no caller in `<-c.done`) leaves the
connection as it is. A forced close called by a loop while `c.rw.Lock()` has to wait
leaves that loop inside the lock call. A receive hands the freed slot to a blocked
sender before the item is dealt with. -/
def Event.run (srv : server) : Event → serverConn → serverConn
  | .poll, c =>
    if c.reader = ReaderPc.polling then
      if c.closeClosed then { c with reader := ReaderPc.exited }
      else { c with reader := ReaderPc.decoding }
    else c
  | .decoded r now, c =>
    if c.reader = ReaderPc.decoding then
      if r = none ∧ c.locked then { c with reader := ReaderPc.locking }
      else serverConn.afterRead (c.readFrame srv r now)
    else c
  | .recv, c =>
    if c.writer = WriterPc.selecting then
      match c.chWrite with
      | [] => if c.chWriteClosed then { c with writer := WriterPc.exited } else c
      | .closeSig :: rest =>
        if c.wlocked ∨ (c.closer ≠ Closer.waiting ∧ ¬ c.doneClosed) then c
        else
          serverConn.afterWrite
            ((({ c with chWrite := rest }).wakeSender).writeItem (some chWrite.closeSig))
      | .dataPacket msg :: rest =>
        serverConn.afterWrite
          ((({ c with chWrite := rest }).wakeSender).writeItem (some (chWrite.dataPacket msg)))
    else c
  | .tick now, c =>
    if c.writer = WriterPc.selecting ∧ srv.opts.heartbeatInterval > 0 then
      if c.lastHeartbeatTime < deadline now srv.opts.heartbeatInterval ∧ c.locked then
        { c with writer := WriterPc.locking }
      else serverConn.afterWrite (c.writeTick srv now)
    else c
  | .closeWake, c => c.graceCloseWake
  | .readerLock, c =>
    if c.reader = ReaderPc.locking ∧ c.locked = false then
      serverConn.afterRead ((c.forceClose srv none).1, Loop.stop)
    else c
  | .writerLock, c =>
    if c.writer = WriterPc.locking ∧ c.locked = false then
      serverConn.afterWrite ((c.forceClose srv none).1, Loop.stop)
    else c

/-- A sequence of events, one after the other. -/
def runEvents (srv : server) : List Event → serverConn → serverConn
  | [], c => c
  | e :: es, c => runEvents srv es (e.run srv c)

/-- Go `graceClose` as one call: the entry, then whatever the loops do while the caller is
blocked, then the exit if the caller got past `<-c.done` and can take the lock again;
otherwise the call has not returned. -/
def serverConn.graceClose (srv : server) (isNeedRecycle : Bool) (during : List Event)
    (cerr : Option Nat) (c : serverConn) : serverConn × Outcome :=
  match c.graceCloseEnter with
  | (c1, some r) => (c1, r)
  | (c1, none) =>
    let c2 := runEvents srv during c1
    if c2.closer = Closer.resumed ∧ c2.rlocked = false then
      c2.graceCloseExit srv isNeedRecycle cerr
    else (c2, Outcome.blocked)

/-- Go `Close(isForce...)`: forced when the first flag is set, graceful otherwise. -/
def serverConn.Close (srv : server) (isForce : List Bool) (during : List Event)
    (cerr : Option Nat) (c : serverConn) : serverConn × Outcome :=
  if isForce.length > 0 ∧ isForce.head? = some true then c.forceClose srv cerr
  else c.graceClose srv true during cerr

/-- A step of the whole system: a call from outside, the exit of a graceful close, or an
event of the loops. -/
inductive Action
  | send (msg : List Nat) (werr : Option Nat)
  | push (msg : List Nat)
  | localAddr
  | remoteAddr
  | forceClose (cerr : Option Nat)
  | graceEnter
  | graceExit (cerr : Option Nat)
  | event (e : Event)
  deriving DecidableEq

/-- One step. A call that takes the read lock waits while the lock is held for writing;
a call that takes the write lock waits while the lock is held at all; the exit of a
graceful close needs a caller that got past `<-c.done`. -/
def Action.run (srv : server) : Action → serverConn → serverConn
  | .send msg werr, c => if c.wlocked then c else (c.Send msg werr).1
  | .push msg, c => if c.wlocked then c else (c.Push msg).1
  | .localAddr, c => if c.wlocked then c else c.LocalAddr.1
  | .remoteAddr, c => if c.wlocked then c else c.RemoteAddr.1
  | .forceClose cerr, c => if c.locked then c else (c.forceClose srv cerr).1
  | .graceEnter, c => if c.locked then c else c.graceCloseEnter.1
  | .graceExit cerr, c =>
    if c.closer = Closer.resumed ∧ c.rlocked = false then (c.graceCloseExit srv true cerr).1
    else c
  | .event e, c => e.run srv c

/-- A sequence of steps, one after the other. -/
def runActions (srv : server) : List Action → serverConn → serverConn
  | [], c => c
  | a :: as, c => runActions srv as (a.run srv c)

/-- The states the connection goes through along a sequence of steps. -/
def stateTrace (srv : server) : List Action → serverConn → List ConnState
  | [], _ => []
  | a :: as, c => (a.run srv c).state :: stateTrace srv as (a.run srv c)

/-- The transitions the claims allow: none, Opened to Hanged, Hanged to Closed, Opened
to Closed. -/
def Allowed (s t : ConnState) : Prop :=
  s = t ∨ (s = ConnState.ConnOpened ∧ t = ConnState.ConnHanged)
    ∨ (s = ConnState.ConnHanged ∧ t = ConnState.ConnClosed)
    ∨ (s = ConnState.ConnOpened ∧ t = ConnState.ConnClosed)

end tcp

namespace tcp

/-- What holds of a connection at every moment of its life, by state. Opened: nothing of
the teardown has happened, no graceful close is in flight, the writer has not returned,
and a `Push` is blocked only on a full queue (the writer waits for the lock only behind
such a `Push`). Hanged: a graceful close is in flight, no `Push` is blocked, and the stop
sentinel is the last item of the queue or not yet in it (the queue is then full); once
the drain-complete signal is given the queue is empty and the writer has returned.
Closed: the teardown has happened exactly once and the socket close is the last thing
the socket has seen. -/
def Inv (srv : server) (c : serverConn) : Prop :=
  c.crashed = false ∧
  match c.state with
  | .ConnOpened =>
    c.conn = true ∧ c.chWriteClosed = false ∧ c.doneClosed = false ∧ c.closeClosed = false
      ∧ c.closer = Closer.idle ∧ chWrite.closeSig ∉ c.chWrite
      ∧ SockEvent.close ∉ c.wire ∧ c.recycled = 0 ∧ c.disconnects = 0 ∧ c.doneSent = 0
      ∧ c.chWrite.length ≤ chWriteCap
      ∧ match c.writer with
        | .selecting => c.pushing = [] ∨ c.chWrite.length = chWriteCap
        | .locking => c.pushing ≠ [] ∧ c.chWrite.length = chWriteCap
        | .exited => False
  | .ConnHanged =>
    c.conn = true ∧ c.chWriteClosed = false ∧ c.doneClosed = false ∧ c.closeClosed = false
      ∧ SockEvent.close ∉ c.wire ∧ c.recycled = 0 ∧ c.disconnects = 0 ∧ c.pushing = []
      ∧ match c.closer with
        | .idle => False
        | .sending =>
          chWrite.closeSig ∉ c.chWrite ∧ c.doneSent = 0 ∧ c.chWrite.length = chWriteCap
            ∧ c.writer ≠ WriterPc.exited
        | .waiting =>
          (∃ q, c.chWrite = q ++ [chWrite.closeSig] ∧ chWrite.closeSig ∉ q) ∧ c.doneSent = 0
        | .resumed => c.chWrite = [] ∧ c.doneSent = 1 ∧ c.writer = WriterPc.exited
  | .ConnClosed =>
    c.conn = false ∧ c.chWriteClosed = true ∧ c.doneClosed = true ∧ c.closeClosed = true
      ∧ c.closer = Closer.idle ∧ chWrite.closeSig ∉ c.chWrite ∧ c.pushing = []
      ∧ (∃ w, c.wire = w ++ [SockEvent.close] ∧ SockEvent.close ∉ w)
      ∧ c.recycled = 1 ∧ c.disconnects = (if srv.disconnectHandler then 1 else 0)
      ∧ c.doneSent ≤ 1

/-- A graceful close that can no longer complete: the connection is Hanged, the channel
`done` is open, and either the caller waits in `<-c.done` while the writer has returned,
or the caller is blocked in its send on the full queue, the lock held, while the writer
waits for that lock. -/
def Stuck (c : serverConn) : Prop :=
  c.state = ConnState.ConnHanged ∧ c.doneClosed = false
    ∧ ((c.closer = Closer.waiting ∧ c.writer = WriterPc.exited)
      ∨ (c.closer = Closer.sending ∧ c.writer = WriterPc.locking))

/-- A forced close of the writer that can no longer go ahead: the connection is Opened,
the writer waits in `c.rw.Lock()` while a `Push` blocked on the full queue holds the read
lock, and the socket has not been closed. -/
def Jammed (c : serverConn) : Prop :=
  c.state = ConnState.ConnOpened ∧ c.writer = WriterPc.locking ∧ c.pushing ≠ []
    ∧ SockEvent.close ∉ c.wire

/-- What a state-guarded operation owes its caller: on a connection `c` the result `r`
is `ErrConnectionHanged` exactly when `c` is Hanged, `ErrConnectionClosed` exactly when
`c` is Closed, and in both cases the connection (socket and queue included) is left as
it was. -/
def StateGuarded (c : serverConn) (r : serverConn × Outcome) : Prop :=
  (r.2 = Outcome.returned (some Error.ErrConnectionHanged) ↔ c.state = ConnState.ConnHanged)
    ∧ (r.2 = Outcome.returned (some Error.ErrConnectionClosed) ↔ c.state = ConnState.ConnClosed)
    ∧ (c.state ≠ ConnState.ConnOpened → r.1 = c)

/-- A server with a heartbeat interval of 10 s (in nanoseconds), the responsive
mechanism and all three hooks registered. -/
def respServer : server :=
  { opts := { heartbeatInterval := 10000000000,
              heartbeatMechanism := HeartbeatMechanism.RespHeartbeat,
              heartbeatWithServerTime := false },
    connectHandler := true, disconnectHandler := true, receiveHandler := true }

/-- A server with a heartbeat interval of 10 s (in nanoseconds), the ticked mechanism
and all three hooks registered. -/
def tickServer : server :=
  { opts := { heartbeatInterval := 10000000000,
              heartbeatMechanism := HeartbeatMechanism.TickHeartbeat,
              heartbeatWithServerTime := false },
    connectHandler := true, disconnectHandler := true, receiveHandler := true }

/-- A number of seconds in nanoseconds. -/
def seconds (n : Int) : Int := n * 1000000000

/-- A step of a pushing client and the loops: a `Push` call or an event. -/
inductive Step
  | push (msg : List Nat)
  | event (e : Event)
  deriving DecidableEq

/-- One such step; a `Push` waits while the lock is held for writing. -/
def Step.run (srv : server) : Step → serverConn → serverConn
  | .push msg, c => if c.wlocked then c else (c.Push msg).1
  | .event e, c => e.run srv c

/-- A sequence of such steps, one after the other. -/
def runSteps (srv : server) : List Step → serverConn → serverConn
  | [], c => c
  | s :: ss, c => runSteps srv ss (s.run srv c)

/-- A connection opened at time 0 on which a graceful close has been entered: it is
Hanged, the stop sentinel is queued and the caller waits in `<-c.done`. -/
def drainingConn : serverConn := (serverConn.init tickServer 0).graceCloseEnter.1

/-- A connection opened at time 0 on which one payload more than the queue holds has been
pushed before the writer took any: the queue is full and the last `Push` is blocked in
its send. -/
def floodedConn : serverConn :=
  runSteps tickServer (List.replicate (chWriteCap + 1) (Step.push [1]))
    (serverConn.init tickServer 0)

/-- The clock readings of the heartbeat scenario, in nanoseconds since the connection was
opened: `s1` to `s5` are what the reader reads (line 256) after decoding the frames the
client sent at 8, 16, 24, 32 and 40 s; `n1` to `n7` are what the writer reads (line 327)
after the ticker fired at 10, 20, 30, 40, 50, 60 and 70 s. -/
structure Clocks where
  s1 : Int
  s2 : Int
  s3 : Int
  s4 : Int
  s5 : Int
  n1 : Int
  n2 : Int
  n3 : Int
  n4 : Int
  n5 : Int
  n6 : Int
  n7 : Int
  deriving DecidableEq

/-- Every clock is read at the very instant of its frame or firing. -/
def Clocks.exact : Clocks :=
  { s1 := seconds 8, s2 := seconds 16, s3 := seconds 24, s4 := seconds 32, s5 := seconds 40,
    n1 := seconds 10, n2 := seconds 20, n3 := seconds 30, n4 := seconds 40,
    n5 := seconds 50, n6 := seconds 60, n7 := seconds 70 }

/-- As `exact`, but the writer reads its clock one nanosecond after the firing of 60 s. -/
def Clocks.late : Clocks := { Clocks.exact with n6 := seconds 60 + 1 }

/-- Whether `t` is read at the instant `at0` (in seconds) or up to one second after it. -/
def readWithin1s (at0 t : Int) : Bool :=
  decide (seconds at0 ≤ t) && decide (t ≤ seconds at0 + seconds 1)

/-- Every clock is read at the instant of its frame or firing or up to one second later. -/
def Clocks.timely (k : Clocks) : Bool :=
  readWithin1s 8 k.s1 && readWithin1s 16 k.s2 && readWithin1s 24 k.s3 && readWithin1s 32 k.s4
    && readWithin1s 40 k.s5 && readWithin1s 10 k.n1 && readWithin1s 20 k.n2
    && readWithin1s 30 k.n3 && readWithin1s 40 k.n4 && readWithin1s 50 k.n5
    && readWithin1s 60 k.n6 && readWithin1s 70 k.n7

/-- The first 40 s of the heartbeat scenario: the connection is opened at time 0, the
ticker fires every 10 s, the client's heartbeat frames are decoded (each after the reader
went through its `select`), and the reader is back inside `read(conn)` at the end. At
40 s the ticker fires before or after the frame of 40 s is decoded. -/
def heartbeatEvery8s (k : Clocks) (tickFirst : Bool) : List Event :=
  [Event.poll, Event.decoded (some (true, [])) k.s1, Event.tick k.n1,
   Event.poll, Event.decoded (some (true, [])) k.s2, Event.tick k.n2,
   Event.poll, Event.decoded (some (true, [])) k.s3, Event.tick k.n3,
   Event.poll, Event.decoded (some (true, [])) k.s4, Event.poll]
  ++ (if tickFirst then [Event.tick k.n4, Event.decoded (some (true, [])) k.s5]
      else [Event.decoded (some (true, [])) k.s5, Event.tick k.n4])
  ++ [Event.poll]

/-- What happens in the 21 s after 40 s when the client is silent: the ticker fires at
50 s and at 60 s. -/
def silentFor21s (k : Clocks) : List Event := [Event.tick k.n5, Event.tick k.n6]

/-- What happens in the 30 s after 40 s when the client is silent: the ticker fires at
50 s, 60 s and 70 s. -/
def silentFor30s (k : Clocks) : List Event :=
  [Event.tick k.n5, Event.tick k.n6, Event.tick k.n7]

/-- A call of `Close`: the flags passed, what the loops do while a graceful close waits,
and what `conn.Close()` returns. -/
structure CloseCall where
  isForce : List Bool
  during : List Event
  cerr : Option Nat
  deriving DecidableEq

/-- Go `Close` calls made one after another: a call starts when the one before it has
returned, so nothing follows a call that blocks. The results are listed in order. -/
def runCloses (srv : server) : List CloseCall → serverConn → serverConn × List Outcome
  | [], c => (c, [])
  | k :: ks, c =>
    match c.Close srv k.isForce k.during k.cerr with
    | (c1, Outcome.blocked) => (c1, [Outcome.blocked])
    | (c1, r) => ((runCloses srv ks c1).1, r :: (runCloses srv ks c1).2)

/-- How often the socket was closed. -/
def socketCloses (c : serverConn) : Nat := c.wire.count SockEvent.close

/-- The payloads pushed by a sequence of steps, in order. -/
def pushed : List Step → List (List Nat)
  | [] => []
  | .push msg :: ss => msg :: pushed ss
  | .event _ :: ss => pushed ss

/-- The payloads of the message frames written to the socket, in order. -/
def sentPayloads (wire : List SockEvent) : List (List Nat) :=
  wire.filterMap (fun e => match e with
    | .write (.message p) => some p
    | _ => none)

/-- The payloads of the message frames waiting in the queue, in order. -/
def queuedPayloads (q : List chWrite) : List (List Nat) :=
  q.filterMap (fun r => match r with
    | .dataPacket (.message p) => some p
    | _ => none)

/-- The payloads of the message frames of the blocked `Push` calls, in order. -/
def blockedPayloads (p : List Frame) : List (List Nat) :=
  p.filterMap (fun f => match f with
    | .message p => some p
    | _ => none)

/-- The payloads on their way out: those written, then those queued, then those of the
blocked `Push` calls. -/
def outbound (c : serverConn) : List (List Nat) :=
  sentPayloads c.wire ++ queuedPayloads c.chWrite ++ blockedPayloads c.pushing

/-- Whether no ticker firing of a sequence of events finds the heartbeat timed out: at
each tick the last-heartbeat timestamp is not older than the deadline of that tick. -/
def inTime (srv : server) : List Event → serverConn → Bool
  | [], _ => true
  | e :: es, c =>
    (match e with
      | .tick now => decide (¬ c.lastHeartbeatTime < deadline now srv.opts.heartbeatInterval)
      | _ => true) && inTime srv es (e.run srv c)

/-- How many items the writer has to take from the queue before a graceful close in
flight gets its drain-complete signal: the items queued, and the stop sentinel when it is
not yet in the queue. -/
def toDrain (c : serverConn) : Nat :=
  if c.closer = Closer.sending then c.chWrite.length + 1 else c.chWrite.length

end tcp
namespace buffer

theorem chain_lt {mem : List NocopyNode} {l : List Nat} :
    ∀ {p : Option Nat}, Chain mem p l → ∀ i ∈ l, i < mem.length := by
  induction l with
  | nil => intro p _ i hi; simp at hi
  | cons j l ih =>
    intro p h i hi
    simp only [Chain] at h
    obtain ⟨_, n, hn, hc⟩ := h
    rcases List.mem_cons.1 hi with rfl | hi
    · exact (List.getElem?_eq_some.1 hn).1
    · exact ih hc i hi

theorem chain_congr {mem mem1 : List NocopyNode} {l : List Nat} :
    ∀ {p : Option Nat},
      (∀ i ∈ l, (mem1[i]?).map (fun n => n.next) = (mem[i]?).map (fun n => n.next)) →
      Chain mem p l → Chain mem1 p l := by
  induction l with
  | nil => intro p _ h; simpa [Chain] using h
  | cons j l ih =>
    intro p hs h
    simp only [Chain] at h ⊢
    obtain ⟨hp, n, hn, hc⟩ := h
    have hj := hs j (List.mem_cons_self _ _)
    rw [hn] at hj
    obtain ⟨n1, hn1, hnext⟩ := Option.map_eq_some'.1 hj
    refine ⟨hp, n1, hn1, ?_⟩
    rw [hnext]
    exact ih (fun i hi => hs i (List.mem_cons_of_mem _ hi)) hc

theorem chain_snoc {mem mem1 : List NocopyNode} {t k : Nat} {l : List Nat} :
    ∀ {p : Option Nat}, Chain mem p (l ++ [t]) →
      (∀ i ∈ l, (mem1[i]?).map (fun n => n.next) = (mem[i]?).map (fun n => n.next)) →
      (∃ nt, mem1[t]? = some nt ∧ nt.next = some k) →
      (∃ nk, mem1[k]? = some nk ∧ nk.next = none) →
      Chain mem1 p (l ++ [t, k]) := by
  induction l with
  | nil =>
    intro p h _ ht hk
    simp only [List.nil_append, Chain] at h ⊢
    obtain ⟨nt, hnt, hnext⟩ := ht
    obtain ⟨nk, hnk, hnone⟩ := hk
    exact ⟨h.1, nt, hnt, by rw [hnext]; exact ⟨rfl, nk, hnk, hnone⟩⟩
  | cons j l ih =>
    intro p h hs ht hk
    simp only [List.cons_append, Chain] at h ⊢
    obtain ⟨hp, n, hn, hc⟩ := h
    have hj := hs j (List.mem_cons_self _ _)
    rw [hn] at hj
    obtain ⟨n1, hn1, hnext⟩ := Option.map_eq_some'.1 hj
    refine ⟨hp, n1, hn1, ?_⟩
    rw [hnext]
    exact ih hc (fun i hi => hs i (List.mem_cons_of_mem _ hi)) ht hk

theorem chain_none {mem : List NocopyNode} {l : List Nat} (h : Chain mem none l) : l = [] := by
  cases l with
  | nil => rfl
  | cons j l => simp [Chain] at h

theorem nodesAt_buf_congr {mem mem1 : List NocopyNode} {l : List Nat}
    (hs : ∀ i ∈ l, mem1[i]?.map (fun n => n.buf) = mem[i]?.map (fun n => n.buf)) :
    (nodesAt mem1 l).map (fun n => n.buf) = (nodesAt mem l).map (fun n => n.buf) := by
  induction l with
  | nil => rfl
  | cons j l ih =>
    have hj := hs j (List.mem_cons_self _ _)
    have ih1 := ih (fun i hi => hs i (List.mem_cons_of_mem _ hi))
    simp only [nodesAt] at ih1 ⊢
    cases h1 : mem1[j]? <;> cases h0 : mem[j]? <;>
      simp [List.filterMap_cons, h1, h0] at hj ⊢ <;> simp [ih1, hj]

theorem nodesAt_length {mem : List NocopyNode} {l : List Nat} (h : ∀ i ∈ l, i < mem.length) :
    (nodesAt mem l).length = l.length := by
  induction l with
  | nil => rfl
  | cons j l ih =>
    have hj := h j (List.mem_cons_self _ _)
    have ih1 := ih (fun i hi => h i (List.mem_cons_of_mem _ hi))
    simp only [nodesAt] at ih1 ⊢
    simp [List.filterMap_cons, List.getElem?_eq_getElem hj, ih1]

theorem linked_length_le {b : NocopyBuffer} {l : List Nat} (h : Linked b l) :
    l.length ≤ b.mem.length := by
  have hsub : l ⊆ List.range b.mem.length := fun i hi =>
    List.mem_range.2 (chain_lt h.chain i hi)
  simpa using (List.subperm_of_subset h.nodup hsub).length_le

theorem lenLoop_chain {mem : List NocopyNode} (l : List Nat) :
    ∀ (fuel : Nat) (p : Option Nat) (acc : Int), Chain mem p l → l.length ≤ fuel →
      lenLoop mem fuel p acc
        = some (acc + totalLen ((nodesAt mem l).map (fun n => n.buf))) := by
  induction l with
  | nil =>
    intro fuel p acc h _
    simp only [Chain] at h
    subst h
    cases fuel <;> simp [lenLoop, nodesAt, totalLen]
  | cons j l ih =>
    intro fuel p acc h hf
    simp only [Chain] at h
    obtain ⟨hp, n, hn, hc⟩ := h
    subst hp
    cases fuel with
    | zero => simp at hf
    | succ fuel =>
      have hf1 : l.length ≤ fuel := by simpa using hf
      simp only [lenLoop, hn]
      rw [ih fuel n.next (acc + n.Len) hc hf1]
      simp only [nodesAt, totalLen] at *
      simp [List.filterMap_cons, hn, NocopyNode.Len]
      ring

theorem rangeLoop_chain {mem : List NocopyNode} (fn : NocopyNode → Bool) (l : List Nat) :
    ∀ (fuel : Nat) (p : Option Nat), Chain mem p l → l.length ≤ fuel →
      rangeLoop mem fn fuel p = some (visitThrough fn (nodesAt mem l)) := by
  induction l with
  | nil =>
    intro fuel p h _
    simp only [Chain] at h
    subst h
    cases fuel <;> simp [rangeLoop, nodesAt, visitThrough]
  | cons j l ih =>
    intro fuel p h hf
    simp only [Chain] at h
    obtain ⟨hp, n, hn, hc⟩ := h
    subst hp
    cases fuel with
    | zero => simp at hf
    | succ fuel =>
      have hf1 : l.length ≤ fuel := by simpa using hf
      have ih1 := ih fuel n.next hc hf1
      simp only [nodesAt] at ih1
      simp only [rangeLoop, hn, nodesAt, List.filterMap_cons, visitThrough]
      by_cases hfn : fn n = true
      · simp [hfn, ih1]
      · simp [hfn]

theorem releaseLoop_chain (l : List Nat) :
    ∀ (mem : List NocopyNode) (fuel : Nat) (p : Option Nat), Chain mem p l → l.length ≤ fuel →
      ∃ mem1, releaseLoop fuel p mem = some mem1 := by
  induction l with
  | nil =>
    intro mem fuel p h _
    simp only [Chain] at h
    subst h
    cases fuel <;> exact ⟨mem, by simp [releaseLoop]⟩
  | cons j l ih =>
    intro mem fuel p h hf
    simp only [Chain] at h
    obtain ⟨hp, n, hn, hc⟩ := h
    subst hp
    cases fuel with
    | zero => simp at hf
    | succ fuel =>
      have hf1 : l.length ≤ fuel := by simpa using hf
      simp only [releaseLoop, hn]
      apply ih _ fuel n.next _ hf1
      refine chain_congr (fun i _ => ?_) hc
      rw [List.getElem?_set]
      have hj : j < mem.length := (List.getElem?_eq_some.1 hn).1
      by_cases hji : j = i
      · subst hji; simp [hj, hn, NocopyNode.Release]
      · simp [hji]

end buffer

namespace buffer

theorem holds_nil_of_head {b : NocopyBuffer} {rs : List (List Nat)} (h : Holds b rs)
    (hh : b.head = none) : rs = [] := by
  obtain ⟨l, hl, hrs⟩ := h
  have := hl.chain
  rw [hh] at this
  have hnil := chain_none this
  subst hnil
  simpa [nodesAt] using hrs.symm

theorem addToTail_fresh {b : NocopyBuffer} {rs : List (List Nat)} (node : NocopyNode)
    (hnext : node.next = none) (h : Holds b rs) :
    ∃ b2, (b.alloc node).2.addToTail (b.alloc node).1 = some b2 ∧ Holds b2 (rs ++ [node.buf])
      ∧ b2.len = -1 := by
  obtain ⟨l, hl, hrs⟩ := h
  have hlt := chain_lt hl.chain
  cases hh : b.head with
  | none =>
    have hc := hl.chain
    rw [hh] at hc
    have hnil := chain_none hc
    subst hnil
    refine ⟨NocopyBuffer.mk (-1) (some b.mem.length) (some b.mem.length) (b.mem ++ [node]),
      by simp [NocopyBuffer.addToTail, NocopyBuffer.alloc, hh], ⟨[b.mem.length], ?_, ?_⟩, rfl⟩
    · exact ⟨by simp [Chain, hnext], by simp, by simp⟩
    · simp [nodesAt] at hrs ⊢
      simp [← hrs, nodesAt]
  | some h0 =>
    have hne : l ≠ [] := by
      intro hnil
      have hc := hl.chain
      rw [hnil, hh] at hc
      simp [Chain] at hc
    have hlast : b.tail = some (l.getLast hne) := by
      rw [hl.last, List.getLast?_eq_getLast _ hne]
    obtain ⟨ys, hys⟩ := List.getLast?_eq_some_iff.1 (List.getLast?_eq_getLast l hne)
    generalize l.getLast hne = t at hlast hys
    subst hys
    have ht : t < b.mem.length := hlt t (by simp)
    obtain ⟨nt, hnt⟩ : ∃ nt, b.mem[t]? = some nt := ⟨_, List.getElem?_eq_getElem ht⟩
    have hnd := hl.nodup
    have htys : t ∉ ys := by
      intro hmem
      have := List.nodup_append.1 hnd
      exact this.2.2 hmem (by simp)
    have hget : ∀ i, i < b.mem.length →
        (((b.mem ++ [node]).set t { nt with next := some b.mem.length }).set b.mem.length
          { node with prev := some t })[i]?
          = if i = t then some { nt with next := some b.mem.length } else b.mem[i]? := by
      intro i hi
      have hik : b.mem.length ≠ i := by omega
      rw [List.getElem?_set_ne hik, List.getElem?_set]
      by_cases hit : t = i
      · subst hit; simp; omega
      · have : ¬ i = t := fun e => hit e.symm
        simp [hit, this, List.getElem?_append_left hi]
    have hgetk : (((b.mem ++ [node]).set t { nt with next := some b.mem.length }).set
          b.mem.length { node with prev := some t })[b.mem.length]?
          = some { node with prev := some t } := by
      rw [List.getElem?_set]
      simp
    refine ⟨NocopyBuffer.mk (-1) b.head (some b.mem.length)
        (((b.mem ++ [node]).set t { nt with next := some b.mem.length }).set
          b.mem.length { node with prev := some t }),
      ?_, ⟨ys ++ [t] ++ [b.mem.length], ?_, ?_⟩, rfl⟩
    · have h1 : (b.mem ++ [node])[t]? = some nt := by
        rw [List.getElem?_append_left ht]; exact hnt
      have h2 : ((b.mem ++ [node]).set t { nt with next := some b.mem.length })[b.mem.length]?
          = some node := by
        rw [List.getElem?_set_ne (by omega)]
        simp
      simp [NocopyBuffer.addToTail, NocopyBuffer.alloc, hh, hlast, setNext, setPrev, h1, h2]
    · refine ⟨?_, ?_, by simp⟩
      · simp only [List.append_assoc, List.singleton_append]
        refine chain_snoc hl.chain ?_
          ⟨{ nt with next := some b.mem.length }, by rw [hget t ht]; simp, rfl⟩
          ⟨_, hgetk, hnext⟩
        intro i hi
        have hi1 : i < b.mem.length := hlt i (by simp [hi])
        have hit : i ≠ t := fun e => htys (e ▸ hi)
        rw [hget i hi1]
        simp [hit]
      · rw [List.nodup_append]
        refine ⟨hnd, by simp, ?_⟩
        intro i hi hk
        simp at hk
        have := hlt i hi
        omega
    · simp only [nodesAt, List.filterMap_append, List.map_append] at hrs ⊢
      rw [← hrs]
      have e1 := @nodesAt_buf_congr b.mem (((b.mem ++ [node]).set t
          { nt with next := some b.mem.length }).set b.mem.length { node with prev := some t })
          (ys ++ [t]) (by
            intro i hi
            rw [hget i (hlt i hi)]
            by_cases hit : i = t
            · subst hit; simp [hnt]
            · simp [hit])
      simp only [nodesAt, List.filterMap_append, List.map_append] at e1
      rw [e1]
      simp [hgetk]

theorem addToHead_fresh {b : NocopyBuffer} {rs : List (List Nat)} (node : NocopyNode)
    (hnext : node.next = none) (h : Holds b rs) :
    ∃ b2, (b.alloc node).2.addToHead (b.alloc node).1 = some b2 ∧ Holds b2 (node.buf :: rs)
      ∧ b2.len = -1 := by
  obtain ⟨l, hl, hrs⟩ := h
  have hlt := chain_lt hl.chain
  cases hh : b.head with
  | none =>
    have hc := hl.chain
    rw [hh] at hc
    have hnil := chain_none hc
    subst hnil
    refine ⟨NocopyBuffer.mk (-1) (some b.mem.length) (some b.mem.length) (b.mem ++ [node]),
      by simp [NocopyBuffer.addToHead, NocopyBuffer.alloc, hh], ⟨[b.mem.length], ?_, ?_⟩, rfl⟩
    · exact ⟨by simp [Chain, hnext], by simp, by simp⟩
    · simp [nodesAt] at hrs ⊢
      simp [← hrs, nodesAt]
  | some h0 =>
    have hc := hl.chain
    rw [hh] at hc
    cases l with
    | nil => simp [Chain] at hc
    | cons j l1 =>
      have hc1 := hc
      simp only [Chain] at hc1
      obtain ⟨hj, nh, hnh, _⟩ := hc1
      have hj0 : h0 = j := by simpa using hj
      subst hj0
      have hh0 : h0 < b.mem.length := hlt h0 (by simp)
      have hget : ∀ i, i < b.mem.length →
          (((b.mem ++ [node]).set b.mem.length { node with next := some h0 }).set h0
            { nh with prev := some b.mem.length })[i]?
            = if i = h0 then some { nh with prev := some b.mem.length } else b.mem[i]? := by
        intro i hi
        rw [List.getElem?_set]
        by_cases hit : h0 = i
        · subst hit; simp; omega
        · have : ¬ i = h0 := fun e => hit e.symm
          have hik : b.mem.length ≠ i := by omega
          simp [hit, this, List.getElem?_set_ne hik, List.getElem?_append_left hi]
      have hgetk : (((b.mem ++ [node]).set b.mem.length { node with next := some h0 }).set h0
            { nh with prev := some b.mem.length })[b.mem.length]?
            = some { node with next := some h0 } := by
        rw [List.getElem?_set_ne (by omega), List.getElem?_set]
        simp
      refine ⟨NocopyBuffer.mk (-1) (some b.mem.length) b.tail
          (((b.mem ++ [node]).set b.mem.length { node with next := some h0 }).set h0
            { nh with prev := some b.mem.length }),
        ?_, ⟨b.mem.length :: h0 :: l1, ?_, ?_⟩, rfl⟩
      · have h1 : (b.mem ++ [node])[b.mem.length]? = some node := by simp
        have h2 : ((b.mem ++ [node]).set b.mem.length { node with next := some h0 })[h0]?
            = some nh := by
          rw [List.getElem?_set_ne (by omega), List.getElem?_append_left hh0]
          exact hnh
        have h3 : ∀ x, (b.mem ++ [x])[h0]? = some nh := by
          intro x
          rw [List.getElem?_append_left hh0]
          exact hnh
        simp [NocopyBuffer.addToHead, NocopyBuffer.alloc, hh, setNext, setPrev, h1, h2, h3]
      · refine ⟨?_, ?_, ?_⟩
        · refine ⟨rfl, _, hgetk, ?_⟩
          refine chain_congr ?_ hc
          intro i hi
          rw [hget i (hlt i hi)]
          by_cases hit : i = h0
          · subst hit; simp [hnh]
          · simp [hit]
        · rw [List.nodup_cons]
          refine ⟨?_, hl.nodup⟩
          intro hmem
          have := hlt _ hmem
          omega
        · simp [hl.last]
      · have e1 := @nodesAt_buf_congr b.mem (((b.mem ++ [node]).set b.mem.length
            { node with next := some h0 }).set h0 { nh with prev := some b.mem.length })
            (h0 :: l1) (by
              intro i hi
              rw [hget i (hlt i hi)]
              by_cases hit : i = h0
              · subst hit; simp [hnh]
              · simp [hit])
        rw [← hrs, ← e1]
        simp only [nodesAt, List.filterMap_cons, hgetk]
        simp

theorem mount_holds {b : NocopyBuffer} {rs : List (List Nat)} (data : List Nat)
    (whence : List Whence) (h : Holds b rs) :
    ∃ b1, b.Mount data whence = some b1 ∧ b1.len = -1 ∧
      Holds b1 (if whence.head? = some Whence.Head then data :: rs else rs ++ [data]) := by
  by_cases hw : whence.head? = some Whence.Head
  · have hlen : whence.length > 0 := by
      cases whence with
      | nil => simp at hw
      | cons a w => simp
    obtain ⟨b2, h2, hh, hl⟩ := addToHead_fresh
      { buf := data, pool := false, prev := none, next := none, released := false } rfl h
    exact ⟨b2, by simpa [NocopyBuffer.Mount, hw, hlen] using h2, hl, by simpa [hw] using hh⟩
  · obtain ⟨b2, h2, hh, hl⟩ := addToTail_fresh
      { buf := data, pool := false, prev := none, next := none, released := false } rfl h
    exact ⟨b2, by simpa [NocopyBuffer.Mount, hw] using h2, hl, by simpa [hw] using hh⟩

theorem len_holds {b : NocopyBuffer} {rs : List (List Nat)} (h : Holds b rs)
    (hc : CacheOk b rs) :
    ∃ b1, b.Len = some (totalLen rs, b1) ∧ Holds b1 rs ∧ CacheOk b1 rs := by
  have hnn : (0 : Int) ≤ totalLen rs := by
    unfold totalLen
    apply List.sum_nonneg
    intro x hx
    simp only [List.mem_map] at hx
    obtain ⟨r, _, rfl⟩ := hx
    exact Int.natCast_nonneg _
  by_cases hge : b.len ≥ 0
  · have hb : b.len = totalLen rs := by
      rcases hc with h1 | h1
      · omega
      · exact h1
    exact ⟨b, by unfold NocopyBuffer.Len; rw [if_pos hge, hb], h, hc⟩
  · obtain ⟨l, hl, hrs⟩ := h
    have hloop := lenLoop_chain l b.mem.length b.head 0 hl.chain (linked_length_le hl)
    rw [hrs, zero_add] at hloop
    refine ⟨{ b with len := totalLen rs },
      by unfold NocopyBuffer.Len; rw [if_neg hge, hloop], ?_, Or.inr rfl⟩
    exact ⟨l, ⟨hl.chain, hl.nodup, hl.last⟩, hrs⟩

theorem release_holds {b : NocopyBuffer} {rs : List (List Nat)} (h : Holds b rs) :
    ∃ b1, b.Release = some b1 ∧ Holds b1 [] ∧ b1.head = none ∧ b1.len = b.len := by
  obtain ⟨l, hl, _⟩ := h
  obtain ⟨mem1, hm⟩ := releaseLoop_chain l b.mem b.mem.length b.head hl.chain
    (linked_length_le hl)
  refine ⟨{ b with mem := mem1, head := none, tail := none }, by simp [NocopyBuffer.Release, hm],
    ⟨[], ⟨by simp [Chain], by simp, by simp⟩, by simp [nodesAt]⟩, rfl, rfl⟩

theorem range_holds {b : NocopyBuffer} {rs : List (List Nat)} (fn : NocopyNode → Bool)
    (h : Holds b rs) :
    ∃ ns, ns.map (fun n => n.buf) = rs ∧ b.Range fn = some (visitThrough fn ns) := by
  obtain ⟨l, hl, hrs⟩ := h
  exact ⟨nodesAt b.mem l, hrs,
    rangeLoop_chain fn l b.mem.length b.head hl.chain (linked_length_le hl)⟩

theorem holds_new : Holds NewNocopyBuffer [] :=
  ⟨[], ⟨by simp [Chain, NewNocopyBuffer], by simp, by simp [NewNocopyBuffer]⟩, by simp [nodesAt]⟩

theorem visitThrough_all {α : Type} (fn : α → Bool) (l : List α) (h : ∀ x ∈ l, fn x = true) :
    visitThrough fn l = l := by
  induction l with
  | nil => rfl
  | cons x xs ih =>
    simp only [visitThrough, h x (List.mem_cons_self _ _), if_true]
    rw [ih (fun y hy => h y (List.mem_cons_of_mem _ hy))]

end buffer

namespace buffer

theorem len_total {b : NocopyBuffer} {rs : List (List Nat)} (h : Holds b rs) :
    ∃ r b1, b.Len = some (r, b1) ∧ Holds b1 rs := by
  by_cases hge : b.len ≥ 0
  · exact ⟨b.len, b, by unfold NocopyBuffer.Len; rw [if_pos hge], h⟩
  · obtain ⟨l, hl, hrs⟩ := h
    have hloop := lenLoop_chain l b.mem.length b.head 0 hl.chain (linked_length_le hl)
    refine ⟨_, { b with len := _ }, by unfold NocopyBuffer.Len; rw [if_neg hge, hloop], ?_⟩
    exact ⟨l, ⟨hl.chain, hl.nodup, hl.last⟩, hrs⟩

theorem totalLen_cons (r : List Nat) (rs : List (List Nat)) :
    totalLen (r :: rs) = r.length + totalLen rs := by
  simp [totalLen]

theorem totalLen_snoc (r : List Nat) (rs : List (List Nat)) :
    totalLen (rs ++ [r]) = totalLen rs + r.length := by
  simp [totalLen]

theorem runCalls_mount_len (cs : List Call) :
    ∀ (b : NocopyBuffer) (log : List Int) (rs : List (List Nat)),
      (∀ c ∈ cs, c ≠ Call.release) → Holds b rs → CacheOk b rs →
      ∃ b2, runCalls cs (b, log) = some (b2, log ++ lenLog cs (totalLen rs))
        ∧ Holds b2 (regionsAfter cs rs) ∧ CacheOk b2 (regionsAfter cs rs)
        ∧ totalLen (regionsAfter cs rs) = totalLen rs + mountedLen cs := by
  induction cs with
  | nil =>
    intro b log rs _ h hc
    exact ⟨b, by simp [runCalls, lenLog], h, hc, by simp [regionsAfter, mountedLen]⟩
  | cons c cs ih =>
    intro b log rs hnr h hc
    have hnr1 : ∀ c1 ∈ cs, c1 ≠ Call.release := fun c1 h1 => hnr c1 (List.mem_cons_of_mem _ h1)
    cases c with
    | mount data whence =>
      obtain ⟨b1, hm, hlen, hh⟩ := mount_holds data whence h
      by_cases hw : whence.head? = some Whence.Head
      · rw [if_pos hw] at hh
        obtain ⟨b2, hr, h2, hc2, ht⟩ := ih b1 log (data :: rs) hnr1 hh (Or.inl hlen)
        refine ⟨b2, ?_, ?_, ?_, ?_⟩
        · simp only [runCalls, Call.run, hm, Option.map_some']
          rw [hr, totalLen_cons]
          simp [lenLog, add_comm]
        · simpa [regionsAfter, hw] using h2
        · simpa [regionsAfter, hw] using hc2
        · simp only [regionsAfter, hw, if_true, mountedLen]
          rw [ht, totalLen_cons]; ring
      · rw [if_neg hw] at hh
        obtain ⟨b2, hr, h2, hc2, ht⟩ := ih b1 log (rs ++ [data]) hnr1 hh (Or.inl hlen)
        refine ⟨b2, ?_, ?_, ?_, ?_⟩
        · simp only [runCalls, Call.run, hm, Option.map_some']
          rw [hr, totalLen_snoc]
          simp [lenLog]
        · simpa [regionsAfter, hw] using h2
        · simpa [regionsAfter, hw] using hc2
        · simp only [regionsAfter, hw, if_false, mountedLen]
          rw [ht, totalLen_snoc]; ring
    | len =>
      obtain ⟨b1, hl, hh, hc1⟩ := len_holds h hc
      obtain ⟨b2, hr, h2, hc2, ht⟩ := ih b1 (log ++ [totalLen rs]) rs hnr1 hh hc1
      refine ⟨b2, ?_, by simpa [regionsAfter] using h2, by simpa [regionsAfter] using hc2, ?_⟩
      · simp only [runCalls, Call.run, hl, Option.map_some']
        rw [hr]
        simp [lenLog]
      · simpa [regionsAfter, mountedLen] using ht
    | release => exact absurd rfl (hnr _ (List.mem_cons_self _ _))

theorem runCalls_holds (cs : List Call) :
    ∀ (b : NocopyBuffer) (log : List Int) (rs : List (List Nat)), Holds b rs →
      ∃ b2 log2, runCalls cs (b, log) = some (b2, log2) ∧ Holds b2 (regionsAfter cs rs) := by
  induction cs with
  | nil => intro b log rs h; exact ⟨b, log, rfl, h⟩
  | cons c cs ih =>
    intro b log rs h
    cases c with
    | mount data whence =>
      obtain ⟨b1, hm, _, hh⟩ := mount_holds data whence h
      obtain ⟨b2, log2, hr, h2⟩ := ih b1 log _ hh
      refine ⟨b2, log2, by simp only [runCalls, Call.run, hm, Option.map_some']; exact hr, ?_⟩
      by_cases hw : whence.head? = some Whence.Head
      · simpa [regionsAfter, hw] using h2
      · simpa [regionsAfter, hw] using h2
    | len =>
      obtain ⟨r, b1, hl, hh⟩ := len_total h
      obtain ⟨b2, log2, hr, h2⟩ := ih b1 (log ++ [r]) rs hh
      exact ⟨b2, log2, by simp only [runCalls, Call.run, hl, Option.map_some']; exact hr,
        by simpa [regionsAfter] using h2⟩
    | release =>
      obtain ⟨b1, hl, hh, _⟩ := release_holds h
      obtain ⟨b2, log2, hr, h2⟩ := ih b1 log [] hh
      exact ⟨b2, log2, by simp only [runCalls, Call.run, hl, Option.map_some']; exact hr,
        by simpa [regionsAfter] using h2⟩

/-- C8: after any sequence of `Mount` calls (head or tail) with `Len` calls anywhere in
between, started on a new buffer, every call succeeds, each interleaved `Len` returned
the sum of the lengths of the regions mounted before it, and a final `Len()` returns the
sum of the lengths of all mounted regions. -/
theorem len_returns_mounted_sum (cs : List Call) (h : ∀ c ∈ cs, c ≠ Call.release) :
    ∃ b b1, runCalls cs (NewNocopyBuffer, []) = some (b, lenLog cs 0)
      ∧ b.Len = some (mountedLen cs, b1) := by
  obtain ⟨b2, hr, h2, hc2, ht⟩ :=
    runCalls_mount_len cs NewNocopyBuffer [] [] h holds_new (Or.inl rfl)
  obtain ⟨b1, hl, _, _⟩ := len_holds h2 hc2
  have h0 : totalLen [] = 0 := rfl
  rw [h0] at hr
  rw [ht, h0, zero_add] at hl
  exact ⟨b2, b1, by simpa using hr, hl⟩

/-- C8 at regions of length 5 and 7, with a `Len` call in between: the `Len` in between
returned 5 and the final `Len()` returns 12. -/
theorem len_returns_mounted_sum_witness :
    (∀ c ∈ [Call.mount [1, 2, 3, 4, 5] [], Call.len,
        Call.mount [1, 2, 3, 4, 5, 6, 7] [Whence.Head]], c ≠ Call.release)
    ∧ ∃ b b1, runCalls [Call.mount [1, 2, 3, 4, 5] [], Call.len,
          Call.mount [1, 2, 3, 4, 5, 6, 7] [Whence.Head]] (NewNocopyBuffer, []) = some (b, [5])
        ∧ b.Len = some (12, b1) :=
  ⟨by decide, len_returns_mounted_sum _ (by decide)⟩

/-- C9 (the code at the failing input): mount 5 bytes, mount 7 bytes, `Len()` (12, now
cached), `Release()`, `Len()`: the second `Len()` still returns 12 although the buffer is
empty, because `Release` leaves the cached length as it was. -/
theorem release_keeps_stale_len :
    (runCalls [Call.mount [1, 2, 3, 4, 5] [], Call.mount [1, 2, 3, 4, 5, 6, 7] [], Call.len,
        Call.release, Call.len] (NewNocopyBuffer, [])).map
        (fun s => (s.2, s.1.len, s.1.head, s.1.tail)) = some ([12, 12], 12, none, none)
    ∧ regionsAfter [Call.mount [1, 2, 3, 4, 5] [], Call.mount [1, 2, 3, 4, 5, 6, 7] [],
        Call.len, Call.release, Call.len] [] = []
    ∧ ∀ b b1 : NocopyBuffer, b.Release = some b1 → b1.len = b.len := by
  refine ⟨by decide, by decide, ?_⟩
  intro b b1 h
  unfold NocopyBuffer.Release at h
  split at h
  · simp at h
  · simp at h
    rw [← h]

/-- C10: after any sequence of calls on a new buffer, `Range` hands the callback the
nodes of the regions currently in the buffer, front to back, where each `Head`-mounted
region was prepended and every other mounted region appended; it stops right after the
first node on which the callback answers `false`, visits every node when the callback
always answers `true`, and visits no node once the buffer is released. -/
theorem range_visits_in_order (cs : List Call) (fn : NocopyNode → Bool) :
    ∃ b log ns, runCalls cs (NewNocopyBuffer, []) = some (b, log)
      ∧ ns.map (fun n => n.buf) = regionsAfter cs []
      ∧ b.Range fn = some (visitThrough fn ns)
      ∧ ((∀ n, fn n = true) → b.Range fn = some ns)
      ∧ ∃ b1, b.Release = some b1 ∧ b1.Range fn = some [] := by
  obtain ⟨b, log, hr, hh⟩ := runCalls_holds cs NewNocopyBuffer [] [] holds_new
  obtain ⟨ns, hns, hrange⟩ := range_holds fn hh
  obtain ⟨b1, hrel, hh1, _, _⟩ := release_holds hh
  obtain ⟨ns1, hns1, hrange1⟩ := range_holds fn hh1
  refine ⟨b, log, ns, hr, hns, hrange, ?_, b1, hrel, ?_⟩
  · intro hall
    rw [hrange, visitThrough_all fn ns (fun x _ => hall x)]
  · have : ns1 = [] := by simpa using hns1
    rw [hrange1, this]
    rfl

end buffer

namespace tcp

theorem teardown_state (srv : server) (b : Bool) (cerr : Option Nat) (c : serverConn) :
    (c.teardown srv b cerr).1.state = ConnState.ConnClosed := by
  simp only [serverConn.teardown, serverConn.closeChans]
  split_ifs <;> rfl

theorem forceClose_state (srv : server) (cerr : Option Nat) (c : serverConn) :
    (c.forceClose srv cerr).1.state
      = if c.state = ConnState.ConnOpened then ConnState.ConnClosed else c.state := by
  cases hs : c.state <;> simp [serverConn.forceClose, serverConn.checkState, hs, teardown_state]



theorem allowed_refl (s : ConnState) : Allowed s s := Or.inl rfl

theorem allowed_closed (s : ConnState) : Allowed s ConnState.ConnClosed := by
  cases s <;> simp [Allowed]

theorem allowed_forceClose (srv : server) (cerr : Option Nat) (c : serverConn) :
    Allowed c.state (c.forceClose srv cerr).1.state := by
  rw [forceClose_state]
  split
  · exact allowed_closed _
  · exact allowed_refl _

theorem allowed_readFrame (srv : server) (r : Option (Bool × List Nat)) (now : Int)
    (c : serverConn) : Allowed c.state (c.readFrame srv r now).1.state := by
  cases r with
  | none => exact allowed_forceClose srv none c
  | some p =>
    obtain ⟨hb, msg⟩ := p
    have : (c.readFrame srv (some (hb, msg)) now).1.state = c.state := by
      simp only [serverConn.readFrame, serverConn.State]
      split_ifs <;> split <;> (try split_ifs) <;> rfl
    rw [this]
    exact allowed_refl _

theorem allowed_writeItem (r : Option chWrite) (c : serverConn) :
    (c.writeItem r).1.state = c.state := by
  unfold serverConn.writeItem
  split
  · rfl
  · split_ifs <;> rfl
  · split_ifs <;> rfl

theorem allowed_writeTick (srv : server) (now : Int) (c : serverConn) :
    Allowed c.state (c.writeTick srv now).1.state := by
  unfold serverConn.writeTick
  split_ifs
  · exact allowed_forceClose srv none c
  all_goals exact allowed_refl _

theorem afterRead_state (r : serverConn × Loop) : (serverConn.afterRead r).state = r.1.state := by
  unfold serverConn.afterRead
  split <;> rfl

theorem afterWrite_state (r : serverConn × Loop) :
    (serverConn.afterWrite r).state = r.1.state := by
  unfold serverConn.afterWrite
  split <;> rfl

theorem pushSend_state (c : serverConn) : c.pushSend.state = c.state := by
  unfold serverConn.pushSend
  split
  · rfl
  · split_ifs <;> rfl

theorem graceCloseSend_state (c : serverConn) : c.graceCloseSend.state = c.state := by
  unfold serverConn.graceCloseSend
  split_ifs <;> rfl

theorem wakeSender_state (c : serverConn) : c.wakeSender.state = c.state := by
  unfold serverConn.wakeSender
  split_ifs
  · exact pushSend_state c
  · exact graceCloseSend_state c

theorem allowed_event (srv : server) (e : Event) (c : serverConn) :
    Allowed c.state (e.run srv c).state := by
  cases e with
  | poll =>
    simp only [Event.run]
    split_ifs <;> exact allowed_refl _
  | decoded r now =>
    simp only [Event.run]
    split_ifs
    · exact allowed_refl _
    · rw [afterRead_state]; exact allowed_readFrame srv r now c
    · exact allowed_refl _
  | recv =>
    simp only [Event.run]
    split
    · split
      · split_ifs <;> exact allowed_refl _
      · split_ifs
        · exact allowed_refl _
        · rw [afterWrite_state, allowed_writeItem, wakeSender_state]; exact allowed_refl _
      · rw [afterWrite_state, allowed_writeItem, wakeSender_state]; exact allowed_refl _
    · exact allowed_refl _
  | tick now =>
    simp only [Event.run]
    split_ifs
    · exact allowed_refl _
    · rw [afterWrite_state]; exact allowed_writeTick srv now c
    · exact allowed_refl _
  | closeWake =>
    simp only [Event.run, serverConn.graceCloseWake]
    split_ifs <;> exact allowed_refl _
  | readerLock =>
    simp only [Event.run]
    split_ifs
    · rw [afterRead_state]; exact allowed_forceClose srv none c
    · exact allowed_refl _
  | writerLock =>
    simp only [Event.run]
    split_ifs
    · rw [afterWrite_state]; exact allowed_forceClose srv none c
    · exact allowed_refl _

theorem allowed_action (srv : server) (a : Action) (c : serverConn) :
    Allowed c.state (a.run srv c).state := by
  cases a with
  | send msg werr =>
    simp only [Action.run, serverConn.Send]
    split_ifs <;> (try split) <;> (try split_ifs) <;> exact allowed_refl _
  | push msg =>
    simp only [Action.run, serverConn.Push]
    split_ifs <;> (try split) <;> (try split_ifs) <;> exact allowed_refl _
  | localAddr =>
    simp only [Action.run, serverConn.LocalAddr]
    split_ifs <;> (try split) <;> (try split_ifs) <;> exact allowed_refl _
  | remoteAddr =>
    simp only [Action.run, serverConn.RemoteAddr]
    split_ifs <;> (try split) <;> (try split_ifs) <;> exact allowed_refl _
  | forceClose cerr =>
    simp only [Action.run]
    split_ifs
    · exact allowed_refl _
    · exact allowed_forceClose srv cerr c
  | graceEnter =>
    simp only [Action.run]
    split_ifs
    · exact allowed_refl _
    · cases hs : c.state <;>
        simp [serverConn.graceCloseEnter, serverConn.checkState, hs, Allowed] <;>
        split_ifs <;> simp
  | graceExit cerr =>
    simp only [Action.run]
    split_ifs
    · simp only [serverConn.graceCloseExit, teardown_state]
      exact allowed_closed _
    · exact allowed_refl _
  | event e => exact allowed_event srv e c

theorem closed_stays (srv : server) (as : List Action) :
    ∀ (c : serverConn), c.state = ConnState.ConnClosed →
      (runActions srv as c).state = ConnState.ConnClosed := by
  induction as with
  | nil => intro c h; exact h
  | cons a as ih =>
    intro c h
    apply ih
    have := allowed_action srv a c
    rw [h] at this
    simpa [Allowed, eq_comm] using this

theorem never_reopened (srv : server) (as : List Action) :
    ∀ (c : serverConn), c.state ≠ ConnState.ConnOpened →
      (runActions srv as c).state ≠ ConnState.ConnOpened := by
  induction as with
  | nil => intro c h; exact h
  | cons a as ih =>
    intro c h
    apply ih
    have := allowed_action srv a c
    intro h1
    rw [h1] at this
    rcases this with h2 | h2 | h2 | h2
    · exact h h2
    · simp at h2
    · simp at h2
    · simp at h2

theorem chain_stateTrace (srv : server) (as : List Action) :
    ∀ (c : serverConn), List.Chain Allowed c.state (stateTrace srv as c) := by
  induction as with
  | nil => intro c; exact List.Chain.nil
  | cons a as ih =>
    intro c
    exact List.Chain.cons (allowed_action srv a c) (ih _)

/-- C1: along every sequence of steps on a connection (Send, Push, address queries,
forced close, entry and exit of a graceful close, reader and writer loop steps), each
step leaves the state as it is or takes it from Opened to Hanged, from Hanged to Closed
or from Opened to Closed; once Closed the state stays Closed, and once Hanged it never
is Opened again. -/
theorem state_transitions (srv : server) (as : List Action) (c : serverConn) :
    List.Chain Allowed c.state (stateTrace srv as c)
      ∧ (c.state = ConnState.ConnClosed → (runActions srv as c).state = ConnState.ConnClosed)
      ∧ (c.state = ConnState.ConnHanged → (runActions srv as c).state ≠ ConnState.ConnOpened) :=
  ⟨chain_stateTrace srv as c, closed_stays srv as c,
    fun h => never_reopened srv as c (by rw [h]; decide)⟩

end tcp
namespace tcp

theorem teardown_outcome (srv : server) (b : Bool) (cerr : Option Nat) (c : serverConn) :
    ((c.teardown srv b cerr).2 = Outcome.crash ∧ (c.teardown srv b cerr).1.crashed = true)
      ∨ ((c.teardown srv b cerr).2 = Outcome.returned (cerr.map Error.io)
          ∧ (c.teardown srv b cerr).1.chWriteClosed = true
          ∧ (c.teardown srv b cerr).1.crashed = false) := by
  simp only [serverConn.teardown, serverConn.closeChans]
  split_ifs <;> simp_all

theorem io_ne_hanged (cerr : Option Nat) :
    cerr.map Error.io ≠ some Error.ErrConnectionHanged := by
  cases cerr <;> simp

theorem io_ne_closed (cerr : Option Nat) :
    cerr.map Error.io ≠ some Error.ErrConnectionClosed := by
  cases cerr <;> simp

theorem guarded_Send (c : serverConn) (msg : List Nat) (werr : Option Nat) :
    StateGuarded c (c.Send msg werr) := by
  cases hs : c.state <;> cases werr <;>
    simp [StateGuarded, serverConn.Send, serverConn.checkState, hs] <;> split_ifs <;> simp

theorem guarded_Push (c : serverConn) (msg : List Nat) :
    StateGuarded c (c.Push msg) := by
  cases hs : c.state <;>
    simp [StateGuarded, serverConn.Push, serverConn.checkState, hs] <;> split_ifs <;> simp

theorem guarded_LocalAddr (c : serverConn) : StateGuarded c c.LocalAddr := by
  cases hs : c.state <;>
    simp [StateGuarded, serverConn.LocalAddr, serverConn.checkState, hs] <;> split_ifs <;> simp

theorem guarded_RemoteAddr (c : serverConn) : StateGuarded c c.RemoteAddr := by
  cases hs : c.state <;>
    simp [StateGuarded, serverConn.RemoteAddr, serverConn.checkState, hs] <;> split_ifs <;> simp

theorem guarded_forceClose (srv : server) (cerr : Option Nat) (c : serverConn) :
    StateGuarded c (c.forceClose srv cerr) := by
  cases hs : c.state with
  | ConnOpened =>
    have h := teardown_outcome srv true cerr c
    have h1 := io_ne_hanged cerr
    have h2 := io_ne_closed cerr
    simp only [StateGuarded, serverConn.forceClose, serverConn.checkState, hs]
    rcases h with ⟨h, _⟩ | ⟨h, _⟩ <;> simp [h, h1, h2]
  | ConnHanged => simp [StateGuarded, serverConn.forceClose, serverConn.checkState, hs]
  | ConnClosed => simp [StateGuarded, serverConn.forceClose, serverConn.checkState, hs]

theorem graceCloseEnter_opened (c : serverConn) (hs : c.state = ConnState.ConnOpened) :
    c.graceCloseEnter.2 = some Outcome.crash ∨ c.graceCloseEnter.2 = none := by
  simp only [serverConn.graceCloseEnter, serverConn.checkState, hs]
  split_ifs <;> simp

theorem graceClose_opened (srv : server) (b : Bool) (during : List Event) (cerr : Option Nat)
    (c : serverConn) (hs : c.state = ConnState.ConnOpened) :
    (c.graceClose srv b during cerr).2 = Outcome.crash
      ∨ (c.graceClose srv b during cerr).2 = Outcome.blocked
      ∨ ((c.graceClose srv b during cerr).2 = Outcome.returned (cerr.map Error.io)
          ∧ (c.graceClose srv b during cerr).1.state = ConnState.ConnClosed
          ∧ (c.graceClose srv b during cerr).1.chWriteClosed = true) := by
  have he := graceCloseEnter_opened c hs
  unfold serverConn.graceClose
  rcases hc : c.graceCloseEnter with ⟨c1, r⟩
  rw [hc] at he
  cases r with
  | some r =>
    simp only [Option.some.injEq, reduceCtorEq, or_false] at he
    simp [he]
  | none =>
    simp only
    generalize runEvents srv during c1 = c2
    split_ifs
    · simp only [serverConn.graceCloseExit]
      rcases teardown_outcome srv b cerr { c2 with closer := Closer.idle } with
        ⟨h, _⟩ | ⟨h, h3, _⟩
      · exact Or.inl h
      · exact Or.inr (Or.inr ⟨h, teardown_state _ _ _ _, h3⟩)
    · exact Or.inr (Or.inl rfl)

theorem guarded_graceClose (srv : server) (b : Bool) (during : List Event) (cerr : Option Nat)
    (c : serverConn) : StateGuarded c (c.graceClose srv b during cerr) := by
  cases hs : c.state with
  | ConnOpened =>
    have h1 := io_ne_hanged cerr
    have h2 := io_ne_closed cerr
    simp only [StateGuarded]
    rcases graceClose_opened srv b during cerr c hs with h | h | ⟨h, _, _⟩ <;>
      simp [h, h1, h2, hs]
  | ConnHanged =>
    simp [StateGuarded, serverConn.graceClose, serverConn.graceCloseEnter,
      serverConn.checkState, hs]
  | ConnClosed =>
    simp [StateGuarded, serverConn.graceClose, serverConn.graceCloseEnter,
      serverConn.checkState, hs]

theorem guarded_Close (srv : server) (isForce : List Bool) (during : List Event)
    (cerr : Option Nat) (c : serverConn) :
    StateGuarded c (c.Close srv isForce during cerr) := by
  unfold serverConn.Close
  split_ifs
  · exact guarded_forceClose srv cerr c
  · exact guarded_graceClose srv true during cerr c

theorem Close_returned (srv : server) (isForce : List Bool) (during : List Event)
    (cerr : Option Nat) (c : serverConn) (hs : c.state = ConnState.ConnOpened)
    (e : Option Error) (hr : (c.Close srv isForce during cerr).2 = Outcome.returned e) :
    (c.Close srv isForce during cerr).1.state = ConnState.ConnClosed
      ∧ (c.Close srv isForce during cerr).1.chWriteClosed = true := by
  unfold serverConn.Close at hr ⊢
  split_ifs at hr ⊢
  · simp only [serverConn.forceClose, serverConn.checkState, hs] at hr ⊢
    refine ⟨teardown_state _ _ _ _, ?_⟩
    rcases teardown_outcome srv true cerr c with ⟨h, _⟩ | ⟨_, h, _⟩
    · rw [h] at hr; simp at hr
    · exact h
  · rcases graceClose_opened srv true during cerr c hs with h | h | ⟨_, h3, h4⟩
    · rw [h] at hr; simp at hr
    · rw [h] at hr; simp at hr
    · exact ⟨h3, h4⟩

/-- C3: on every connection each state-guarded operation (Send, Push, LocalAddr,
RemoteAddr, Close, forced or graceful) returns `ErrConnectionHanged` exactly when the
state is Hanged and `ErrConnectionClosed` exactly when it is Closed, and in both cases
leaves the whole connection, socket and queue included, as it was; and a Push after a
Close that went ahead from Opened and returned gets `ErrConnectionClosed` and leaves the
closed queue as it is. -/
theorem state_guarded_operations (srv : server) (c : serverConn) (msg : List Nat)
    (werr cerr : Option Nat) (isForce : List Bool) (during : List Event) :
    StateGuarded c (c.Send msg werr) ∧ StateGuarded c (c.Push msg)
      ∧ StateGuarded c c.LocalAddr ∧ StateGuarded c c.RemoteAddr
      ∧ StateGuarded c (c.Close srv isForce during cerr)
      ∧ (c.state = ConnState.ConnOpened →
          ∀ e, (c.Close srv isForce during cerr).2 = Outcome.returned e →
            (c.Close srv isForce during cerr).1.chWriteClosed = true
            ∧ ((c.Close srv isForce during cerr).1.Push msg).2
                = Outcome.returned (some Error.ErrConnectionClosed)
            ∧ ((c.Close srv isForce during cerr).1.Push msg).1
                = (c.Close srv isForce during cerr).1) := by
  refine ⟨guarded_Send c msg werr, guarded_Push c msg, guarded_LocalAddr c,
    guarded_RemoteAddr c, guarded_Close srv isForce during cerr c, ?_⟩
  intro hs e hr
  obtain ⟨h1, h2⟩ := Close_returned srv isForce during cerr c hs e hr
  have hg := guarded_Push (c.Close srv isForce during cerr).1 msg
  exact ⟨h2, hg.2.1.2 h1, hg.2.2 (by rw [h1]; decide)⟩

end tcp
namespace tcp

/-- C7 (the claim fails here): under the responsive mechanism a heartbeat frame decoded
while the connection is Hanged is not answered: the reader writes nothing to the socket
and goes round again. -/
theorem heartbeat_unanswered_while_hanged :
    respServer.opts.heartbeatMechanism = HeartbeatMechanism.RespHeartbeat
      ∧ (serverConn.init respServer 0).graceCloseEnter.1.state = ConnState.ConnHanged
      ∧ ((serverConn.init respServer 0).graceCloseEnter.1.readFrame respServer
            (some (true, [])) 5).1.wire = []
      ∧ ((serverConn.init respServer 0).graceCloseEnter.1.readFrame respServer
            (some (true, [])) 5).2 = Loop.again := by
  decide

/-- C7 as amended: with a receive hook registered, a decoded frame is handed to the hook
(once, with its payload) exactly when the state is Opened, the frame is no heartbeat and
the payload is not empty; a frame decoded while Hanged is dropped (only the timestamp is
refreshed) and the loop goes on; a frame decoded while Closed ends the loop; a heartbeat
frame is never handed to the hook and is answered with a heartbeat frame exactly when
the state is Opened and the mechanism is responsive; a decode error runs the forced
close, which closes an Opened connection, and ends the loop. -/
theorem read_frame_dispatch (srv : server) (c : serverConn) (isHeartbeat : Bool)
    (msg : List Nat) (now : Int) (hh : srv.receiveHandler = true) :
    ((c.readFrame srv (some (isHeartbeat, msg)) now).1.received =
        if c.state = ConnState.ConnOpened ∧ isHeartbeat = false ∧ msg ≠ []
        then c.received ++ [msg] else c.received)
      ∧ (c.state = ConnState.ConnHanged →
          c.readFrame srv (some (isHeartbeat, msg)) now =
            ({ c with lastHeartbeatTime :=
                if srv.opts.heartbeatInterval > 0 then now else c.lastHeartbeatTime },
              Loop.again))
      ∧ (c.state = ConnState.ConnClosed →
          c.readFrame srv (some (isHeartbeat, msg)) now =
            ({ c with lastHeartbeatTime :=
                if srv.opts.heartbeatInterval > 0 then now else c.lastHeartbeatTime },
              Loop.stop))
      ∧ (isHeartbeat = true →
          ((c.readFrame srv (some (isHeartbeat, msg)) now).1.wire =
            if c.state = ConnState.ConnOpened
                ∧ srv.opts.heartbeatMechanism = HeartbeatMechanism.RespHeartbeat
            then c.wire ++ [SockEvent.write (packHeartbeat srv.opts.heartbeatWithServerTime)]
            else c.wire))
      ∧ (isHeartbeat = false → (c.readFrame srv (some (isHeartbeat, msg)) now).1.wire = c.wire)
      ∧ c.readFrame srv none now = ((c.forceClose srv none).1, Loop.stop)
      ∧ (c.state = ConnState.ConnOpened →
          (c.readFrame srv none now).1.state = ConnState.ConnClosed) := by
  refine ⟨?_, ?_, ?_, ?_, ?_, rfl, ?_⟩
  · cases hs : c.state <;> cases isHeartbeat <;> cases msg <;>
      simp [serverConn.readFrame, serverConn.State, hs, hh] <;> split_ifs <;> simp_all
  · intro hs
    obtain ⟨state, conn, q, pu, qc, dc, cc, last, reader, writer, closer, wire, rec, con, dis,
      recv, ds, crashed⟩ := c
    subst hs
    simp only [serverConn.readFrame, serverConn.State]
    split_ifs <;> rfl
  · intro hs
    obtain ⟨state, conn, q, pu, qc, dc, cc, last, reader, writer, closer, wire, rec, con, dis,
      recv, ds, crashed⟩ := c
    subst hs
    simp only [serverConn.readFrame, serverConn.State]
    split_ifs <;> rfl
  · intro hb
    cases hs : c.state <;>
      simp [serverConn.readFrame, serverConn.State, hs, hb] <;> split_ifs <;> simp_all
  · intro hb
    cases hs : c.state <;> cases msg <;>
      simp [serverConn.readFrame, serverConn.State, hs, hb, hh] <;> split_ifs <;> simp_all
  · intro hs
    simp [serverConn.readFrame, forceClose_state, hs]

/-- C7 as amended, at a non-empty payload decoded on a fresh Opened connection with all
hooks registered: the payload is handed to the receive hook. -/
theorem read_frame_dispatch_witness :
    respServer.receiveHandler = true
    ∧ ((serverConn.init respServer 0).readFrame respServer (some (false, [7, 8])) 5).1.received
        = [[7, 8]] :=
  ⟨rfl, (read_frame_dispatch respServer (serverConn.init respServer 0) false [7, 8] 5 rfl).1⟩

end tcp

namespace tcp

theorem deadline_eq (now d : Int) (hlo : -9223372036854775808 ≤ now - 2 * d)
    (hhi : now - 2 * d < 9223372036854775808) : deadline now d = now - 2 * d := by
  unfold deadline wrapInt64
  omega

theorem teardown_last (srv : server) (b : Bool) (cerr : Option Nat) (c : serverConn) :
    (c.teardown srv b cerr).1.lastHeartbeatTime = c.lastHeartbeatTime := by
  simp only [serverConn.teardown, serverConn.closeChans]
  split_ifs <;> rfl

theorem forceClose_last (srv : server) (cerr : Option Nat) (c : serverConn) :
    (c.forceClose srv cerr).1.lastHeartbeatTime = c.lastHeartbeatTime := by
  unfold serverConn.forceClose
  split
  · rfl
  · exact teardown_last _ _ _ _

theorem writeTick_last (srv : server) (now : Int) (c : serverConn) :
    (c.writeTick srv now).1.lastHeartbeatTime = c.lastHeartbeatTime := by
  unfold serverConn.writeTick
  split_ifs
  · exact forceClose_last _ _ _
  all_goals rfl

theorem afterWrite_last (r : serverConn × Loop) :
    (serverConn.afterWrite r).lastHeartbeatTime = r.1.lastHeartbeatTime := by
  unfold serverConn.afterWrite
  split <;> rfl

theorem afterRead_last (r : serverConn × Loop) :
    (serverConn.afterRead r).lastHeartbeatTime = r.1.lastHeartbeatTime := by
  unfold serverConn.afterRead
  split <;> rfl

theorem wakeSender_last (c : serverConn) : c.wakeSender.lastHeartbeatTime = c.lastHeartbeatTime := by
  unfold serverConn.wakeSender serverConn.pushSend serverConn.graceCloseSend
  split_ifs <;> (try split) <;> (try split_ifs) <;> rfl

theorem writeItem_last (r : Option chWrite) (c : serverConn) :
    (c.writeItem r).1.lastHeartbeatTime = c.lastHeartbeatTime := by
  unfold serverConn.writeItem
  split
  · rfl
  · split_ifs <;> rfl
  · split_ifs <;> rfl

theorem action_last (srv : server) (a : Action) (c : serverConn)
    (ha : ∀ r t, a ≠ Action.event (Event.decoded r t)) :
    (a.run srv c).lastHeartbeatTime = c.lastHeartbeatTime := by
  cases a with
  | send msg werr =>
    simp only [Action.run, serverConn.Send]
    split_ifs <;> (try split) <;> (try split_ifs) <;> rfl
  | push msg =>
    simp only [Action.run, serverConn.Push]
    split_ifs <;> (try split) <;> (try split_ifs) <;> rfl
  | localAddr =>
    simp only [Action.run, serverConn.LocalAddr]
    split_ifs <;> (try split) <;> (try split_ifs) <;> rfl
  | remoteAddr =>
    simp only [Action.run, serverConn.RemoteAddr]
    split_ifs <;> (try split) <;> (try split_ifs) <;> rfl
  | forceClose cerr =>
    simp only [Action.run]
    split_ifs
    · rfl
    · exact forceClose_last _ _ _
  | graceEnter =>
    simp only [Action.run, serverConn.graceCloseEnter]
    split_ifs <;> (try split) <;> (try split_ifs) <;> rfl
  | graceExit cerr =>
    simp only [Action.run]
    split_ifs
    · simp only [serverConn.graceCloseExit, teardown_last]
    · rfl
  | event e =>
    cases e with
    | poll =>
      simp only [Action.run, Event.run]
      split_ifs <;> rfl
    | decoded r now => exact absurd rfl (ha r now)
    | recv =>
      simp only [Action.run, Event.run]
      split
      · split
        · split_ifs <;> rfl
        · split_ifs
          · rfl
          · rw [afterWrite_last, writeItem_last, wakeSender_last]
        · rw [afterWrite_last, writeItem_last, wakeSender_last]
      · rfl
    | tick now =>
      simp only [Action.run, Event.run]
      split_ifs
      · rfl
      · rw [afterWrite_last, writeTick_last]
      · rfl
    | closeWake =>
      simp only [Action.run, Event.run, serverConn.graceCloseWake]
      split_ifs <;> rfl
    | readerLock =>
      simp only [Action.run, Event.run]
      split_ifs
      · rw [afterRead_last, forceClose_last]
      · rfl
    | writerLock =>
      simp only [Action.run, Event.run]
      split_ifs
      · rw [afterWrite_last, forceClose_last]
      · rfl


end tcp

namespace tcp

theorem rlocked_iff (c : serverConn) : c.rlocked = true ↔ c.pushing ≠ [] := by
  unfold serverConn.rlocked
  split <;> simp_all

theorem rlocked_false (c : serverConn) : c.rlocked = false ↔ c.pushing = [] := by
  unfold serverConn.rlocked
  split <;> simp_all

theorem locked_false (c : serverConn) :
    c.locked = false ↔ c.closer ≠ Closer.sending ∧ c.pushing = [] := by
  simp [serverConn.locked, serverConn.wlocked, rlocked_false]

theorem locked_iff (c : serverConn) :
    c.locked = true ↔ c.closer = Closer.sending ∨ c.pushing ≠ [] := by
  simp [serverConn.locked, serverConn.wlocked, rlocked_iff]

theorem inv_init (srv : server) (now : Int) : Inv srv (serverConn.init srv now) := by
  simp [Inv, serverConn.init]

theorem inv_teardown_opened {srv : server} {c : serverConn} (cerr : Option Nat)
    (h : Inv srv c) (hs : c.state = ConnState.ConnOpened) (hl : c.locked = false) :
    Inv srv (c.teardown srv true cerr).1
      ∧ (c.teardown srv true cerr).1.state = ConnState.ConnClosed
      ∧ (c.teardown srv true cerr).2 = Outcome.returned (cerr.map Error.io)
      ∧ (c.teardown srv true cerr).1.wire = c.wire ++ [SockEvent.close] := by
  rw [locked_false] at hl
  obtain ⟨state, conn, q, pu, qc, dc, cc, last, reader, writer, closer, wire, rec, con, dis,
    recv, ds, crashed⟩ := c
  subst hs
  simp only [Inv] at h
  obtain ⟨h0, h1, h2, h3, h4, h5, h6, h7, h8, h9, h10, h11, h12⟩ := h
  obtain ⟨_, hp⟩ := hl
  simp only at hp
  subst h0 h1 h2 h3 h4 h5 h8 h9 h10 hp
  cases hd : srv.disconnectHandler <;>
    simp [serverConn.teardown, serverConn.closeChans, Inv, hd] <;> exact ⟨h6, h7⟩

theorem inv_forceClose {srv : server} {c : serverConn} (cerr : Option Nat) (h : Inv srv c)
    (hl : c.locked = false) : Inv srv (c.forceClose srv cerr).1 := by
  cases hs : c.state with
  | ConnOpened =>
    have := (inv_teardown_opened cerr h hs hl).1
    simpa [serverConn.forceClose, serverConn.checkState, hs] using this
  | ConnHanged => simpa [serverConn.forceClose, serverConn.checkState, hs] using h
  | ConnClosed => simpa [serverConn.forceClose, serverConn.checkState, hs] using h

theorem inv_reader_pc {srv : server} {c : serverConn} (p : ReaderPc) (h : Inv srv c) :
    Inv srv { c with reader := p } := by
  simpa [Inv] using h

theorem inv_writer_stop {srv : server} {c : serverConn} (h : Inv srv c)
    (hs : c.state ≠ ConnState.ConnOpened) (hc : c.closer ≠ Closer.sending) :
    Inv srv { c with writer := WriterPc.exited } := by
  obtain ⟨state, conn, q, pu, qc, dc, cc, last, reader, writer, closer, wire, rec, con, dis,
    recv, ds, crashed⟩ := c
  cases state <;> cases closer <;> simp_all [Inv]

theorem inv_writer_lock {srv : server} {c : serverConn} (h : Inv srv c)
    (hw : c.writer = WriterPc.selecting) (hl : c.locked = true) :
    Inv srv { c with writer := WriterPc.locking } := by
  rw [locked_iff] at hl
  obtain ⟨state, conn, q, pu, qc, dc, cc, last, reader, writer, closer, wire, rec, con, dis,
    recv, ds, crashed⟩ := c
  simp only at hw hl
  subst hw
  cases state <;> cases closer <;> simp_all [Inv]

theorem forceClose_closer (srv : server) (cerr : Option Nat) (c : serverConn) :
    (c.forceClose srv cerr).1.closer = c.closer := by
  unfold serverConn.forceClose
  split
  · rfl
  · simp only [serverConn.teardown, serverConn.closeChans]
    split_ifs <;> rfl

theorem inv_force_stop {srv : server} {c : serverConn} (h : Inv srv c)
    (hl : c.locked = false) :
    Inv srv { (c.forceClose srv none).1 with writer := WriterPc.exited } := by
  refine inv_writer_stop (inv_forceClose none h hl) ?_ ?_
  · rw [forceClose_state]
    split <;> simp_all
  · rw [forceClose_closer]
    exact ((locked_false c).1 hl).1

theorem inv_poll {srv : server} {c : serverConn} (h : Inv srv c) :
    Inv srv (Event.poll.run srv c) := by
  simp only [Event.run]
  split
  · split <;> exact inv_reader_pc _ h
  · exact h

theorem inv_readFrame {srv : server} {c : serverConn} (r : Option (Bool × List Nat))
    (now : Int) (h : Inv srv c) (hl : r = none → c.locked = false) :
    Inv srv (c.readFrame srv r now).1 := by
  cases r with
  | none => exact inv_forceClose none h (hl rfl)
  | some p =>
    obtain ⟨hb, msg⟩ := p
    obtain ⟨state, conn, q, pu, qc, dc, cc, last, reader, writer, closer, wire, rec, con, dis,
      recv, ds, crashed⟩ := c
    cases state <;> simp only [Inv] at h <;>
      simp only [serverConn.readFrame, serverConn.State] <;> split_ifs <;>
      simp_all [Inv]

theorem inv_decoded {srv : server} {c : serverConn} (r : Option (Bool × List Nat))
    (now : Int) (h : Inv srv c) : Inv srv ((Event.decoded r now).run srv c) := by
  simp only [Event.run]
  split
  · split
    · exact inv_reader_pc _ h
    · rename_i hn
      have h1 := inv_readFrame r now h (fun hr => by
        cases hc : c.locked
        · rfl
        · exact absurd ⟨hr, hc⟩ hn)
      unfold serverConn.afterRead
      split <;> exact inv_reader_pc _ h1
  · exact h

theorem inv_readerLock {srv : server} {c : serverConn} (h : Inv srv c) :
    Inv srv (Event.readerLock.run srv c) := by
  simp only [Event.run]
  split
  · rename_i hc
    exact inv_reader_pc _ (inv_forceClose none h hc.2)
  · exact h

theorem inv_writerLock {srv : server} {c : serverConn} (h : Inv srv c) :
    Inv srv (Event.writerLock.run srv c) := by
  simp only [Event.run]
  split
  · rename_i hc
    exact inv_force_stop h hc.2
  · exact h

end tcp

namespace tcp

theorem inv_write_heartbeat {srv : server} {c : serverConn} (f : Frame) (h : Inv srv c)
    (hs : c.state ≠ ConnState.ConnClosed) :
    Inv srv { c with wire := c.wire ++ [SockEvent.write f] } := by
  obtain ⟨state, conn, q, pu, qc, dc, cc, last, reader, writer, closer, wire, rec, con, dis,
    recv, ds, crashed⟩ := c
  cases state <;> cases closer <;> simp_all [Inv]

theorem inv_tick {srv : server} {c : serverConn} (now : Int) (h : Inv srv c) :
    Inv srv ((Event.tick now).run srv c) := by
  simp only [Event.run]
  split
  · rename_i hw
    split
    · rename_i ht
      exact inv_writer_lock h hw.1 ht.2
    · rename_i hn
      by_cases ht : c.lastHeartbeatTime < deadline now srv.opts.heartbeatInterval
      · have hl : c.locked = false := by
          cases hc : c.locked
          · rfl
          · exact absurd ⟨ht, hc⟩ hn
        simp only [serverConn.writeTick, if_pos ht, serverConn.afterWrite]
        exact inv_force_stop h hl
      · by_cases hm : srv.opts.heartbeatMechanism = HeartbeatMechanism.TickHeartbeat
        · by_cases hc : c.isClosed = true
          · simp only [serverConn.writeTick, if_neg ht, if_pos hm, if_pos hc,
              serverConn.afterWrite]
            refine inv_writer_stop h ?_ ?_
            · simp_all [serverConn.isClosed]
            · obtain ⟨state, conn, q, pu, qc, dc, cc, last, reader, writer, closer, wire, rec,
                con, dis, recv, ds, crashed⟩ := c
              cases state <;> simp_all [Inv, serverConn.isClosed]
          · simp only [serverConn.writeTick, if_neg ht, if_pos hm, if_neg hc,
              serverConn.afterWrite]
            refine inv_write_heartbeat _ h ?_
            simp_all [serverConn.isClosed]
        · simp only [serverConn.writeTick, if_neg ht, if_neg hm, serverConn.afterWrite]
          exact h
  · exact h

theorem inv_closeWake {srv : server} {c : serverConn} (h : Inv srv c) :
    Inv srv (Event.closeWake.run srv c) := by
  obtain ⟨state, conn, q, pu, qc, dc, cc, last, reader, writer, closer, wire, rec, con, dis,
    recv, ds, crashed⟩ := c
  cases state <;> cases closer <;> simp [Inv] at h <;>
    simp [Event.run, serverConn.graceCloseWake, Inv, h]

theorem inv_Send {srv : server} {c : serverConn} (msg : List Nat) (werr : Option Nat)
    (h : Inv srv c) : Inv srv (c.Send msg werr).1 := by
  obtain ⟨state, conn, q, pu, qc, dc, cc, last, reader, writer, closer, wire, rec, con, dis,
    recv, ds, crashed⟩ := c
  cases state <;> simp [Inv] at h <;>
    simp [serverConn.Send, serverConn.checkState, Inv, h]

theorem inv_Push {srv : server} {c : serverConn} (msg : List Nat) (h : Inv srv c) :
    Inv srv (c.Push msg).1 := by
  obtain ⟨state, conn, q, pu, qc, dc, cc, last, reader, writer, closer, wire, rec, con, dis,
    recv, ds, crashed⟩ := c
  cases state <;> simp [Inv] at h <;>
    simp [serverConn.Push, serverConn.checkState, Inv, h]
  obtain ⟨h0, h1, h2, h3, h4, h5, h6, h7, h8, h9, h10, h11, h12⟩ := h
  by_cases hlt : q.length < chWriteCap
  · have hne : q.length ≠ chWriteCap := by omega
    simp only [if_pos hlt]
    cases writer <;> simp_all <;> omega
  · have he : q.length = chWriteCap := by omega
    simp only [if_neg hlt]
    cases writer <;> simp_all

theorem inv_LocalAddr {srv : server} {c : serverConn} (h : Inv srv c) :
    Inv srv c.LocalAddr.1 := by
  obtain ⟨state, conn, q, pu, qc, dc, cc, last, reader, writer, closer, wire, rec, con, dis,
    recv, ds, crashed⟩ := c
  cases state <;> simp [Inv] at h <;>
    simp [serverConn.LocalAddr, serverConn.checkState, Inv, h]

theorem inv_RemoteAddr {srv : server} {c : serverConn} (h : Inv srv c) :
    Inv srv c.RemoteAddr.1 := by
  obtain ⟨state, conn, q, pu, qc, dc, cc, last, reader, writer, closer, wire, rec, con, dis,
    recv, ds, crashed⟩ := c
  cases state <;> simp [Inv] at h <;>
    simp [serverConn.RemoteAddr, serverConn.checkState, Inv, h]

theorem inv_graceCloseEnter {srv : server} {c : serverConn} (h : Inv srv c)
    (hl : c.locked = false) : Inv srv c.graceCloseEnter.1 := by
  rw [locked_false] at hl
  obtain ⟨state, conn, q, pu, qc, dc, cc, last, reader, writer, closer, wire, rec, con, dis,
    recv, ds, crashed⟩ := c
  simp only at hl
  cases state <;> simp [Inv] at h <;>
    simp [serverConn.graceCloseEnter, serverConn.checkState, Inv, h] <;> split_ifs <;>
    cases writer <;> simp_all <;> omega

theorem inv_graceCloseExit {srv : server} {c : serverConn} (cerr : Option Nat)
    (h : Inv srv c) (hr : c.closer = Closer.resumed) :
    Inv srv (c.graceCloseExit srv true cerr).1
      ∧ (c.graceCloseExit srv true cerr).2 = Outcome.returned (cerr.map Error.io)
      ∧ (c.graceCloseExit srv true cerr).1.wire = c.wire ++ [SockEvent.close]
      ∧ (c.graceCloseExit srv true cerr).1.doneSent = 1
      ∧ c.chWrite = [] := by
  obtain ⟨state, conn, q, pu, qc, dc, cc, last, reader, writer, closer, wire, rec, con, dis,
    recv, ds, crashed⟩ := c
  simp only at hr
  subst hr
  cases state <;> simp [Inv] at h
  cases hd : srv.disconnectHandler <;>
    simp [serverConn.graceCloseExit, serverConn.teardown, serverConn.closeChans, Inv, h, hd]

end tcp

namespace tcp

theorem inv_recv {srv : server} {c : serverConn} (h : Inv srv c) :
    Inv srv (Event.recv.run srv c) := by
  obtain ⟨state, conn, q, pu, qc, dc, cc, last, reader, writer, closer, wire, rec, con, dis,
    recv, ds, crashed⟩ := c
  cases writer with
  | locking => simpa [Event.run] using h
  | exited => simpa [Event.run] using h
  | selecting =>
    cases q with
    | nil =>
      cases state <;> cases closer <;> simp [Inv] at h <;>
        simp [Event.run, Inv, h]
    | cons x rest =>
      cases x with
      | closeSig =>
        cases state <;> cases closer <;> simp [Inv] at h <;>
          simp [Event.run, Inv, h, serverConn.wlocked, serverConn.writeItem,
            serverConn.afterWrite, serverConn.wakeSender, serverConn.rlocked,
            serverConn.graceCloseSend]
        obtain ⟨_, _, _, _, _, _, _, _, _, ⟨q, hq, hnq⟩, _⟩ := h
        cases q with
        | nil => simpa using hq.symm
        | cons y q1 =>
          simp only [List.cons_append, List.cons.injEq] at hq
          exact absurd (hq.1 ▸ List.mem_cons_self _ _) hnq
      | dataPacket msg =>
        cases state with
        | ConnOpened =>
          simp [Inv] at h
          obtain ⟨h0, h1, h2, h3, h4, h5, h6, h7, h8, h9, h10, h11, h12⟩ := h
          subst h0 h1 h2 h3 h4 h5 h8 h9 h10
          cases pu with
          | nil =>
            simp [Event.run, Inv, serverConn.writeItem, serverConn.afterWrite,
              serverConn.wakeSender, serverConn.rlocked, serverConn.graceCloseSend,
              serverConn.isClosed, h6, h7]
            omega
          | cons m ps =>
            simp at h12
            have hlt : rest.length < chWriteCap := by omega
            simp [Event.run, Inv, serverConn.writeItem, serverConn.afterWrite,
              serverConn.wakeSender, serverConn.rlocked, serverConn.pushSend,
              serverConn.isClosed, h6, h7, hlt]
            omega
        | ConnHanged =>
          cases closer with
          | idle => simp [Inv] at h
          | resumed => simp [Inv] at h
          | sending =>
            simp [Inv] at h
            have hlt : rest.length < chWriteCap := by omega
            simp [Event.run, Inv, serverConn.writeItem, serverConn.afterWrite,
              serverConn.wakeSender, serverConn.rlocked, serverConn.graceCloseSend,
              serverConn.isClosed, h, hlt]
          | waiting =>
            simp [Inv] at h
            obtain ⟨h0, h1, h2, h3, h4, h5, h6, h7, h8, ⟨q, hq, hnq⟩, h10⟩ := h
            subst h0 h1 h2 h3 h4 h6 h7 h8 h10
            simp [Event.run, Inv, serverConn.writeItem, serverConn.afterWrite,
              serverConn.wakeSender, serverConn.rlocked, serverConn.graceCloseSend,
              serverConn.isClosed, h5]
            cases q with
            | nil => simp at hq
            | cons y q1 =>
              simp only [List.cons_append, List.cons.injEq] at hq
              exact ⟨q1, hq.2, fun hm => hnq (List.mem_cons_of_mem _ hm)⟩
        | ConnClosed =>
          cases closer <;> simp [Inv] at h <;>
          simp [Event.run, Inv, h, serverConn.writeItem, serverConn.afterWrite,
            serverConn.wakeSender, serverConn.rlocked, serverConn.graceCloseSend,
            serverConn.isClosed]

theorem inv_event {srv : server} (e : Event) {c : serverConn} (h : Inv srv c) :
    Inv srv (e.run srv c) := by
  cases e with
  | poll => exact inv_poll h
  | decoded r now => exact inv_decoded r now h
  | recv => exact inv_recv h
  | tick now => exact inv_tick now h
  | closeWake => exact inv_closeWake h
  | readerLock => exact inv_readerLock h
  | writerLock => exact inv_writerLock h

theorem inv_runEvents {srv : server} (es : List Event) :
    ∀ {c : serverConn}, Inv srv c → Inv srv (runEvents srv es c) := by
  induction es with
  | nil => intro c h; exact h
  | cons e es ih => intro c h; exact ih (inv_event e h)

theorem not_true_false {b : Bool} (h : ¬ b = true) : b = false := by
  cases b
  · rfl
  · exact absurd rfl h

theorem inv_action {srv : server} (a : Action) {c : serverConn} (h : Inv srv c) :
    Inv srv (a.run srv c) := by
  cases a with
  | send msg werr => simp only [Action.run]; split; exact h; exact inv_Send msg werr h
  | push msg => simp only [Action.run]; split; exact h; exact inv_Push msg h
  | localAddr => simp only [Action.run]; split; exact h; exact inv_LocalAddr h
  | remoteAddr => simp only [Action.run]; split; exact h; exact inv_RemoteAddr h
  | forceClose cerr =>
    simp only [Action.run]
    split
    · exact h
    · rename_i hl
      exact inv_forceClose cerr h (not_true_false hl)
  | graceEnter =>
    simp only [Action.run]
    split
    · exact h
    · rename_i hl
      exact inv_graceCloseEnter h (not_true_false hl)
  | graceExit cerr =>
    simp only [Action.run]
    split
    · rename_i hr
      exact (inv_graceCloseExit cerr h hr.1).1
    · exact h
  | event e => exact inv_event e h

theorem inv_runActions {srv : server} (as : List Action) :
    ∀ {c : serverConn}, Inv srv c → Inv srv (runActions srv as c) := by
  induction as with
  | nil => intro c h; exact h
  | cons a as ih => intro c h; exact ih (inv_action a h)

end tcp

namespace tcp

theorem stuck_event (srv : server) (e : Event) (c : serverConn) (h : Stuck c) :
    ∃ r t, e.run srv c = { c with reader := r, lastHeartbeatTime := t } := by
  obtain ⟨hs, hd, hc⟩ := h
  obtain ⟨state, conn, q, pu, qc, dc, cc, last, reader, writer, closer, wire, rec, con, dis,
    recv, ds, crashed⟩ := c
  simp only at hs hd hc
  subst hs hd
  have hw : writer ≠ WriterPc.selecting := by
    rcases hc with ⟨_, h2⟩ | ⟨_, h2⟩ <;> rw [h2] <;> decide
  cases e with
  | poll =>
    by_cases hr : reader = ReaderPc.polling
    · cases cc
      · exact ⟨ReaderPc.decoding, last, by simp [Event.run, hr]⟩
      · exact ⟨ReaderPc.exited, last, by simp [Event.run, hr]⟩
    · exact ⟨reader, last, by simp [Event.run, hr]⟩
  | decoded r now =>
    by_cases hr : reader = ReaderPc.decoding
    · cases r with
      | none =>
        by_cases hl : closer = Closer.sending ∨ pu ≠ []
        · exact ⟨ReaderPc.locking, last, by simp [Event.run, hr, hl, locked_iff]⟩
        · exact ⟨ReaderPc.exited, last, by
            simp [Event.run, hr, hl, locked_iff, serverConn.readFrame, serverConn.forceClose,
              serverConn.checkState, serverConn.afterRead]⟩
      | some p =>
        by_cases hi : srv.opts.heartbeatInterval > 0
        · exact ⟨ReaderPc.polling, now, by
            simp [Event.run, hr, hi, serverConn.readFrame, serverConn.State,
              serverConn.afterRead]⟩
        · exact ⟨ReaderPc.polling, last, by
            simp [Event.run, hr, hi, serverConn.readFrame, serverConn.State,
              serverConn.afterRead]⟩
    · exact ⟨reader, last, by simp [Event.run, hr]⟩
  | recv => exact ⟨reader, last, by simp [Event.run, hw]⟩
  | tick now => exact ⟨reader, last, by simp [Event.run, hw]⟩
  | closeWake => exact ⟨reader, last, by simp [Event.run, serverConn.graceCloseWake]⟩
  | readerLock =>
    by_cases hl : reader = ReaderPc.locking ∧ closer ≠ Closer.sending ∧ pu = []
    · exact ⟨ReaderPc.exited, last, by
        simp [Event.run, hl, locked_false, serverConn.forceClose, serverConn.checkState,
          serverConn.afterRead]⟩
    · exact ⟨reader, last, by simp [Event.run, hl, locked_false]⟩
  | writerLock =>
    have hn : ¬ (writer = WriterPc.locking
        ∧ (serverConn.mk ConnState.ConnHanged conn q pu qc false cc last reader writer closer
            wire rec con dis recv ds crashed).locked = false) := by
      rintro ⟨h1, h2⟩
      rw [locked_false] at h2
      rcases hc with ⟨_, h3⟩ | ⟨h3, _⟩
      · rw [h3] at h1; exact absurd h1 (by decide)
      · exact h2.1 h3
    exact ⟨reader, last, by simp only [Event.run, if_neg hn]⟩

theorem stuck_checkState {c : serverConn} (h : Stuck c) :
    c.checkState = some Error.ErrConnectionHanged := by
  simp [serverConn.checkState, h.1]

theorem stuck_action (srv : server) (a : Action) (c : serverConn) (h : Stuck c) :
    ∃ r t, a.run srv c = { c with reader := r, lastHeartbeatTime := t } := by
  cases a with
  | event e => exact stuck_event srv e c h
  | graceExit cerr =>
    obtain ⟨_, _, hc⟩ := h
    have hn : ¬ (c.closer = Closer.resumed ∧ c.rlocked = false) := by
      rintro ⟨h1, _⟩
      rcases hc with ⟨h3, _⟩ | ⟨h3, _⟩ <;> rw [h3] at h1 <;> exact absurd h1 (by decide)
    exact ⟨c.reader, c.lastHeartbeatTime, by simp only [Action.run, if_neg hn]⟩
  | send msg werr =>
    have hk := stuck_checkState h
    refine ⟨c.reader, c.lastHeartbeatTime, ?_⟩
    simp only [Action.run, serverConn.Send, hk]
    split_ifs <;> rfl
  | push msg =>
    have hk := stuck_checkState h
    refine ⟨c.reader, c.lastHeartbeatTime, ?_⟩
    simp only [Action.run, serverConn.Push, hk]
    split_ifs <;> rfl
  | localAddr =>
    have hk := stuck_checkState h
    refine ⟨c.reader, c.lastHeartbeatTime, ?_⟩
    simp only [Action.run, serverConn.LocalAddr, hk]
    split_ifs <;> rfl
  | remoteAddr =>
    have hk := stuck_checkState h
    refine ⟨c.reader, c.lastHeartbeatTime, ?_⟩
    simp only [Action.run, serverConn.RemoteAddr, hk]
    split_ifs <;> rfl
  | forceClose cerr =>
    have hk := stuck_checkState h
    refine ⟨c.reader, c.lastHeartbeatTime, ?_⟩
    simp only [Action.run, serverConn.forceClose, hk]
    split_ifs <;> rfl
  | graceEnter =>
    have hk := stuck_checkState h
    refine ⟨c.reader, c.lastHeartbeatTime, ?_⟩
    simp only [Action.run, serverConn.graceCloseEnter, hk]
    split_ifs <;> rfl

theorem stuck_keep {c : serverConn} (h : Stuck c) (r : ReaderPc) (t : Int) :
    Stuck { c with reader := r, lastHeartbeatTime := t } := h

theorem stuck_runActions (srv : server) (as : List Action) :
    ∀ (c : serverConn), Stuck c →
      ∃ r t, runActions srv as c = { c with reader := r, lastHeartbeatTime := t } := by
  induction as with
  | nil => intro c _; exact ⟨c.reader, c.lastHeartbeatTime, rfl⟩
  | cons a as ih =>
    intro c h
    obtain ⟨r, t, ha⟩ := stuck_action srv a c h
    obtain ⟨r1, t1, h1⟩ := ih _ (ha ▸ stuck_keep h r t)
    refine ⟨r1, t1, ?_⟩
    simp only [runActions]
    rw [h1, ha]

theorem stuck_runEvents (srv : server) (es : List Event) :
    ∀ (c : serverConn), Stuck c →
      ∃ r t, runEvents srv es c = { c with reader := r, lastHeartbeatTime := t } := by
  induction es with
  | nil => intro c _; exact ⟨c.reader, c.lastHeartbeatTime, rfl⟩
  | cons e es ih =>
    intro c h
    obtain ⟨r, t, ha⟩ := stuck_event srv e c h
    obtain ⟨r1, t1, h1⟩ := ih _ (ha ▸ stuck_keep h r t)
    refine ⟨r1, t1, ?_⟩
    simp only [runEvents]
    rw [h1, ha]

end tcp

namespace tcp

theorem jammed_event (srv : server) (e : Event) (c : serverConn) (h : Jammed c) :
    Jammed (e.run srv c) := by
  obtain ⟨hs, hw, hp, hx⟩ := h
  obtain ⟨state, conn, q, pu, qc, dc, cc, last, reader, writer, closer, wire, rec, con, dis,
    recv, ds, crashed⟩ := c
  simp only at hs hw hp hx
  subst hs hw
  cases e with
  | poll =>
    simp only [Event.run]
    split_ifs <;> exact ⟨rfl, rfl, hp, hx⟩
  | decoded r now =>
    cases r with
    | none =>
      have hl : (serverConn.mk ConnState.ConnOpened conn q pu qc dc cc last reader
          WriterPc.locking closer wire rec con dis recv ds crashed).locked = true :=
        (locked_iff _).2 (Or.inr hp)
      simp only [Event.run, hl]
      split_ifs <;> simp_all [Jammed]
    | some p =>
      simp only [Event.run, serverConn.readFrame, serverConn.State, serverConn.afterRead]
      split_ifs <;> simp_all [Jammed]
  | recv => simpa [Event.run, Jammed] using ⟨hp, hx⟩
  | tick now => simpa [Event.run, Jammed] using ⟨hp, hx⟩
  | closeWake =>
    simp only [Event.run, serverConn.graceCloseWake]
    split_ifs <;> exact ⟨rfl, rfl, hp, hx⟩
  | readerLock =>
    simp only [Event.run, locked_false]
    split_ifs with h1
    · exact absurd h1.2.2 hp
    · exact ⟨rfl, rfl, hp, hx⟩
  | writerLock =>
    simp only [Event.run, locked_false]
    split_ifs with h1
    · exact absurd h1.2.2 hp
    · exact ⟨rfl, rfl, hp, hx⟩

theorem jammed_action (srv : server) (a : Action) (c : serverConn) (h : Jammed c) :
    Jammed (a.run srv c) := by
  cases a with
  | event e => exact jammed_event srv e c h
  | send msg werr =>
    obtain ⟨hs, hw, hp, hx⟩ := h
    simp only [Action.run, serverConn.Send, serverConn.checkState, hs]
    split_ifs <;> simp_all [Jammed]
  | push msg =>
    obtain ⟨hs, hw, hp, hx⟩ := h
    simp only [Action.run, serverConn.Push, serverConn.checkState, hs]
    split_ifs <;> simp_all [Jammed]
  | localAddr =>
    obtain ⟨hs, hw, hp, hx⟩ := h
    simp only [Action.run, serverConn.LocalAddr, serverConn.checkState, hs]
    split_ifs <;> simp_all [Jammed]
  | remoteAddr =>
    obtain ⟨hs, hw, hp, hx⟩ := h
    simp only [Action.run, serverConn.RemoteAddr, serverConn.checkState, hs]
    split_ifs <;> simp_all [Jammed]
  | forceClose cerr =>
    have hl : c.locked = true := (locked_iff c).2 (Or.inr h.2.2.1)
    simpa [Action.run, hl] using h
  | graceEnter =>
    have hl : c.locked = true := (locked_iff c).2 (Or.inr h.2.2.1)
    simpa [Action.run, hl] using h
  | graceExit cerr =>
    have hl : c.rlocked = true := (rlocked_iff c).2 h.2.2.1
    simpa [Action.run, hl] using h

theorem jammed_runActions (srv : server) (as : List Action) :
    ∀ (c : serverConn), Jammed c → Jammed (runActions srv as c) := by
  induction as with
  | nil => intro c h; exact h
  | cons a as ih => intro c h; exact ih _ (jammed_action srv a c h)

end tcp

namespace tcp

theorem runSteps_append (srv : server) (xs ys : List Step) :
    ∀ (c : serverConn), runSteps srv (xs ++ ys) c = runSteps srv ys (runSteps srv xs c) := by
  induction xs with
  | nil => intro c; rfl
  | cons x xs ih => intro c; exact ih _

theorem runEvents_append (srv : server) (xs ys : List Event) :
    ∀ (c : serverConn), runEvents srv (xs ++ ys) c = runEvents srv ys (runEvents srv xs c) := by
  induction xs with
  | nil => intro c; rfl
  | cons x xs ih => intro c; exact ih _

theorem runActions_append (srv : server) (xs ys : List Action) :
    ∀ (c : serverConn),
      runActions srv (xs ++ ys) c = runActions srv ys (runActions srv xs c) := by
  induction xs with
  | nil => intro c; rfl
  | cons x xs ih => intro c; exact ih _

theorem pushes_queued (srv : server) (msgs : List (List Nat)) :
    ∀ (c : serverConn), c.state = ConnState.ConnOpened → c.chWriteClosed = false →
      c.closer ≠ Closer.sending → c.chWrite.length + msgs.length ≤ chWriteCap →
      runSteps srv (msgs.map Step.push) c
        = { c with chWrite := c.chWrite
              ++ msgs.map (fun m => chWrite.dataPacket (packMessage m)) } := by
  induction msgs with
  | nil => intro c _ _ _ _; simp [runSteps]
  | cons m ms ih =>
    intro c hs hq hc hn
    obtain ⟨state, conn, q, pu, qc, dc, cc, last, reader, writer, closer, wire, rec, con, dis,
      recv, ds, crashed⟩ := c
    simp only at hs hq hc hn
    subst hs hq
    simp only [List.length_cons] at hn
    have hlt : q.length < chWriteCap := by omega
    have h1 : Step.run srv (Step.push m)
        (serverConn.mk ConnState.ConnOpened conn q pu false dc cc last reader writer closer
          wire rec con dis recv ds crashed)
        = serverConn.mk ConnState.ConnOpened conn (q ++ [chWrite.dataPacket (packMessage m)])
            pu false dc cc last reader writer closer wire rec con dis recv ds crashed := by
      simp [Step.run, serverConn.wlocked, serverConn.Push, serverConn.checkState, hc, hlt]
    simp only [List.map_cons, runSteps, h1]
    rw [ih _ rfl rfl hc (by simp only [List.length_append, List.length_singleton]; omega)]
    simp

theorem floodedConn_eq :
    floodedConn = { serverConn.init tickServer 0 with
      chWrite := List.replicate chWriteCap (chWrite.dataPacket (packMessage [1])),
      pushing := [packMessage [1]] } := by
  have h := pushes_queued tickServer (List.replicate chWriteCap [1])
    (serverConn.init tickServer 0) rfl rfl (by decide)
    (by simp [serverConn.init])
  simp only [List.map_replicate] at h
  unfold floodedConn
  rw [List.replicate_succ', runSteps_append, h]
  simp [runSteps, Step.run, serverConn.wlocked, serverConn.Push, serverConn.checkState,
    serverConn.init]

theorem deadline_30s : deadline (seconds 30) tickServer.opts.heartbeatInterval = seconds 10 := by
  decide

end tcp

namespace tcp

theorem afterWrite_wire (r : serverConn × Loop) :
    (serverConn.afterWrite r).wire = r.1.wire := by
  unfold serverConn.afterWrite
  split <;> rfl

theorem forceClose_refused (srv : server) (cerr : Option Nat) (c : serverConn)
    (hs : c.state ≠ ConnState.ConnOpened) : (c.forceClose srv cerr).1 = c := by
  cases h : c.state <;> simp_all [serverConn.forceClose, serverConn.checkState]

theorem forceClose_wire_opened {srv : server} {c : serverConn} (cerr : Option Nat)
    (h : Inv srv c) (hs : c.state = ConnState.ConnOpened) (hl : c.locked = false) :
    (c.forceClose srv cerr).1.wire = c.wire ++ [SockEvent.close] := by
  have := (inv_teardown_opened cerr h hs hl).2.2.2
  simpa [serverConn.forceClose, serverConn.checkState, hs] using this

theorem tick_timeout_free (srv : server) (now : Int) (c : serverConn)
    (hd : 0 < srv.opts.heartbeatInterval) (hw : c.writer = WriterPc.selecting)
    (ht : c.lastHeartbeatTime < deadline now srv.opts.heartbeatInterval)
    (hl : c.locked = false) :
    (Event.tick now).run srv c = serverConn.afterWrite ((c.forceClose srv none).1, Loop.stop) := by
  simp [Event.run, hw, hd, ht, hl, serverConn.writeTick]

theorem tick_timeout_locked (srv : server) (now : Int) (c : serverConn)
    (hd : 0 < srv.opts.heartbeatInterval) (hw : c.writer = WriterPc.selecting)
    (ht : c.lastHeartbeatTime < deadline now srv.opts.heartbeatInterval)
    (hl : c.locked = true) :
    (Event.tick now).run srv c = { c with writer := WriterPc.locking } := by
  simp [Event.run, hw, hd, ht, hl]

theorem tick_in_time (srv : server) (now : Int) (c : serverConn)
    (hd : 0 < srv.opts.heartbeatInterval) (hw : c.writer = WriterPc.selecting)
    (ht : ¬ c.lastHeartbeatTime < deadline now srv.opts.heartbeatInterval) :
    (Event.tick now).run srv c = serverConn.afterWrite (c.writeTick srv now) := by
  simp [Event.run, hw, hd, ht]

theorem writeTick_in_time (srv : server) (now : Int) (c : serverConn)
    (ht : ¬ c.lastHeartbeatTime < deadline now srv.opts.heartbeatInterval) :
    (c.writeTick srv now).1.state = c.state
      ∧ (c.writeTick srv now).1.wire =
          if srv.opts.heartbeatMechanism = HeartbeatMechanism.TickHeartbeat
              ∧ c.state ≠ ConnState.ConnClosed
          then c.wire ++ [SockEvent.write (packHeartbeat srv.opts.heartbeatWithServerTime)]
          else c.wire := by
  simp only [serverConn.writeTick, if_neg ht, serverConn.isClosed]
  split_ifs <;> simp_all

/-- C5 (the claim fails here): with an interval of 10 s and a connection opened at time 0,
the ticker firing at 30 s finds more than 20 s elapsed since the last-heartbeat timestamp
and yet closes nothing. On a Hanged connection (a graceful close is draining) the forced
close is refused: the state stays Hanged, nothing reaches the socket and the writer
returns. On an Opened connection with a Push blocked on the full queue the forced close
waits for the lock: the state stays Opened and nothing reaches the socket. -/
theorem timeout_tick_closes_nothing :
    (drainingConn.state = ConnState.ConnHanged
      ∧ drainingConn.writer = WriterPc.selecting
      ∧ drainingConn.locked = false
      ∧ seconds 30 - drainingConn.lastHeartbeatTime > 2 * tickServer.opts.heartbeatInterval
      ∧ ((Event.tick (seconds 30)).run tickServer drainingConn).state = ConnState.ConnHanged
      ∧ ((Event.tick (seconds 30)).run tickServer drainingConn).wire = []
      ∧ ((Event.tick (seconds 30)).run tickServer drainingConn).writer = WriterPc.exited)
    ∧ (floodedConn.state = ConnState.ConnOpened
      ∧ floodedConn.writer = WriterPc.selecting
      ∧ floodedConn.pushing = [packMessage [1]]
      ∧ seconds 30 - floodedConn.lastHeartbeatTime > 2 * tickServer.opts.heartbeatInterval
      ∧ ((Event.tick (seconds 30)).run tickServer floodedConn).state = ConnState.ConnOpened
      ∧ ((Event.tick (seconds 30)).run tickServer floodedConn).wire = []
      ∧ ((Event.tick (seconds 30)).run tickServer floodedConn).writer = WriterPc.locking) := by
  refine ⟨by decide, ?_⟩
  have ht : floodedConn.lastHeartbeatTime
      < deadline (seconds 30) tickServer.opts.heartbeatInterval := by
    rw [deadline_30s, floodedConn_eq]
    decide
  have hl : floodedConn.locked = true := by
    rw [floodedConn_eq]
    rfl
  have hw : floodedConn.writer = WriterPc.selecting := by
    rw [floodedConn_eq]
    rfl
  rw [tick_timeout_locked tickServer (seconds 30) floodedConn (by decide) hw ht hl]
  rw [floodedConn_eq]
  exact ⟨rfl, rfl, rfl, by decide, rfl, rfl, rfl⟩

/-- C5 as amended: on a ticker firing at time `now` with an interval `d > 0` (the deadline
`now - 2d` being a signed 64-bit number of nanoseconds), for a connection reached from
`init` whose writer is at its `select`: the tick closes the socket exactly when the
connection is Opened, more than `2d` have passed since the last-heartbeat timestamp and
the connection lock is free; an Opened connection is Closed after the tick exactly then,
and a Hanged or Closed connection keeps its state. With more than `2d` passed and the
lock free the writer runs the forced close (refused unless Opened) and returns; with the
lock held it waits inside the forced close, and if the lock is held by a Push blocked on
the full queue of an Opened connection, the connection stays Opened with its socket open
whatever happens next. With at most `2d` passed the state stays as it is and a heartbeat
frame is written exactly when the mechanism is ticked and the connection is not Closed.
The tick never changes the timestamp, and no step other than the reader's decode does. -/
theorem tick_closes_opened_iff_timeout (srv : server) (now : Int) (c : serverConn)
    (hd : 0 < srv.opts.heartbeatInterval)
    (hlo : -9223372036854775808 ≤ now - 2 * srv.opts.heartbeatInterval)
    (hhi : now - 2 * srv.opts.heartbeatInterval < 9223372036854775808)
    (hinv : Inv srv c) (hw : c.writer = WriterPc.selecting) :
    (((Event.tick now).run srv c).wire = c.wire ++ [SockEvent.close]
        ↔ (c.state = ConnState.ConnOpened
            ∧ now - c.lastHeartbeatTime > 2 * srv.opts.heartbeatInterval
            ∧ c.locked = false))
      ∧ (c.state = ConnState.ConnOpened →
          (((Event.tick now).run srv c).state = ConnState.ConnClosed
            ↔ (now - c.lastHeartbeatTime > 2 * srv.opts.heartbeatInterval
                ∧ c.locked = false)))
      ∧ (c.state ≠ ConnState.ConnOpened → ((Event.tick now).run srv c).state = c.state)
      ∧ (now - c.lastHeartbeatTime > 2 * srv.opts.heartbeatInterval → c.locked = false →
          (Event.tick now).run srv c
            = serverConn.afterWrite ((c.forceClose srv none).1, Loop.stop))
      ∧ (now - c.lastHeartbeatTime > 2 * srv.opts.heartbeatInterval → c.locked = true →
          (Event.tick now).run srv c = { c with writer := WriterPc.locking })
      ∧ (now - c.lastHeartbeatTime > 2 * srv.opts.heartbeatInterval →
          c.state = ConnState.ConnOpened → c.pushing ≠ [] →
          ∀ as : List Action,
            (runActions srv as ((Event.tick now).run srv c)).state = ConnState.ConnOpened
            ∧ socketCloses (runActions srv as ((Event.tick now).run srv c)) = 0)
      ∧ (¬ now - c.lastHeartbeatTime > 2 * srv.opts.heartbeatInterval →
          ((Event.tick now).run srv c).state = c.state
          ∧ ((Event.tick now).run srv c).wire =
              if srv.opts.heartbeatMechanism = HeartbeatMechanism.TickHeartbeat
                  ∧ c.state ≠ ConnState.ConnClosed
              then c.wire ++ [SockEvent.write (packHeartbeat srv.opts.heartbeatWithServerTime)]
              else c.wire)
      ∧ ((Event.tick now).run srv c).lastHeartbeatTime = c.lastHeartbeatTime
      ∧ (∀ a : Action, (∀ r t, a ≠ Action.event (Event.decoded r t)) →
          (a.run srv c).lastHeartbeatTime = c.lastHeartbeatTime) := by
  have hdl := deadline_eq now srv.opts.heartbeatInterval hlo hhi
  have hiff : c.lastHeartbeatTime < deadline now srv.opts.heartbeatInterval
      ↔ now - c.lastHeartbeatTime > 2 * srv.opts.heartbeatInterval := by
    rw [hdl]; constructor <;> intro h <;> omega
  have hfree : ∀ (_ : now - c.lastHeartbeatTime > 2 * srv.opts.heartbeatInterval)
      (_ : c.locked = false), (Event.tick now).run srv c
        = serverConn.afterWrite ((c.forceClose srv none).1, Loop.stop) :=
    fun h hl => tick_timeout_free srv now c hd hw (hiff.2 h) hl
  have hheld : ∀ (_ : now - c.lastHeartbeatTime > 2 * srv.opts.heartbeatInterval)
      (_ : c.locked = true), (Event.tick now).run srv c = { c with writer := WriterPc.locking } :=
    fun h hl => tick_timeout_locked srv now c hd hw (hiff.2 h) hl
  have hin : ∀ (_ : ¬ now - c.lastHeartbeatTime > 2 * srv.opts.heartbeatInterval),
      (Event.tick now).run srv c = serverConn.afterWrite (c.writeTick srv now)
      ∧ ¬ c.lastHeartbeatTime < deadline now srv.opts.heartbeatInterval :=
    fun h => ⟨tick_in_time srv now c hd hw (fun h2 => h (hiff.1 h2)), fun h2 => h (hiff.1 h2)⟩
  refine ⟨?_, ?_, ?_, hfree, hheld, ?_, ?_, ?_, fun a ha => action_last srv a c ha⟩
  · by_cases ht : now - c.lastHeartbeatTime > 2 * srv.opts.heartbeatInterval
    · cases hl : c.locked
      · rw [hfree ht hl, afterWrite_wire]
        by_cases hs : c.state = ConnState.ConnOpened
        · simp [forceClose_wire_opened none hinv hs hl, hs, ht]
        · simp [forceClose_refused srv none c hs, hs]
      · rw [hheld ht hl]
        simp
    · obtain ⟨h1, h2⟩ := hin ht
      rw [h1, afterWrite_wire, (writeTick_in_time srv now c h2).2]
      split_ifs <;> simp [ht]
  · intro hs
    by_cases ht : now - c.lastHeartbeatTime > 2 * srv.opts.heartbeatInterval
    · cases hl : c.locked
      · rw [hfree ht hl, afterWrite_state, forceClose_state]
        simp [hs, ht]
      · rw [hheld ht hl]
        simp [hs]
    · obtain ⟨h1, h2⟩ := hin ht
      rw [h1, afterWrite_state, (writeTick_in_time srv now c h2).1]
      simp [hs, ht]
  · intro hs
    by_cases ht : now - c.lastHeartbeatTime > 2 * srv.opts.heartbeatInterval
    · cases hl : c.locked
      · rw [hfree ht hl, afterWrite_state, forceClose_refused srv none c hs]
      · rw [hheld ht hl]
    · obtain ⟨h1, h2⟩ := hin ht
      rw [h1, afterWrite_state, (writeTick_in_time srv now c h2).1]
  · intro ht hs hp as
    have hl : c.locked = true := (locked_iff c).2 (Or.inr hp)
    have hx : SockEvent.close ∉ c.wire := by
      obtain ⟨state, conn, q, pu, qc, dc, cc, last, reader, writer, closer, wire, rec, con,
        dis, recv, ds, crashed⟩ := c
      simp only at hs
      subst hs
      simp only [Inv] at hinv
      exact hinv.2.2.2.2.2.2.2.1
    have hj : Jammed ((Event.tick now).run srv c) := by
      rw [hheld ht hl]
      exact ⟨hs, rfl, hp, hx⟩
    have := jammed_runActions srv as _ hj
    exact ⟨this.1, List.count_eq_zero.2 this.2.2.2⟩
  · intro ht
    obtain ⟨h1, h2⟩ := hin ht
    rw [h1, afterWrite_state, afterWrite_wire]
    exact writeTick_in_time srv now c h2
  · by_cases ht : now - c.lastHeartbeatTime > 2 * srv.opts.heartbeatInterval
    · cases hl : c.locked
      · rw [hfree ht hl, afterWrite_last, forceClose_last]
      · rw [hheld ht hl]
    · rw [(hin ht).1, afterWrite_last, writeTick_last]

/-- C5 as amended, at an interval of 10 s, the ticked mechanism and a connection opened at
time 0 with nothing pending: the tick at 30 s closes the socket. -/
theorem tick_closes_opened_iff_timeout_witness :
    (0 < tickServer.opts.heartbeatInterval
      ∧ -9223372036854775808 ≤ seconds 30 - 2 * tickServer.opts.heartbeatInterval
      ∧ seconds 30 - 2 * tickServer.opts.heartbeatInterval < 9223372036854775808
      ∧ Inv tickServer (serverConn.init tickServer 0)
      ∧ (serverConn.init tickServer 0).writer = WriterPc.selecting)
    ∧ ((Event.tick (seconds 30)).run tickServer (serverConn.init tickServer 0)).wire
        = (serverConn.init tickServer 0).wire ++ [SockEvent.close] :=
  ⟨⟨by decide, by decide, by decide, inv_init tickServer 0, rfl⟩,
    (tick_closes_opened_iff_timeout tickServer (seconds 30) (serverConn.init tickServer 0)
      (by decide) (by decide) (by decide) (inv_init tickServer 0) rfl).1.2
      ⟨rfl, by decide, rfl⟩⟩

end tcp

namespace tcp

theorem resp_poll (c : serverConn) (hr : c.reader = ReaderPc.polling)
    (hc : c.closeClosed = false) :
    Event.poll.run respServer c = { c with reader := ReaderPc.decoding } := by
  simp [Event.run, hr, hc]

theorem resp_heartbeat (c : serverConn) (now : Int) (hr : c.reader = ReaderPc.decoding)
    (hs : c.state = ConnState.ConnOpened) :
    (Event.decoded (some (true, [])) now).run respServer c
      = { c with lastHeartbeatTime := now,
                 wire := c.wire ++ [SockEvent.write (packHeartbeat false)],
                 reader := ReaderPc.polling } := by
  simp [Event.run, hr, hs, serverConn.readFrame, serverConn.State, serverConn.afterRead,
    respServer]

theorem resp_deadline (now : Int) (h0 : 0 ≤ now) (h1 : now ≤ 100000000000) :
    deadline now respServer.opts.heartbeatInterval = now - 20000000000 := by
  rw [deadline_eq now respServer.opts.heartbeatInterval
    (by simp only [respServer]; omega) (by simp only [respServer]; omega)]
  simp only [respServer]
  omega

theorem resp_tick_in_time (c : serverConn) (now : Int) (hw : c.writer = WriterPc.selecting)
    (h0 : 0 ≤ now) (h1 : now ≤ 100000000000)
    (ht : now - c.lastHeartbeatTime ≤ 20000000000) :
    (Event.tick now).run respServer c = c := by
  have hn : ¬ c.lastHeartbeatTime < deadline now respServer.opts.heartbeatInterval := by
    rw [resp_deadline now h0 h1]
    omega
  rw [tick_in_time respServer now c (by decide) hw hn]
  simp only [serverConn.writeTick, if_neg hn]
  simp [serverConn.afterWrite, respServer]

theorem resp_tick_timeout (c : serverConn) (now : Int) (hw : c.writer = WriterPc.selecting)
    (h0 : 0 ≤ now) (h1 : now ≤ 100000000000)
    (ht : now - c.lastHeartbeatTime > 20000000000) (hl : c.locked = false) :
    (Event.tick now).run respServer c
      = serverConn.afterWrite ((c.forceClose respServer none).1, Loop.stop) := by
  have hn : c.lastHeartbeatTime < deadline now respServer.opts.heartbeatInterval := by
    rw [resp_deadline now h0 h1]
    omega
  exact tick_timeout_free respServer now c (by decide) hw hn hl

theorem timely_bounds (k : Clocks) (h : k.timely = true) :
    (8000000000 ≤ k.s1 ∧ k.s1 ≤ 9000000000) ∧ (16000000000 ≤ k.s2 ∧ k.s2 ≤ 17000000000)
      ∧ (24000000000 ≤ k.s3 ∧ k.s3 ≤ 25000000000)
      ∧ (32000000000 ≤ k.s4 ∧ k.s4 ≤ 33000000000)
      ∧ (40000000000 ≤ k.s5 ∧ k.s5 ≤ 41000000000)
      ∧ (10000000000 ≤ k.n1 ∧ k.n1 ≤ 11000000000)
      ∧ (20000000000 ≤ k.n2 ∧ k.n2 ≤ 21000000000)
      ∧ (30000000000 ≤ k.n3 ∧ k.n3 ≤ 31000000000)
      ∧ (40000000000 ≤ k.n4 ∧ k.n4 ≤ 41000000000)
      ∧ (50000000000 ≤ k.n5 ∧ k.n5 ≤ 51000000000)
      ∧ (60000000000 ≤ k.n6 ∧ k.n6 ≤ 61000000000)
      ∧ (70000000000 ≤ k.n7 ∧ k.n7 ≤ 71000000000) := by
  simp only [Clocks.timely, readWithin1s, seconds, Bool.and_eq_true, decide_eq_true_eq] at h
  omega

/-- The connection of the heartbeat scenario after the first 40 s: nothing has changed
since `init` but the timestamp, the five heartbeat answers on the socket, and the reader
being inside `read(conn)`. -/
theorem heartbeat_run (k : Clocks) (tickFirst : Bool) (h : k.timely = true) :
    runEvents respServer (heartbeatEvery8s k tickFirst) (serverConn.init respServer 0)
      = { serverConn.init respServer 0 with
          lastHeartbeatTime := k.s5,
          wire := List.replicate 5 (SockEvent.write (packHeartbeat false)),
          reader := ReaderPc.decoding } := by
  obtain ⟨⟨a1, b1⟩, ⟨a2, b2⟩, ⟨a3, b3⟩, ⟨a4, b4⟩, ⟨a5, b5⟩, ⟨c1, d1⟩, ⟨c2, d2⟩, ⟨c3, d3⟩,
    ⟨c4, d4⟩, _⟩ := timely_bounds k h
  have t1 : k.n1 - k.s1 ≤ 20000000000 := by omega
  have t2 : k.n2 - k.s2 ≤ 20000000000 := by omega
  have t3 : k.n3 - k.s3 ≤ 20000000000 := by omega
  have t4 : k.n4 - k.s4 ≤ 20000000000 := by omega
  have t5 : k.n4 - k.s5 ≤ 20000000000 := by omega
  have p1 : 0 ≤ k.n1 := by omega
  have p2 : 0 ≤ k.n2 := by omega
  have p3 : 0 ≤ k.n3 := by omega
  have p4 : 0 ≤ k.n4 := by omega
  have q1 : k.n1 ≤ 100000000000 := by omega
  have q2 : k.n2 ≤ 100000000000 := by omega
  have q3 : k.n3 ≤ 100000000000 := by omega
  have q4 : k.n4 ≤ 100000000000 := by omega
  cases tickFirst <;>
    simp only [heartbeatEvery8s, Bool.false_eq_true, if_false, if_true, List.cons_append,
      List.nil_append, runEvents, serverConn.init, resp_poll, resp_heartbeat,
      resp_tick_in_time, t1, t2, t3, t4, t5, p1, p2, p3, p4, q1, q2, q3, q4,
      List.replicate, List.append_assoc]

end tcp

namespace tcp

theorem resp_tick_exited (c : serverConn) (now : Int) (hw : c.writer = WriterPc.exited) :
    (Event.tick now).run respServer c = c := by
  simp [Event.run, hw]

/-- C6 (the claim fails here): interval 10 s, responsive mechanism, heartbeat frames at
8, 16, 24, 32 and 40 s, every clock read at the very instant of its frame or firing. The
connection is Opened after 40 s, and after 21 further seconds of silence it is still
Opened and the disconnect hook has not run: at the tick of 60 s exactly 20 s have passed
since the last frame, which does not exceed two intervals. The order of the tick and the
frame at 40 s makes no difference. -/
theorem still_opened_after_21s_silence :
    Clocks.exact.timely = true
      ∧ (runEvents respServer (heartbeatEvery8s Clocks.exact false)
          (serverConn.init respServer 0)).state = ConnState.ConnOpened
      ∧ (runEvents respServer (heartbeatEvery8s Clocks.exact false ++ silentFor21s Clocks.exact)
          (serverConn.init respServer 0)).state = ConnState.ConnOpened
      ∧ (runEvents respServer (heartbeatEvery8s Clocks.exact false ++ silentFor21s Clocks.exact)
          (serverConn.init respServer 0)).disconnects = 0
      ∧ (runEvents respServer (heartbeatEvery8s Clocks.exact true ++ silentFor21s Clocks.exact)
          (serverConn.init respServer 0)).state = ConnState.ConnOpened
      ∧ (runEvents respServer (heartbeatEvery8s Clocks.exact true ++ silentFor21s Clocks.exact)
          (serverConn.init respServer 0)).disconnects = 0 := by
  decide

/-- C6 as amended: interval 10 s, responsive mechanism, heartbeat frames sent at 8, 16,
24, 32 and 40 s, the ticker firing every 10 s, each clock read at the instant of its
frame or firing or up to one second later, the tick and the frame of 40 s in either
order. The connection is Opened after 40 s and after the tick of 50 s. When the client
stays silent it is force-closed by the first tick at which more than 20 s have passed
since the timestamp of the last frame: by the tick of 60 s exactly when the writer's
clock reading there is more than 20 s after the reader's reading for the frame of 40 s
(the disconnect hook has then run once, otherwise not at all), and by the tick of 70 s at
the latest; after that tick the state is Closed, the socket has been closed exactly once,
the close being the last thing on it, and the disconnect hook has run exactly once. -/
theorem closed_at_first_late_tick (k : Clocks) (tickFirst : Bool) (h : k.timely = true) :
    (runEvents respServer (heartbeatEvery8s k tickFirst)
        (serverConn.init respServer 0)).state = ConnState.ConnOpened
      ∧ (runEvents respServer (heartbeatEvery8s k tickFirst ++ [Event.tick k.n5])
          (serverConn.init respServer 0)).state = ConnState.ConnOpened
      ∧ (runEvents respServer (heartbeatEvery8s k tickFirst ++ silentFor21s k)
          (serverConn.init respServer 0)).state
          = (if k.n6 - k.s5 > seconds 20 then ConnState.ConnClosed else ConnState.ConnOpened)
      ∧ (runEvents respServer (heartbeatEvery8s k tickFirst ++ silentFor21s k)
          (serverConn.init respServer 0)).disconnects
          = (if k.n6 - k.s5 > seconds 20 then 1 else 0)
      ∧ (runEvents respServer (heartbeatEvery8s k tickFirst ++ silentFor30s k)
          (serverConn.init respServer 0)).state = ConnState.ConnClosed
      ∧ (runEvents respServer (heartbeatEvery8s k tickFirst ++ silentFor30s k)
          (serverConn.init respServer 0)).disconnects = 1
      ∧ (runEvents respServer (heartbeatEvery8s k tickFirst ++ silentFor30s k)
          (serverConn.init respServer 0)).wire.getLast? = some SockEvent.close
      ∧ socketCloses (runEvents respServer (heartbeatEvery8s k tickFirst ++ silentFor30s k)
          (serverConn.init respServer 0)) = 1 := by
  obtain ⟨_, _, _, _, ⟨a5, b5⟩, _, _, _, _, ⟨c5, d5⟩, ⟨c6, d6⟩, ⟨c7, d7⟩⟩ := timely_bounds k h
  have hrun := heartbeat_run k tickFirst h
  generalize hS : ({ serverConn.init respServer 0 with
      lastHeartbeatTime := k.s5,
      wire := List.replicate 5 (SockEvent.write (packHeartbeat false)),
      reader := ReaderPc.decoding } : serverConn) = S at hrun
  have hw : S.writer = WriterPc.selecting := by rw [← hS]; rfl
  have hl : S.locked = false := by rw [← hS]; rfl
  have hlast : S.lastHeartbeatTime = k.s5 := by rw [← hS]
  have h5 : (Event.tick k.n5).run respServer S = S :=
    resp_tick_in_time S k.n5 hw (by omega) (by omega) (by rw [hlast]; omega)
  have hclose : ∀ c : serverConn,
      c = serverConn.afterWrite ((S.forceClose respServer none).1, Loop.stop) →
      c.state = ConnState.ConnClosed ∧ c.disconnects = 1
        ∧ c.wire.getLast? = some SockEvent.close ∧ socketCloses c = 1
        ∧ c.writer = WriterPc.exited := by
    intro c hc
    rw [hc, ← hS]
    simp [serverConn.afterWrite, serverConn.forceClose, serverConn.checkState,
      serverConn.teardown, serverConn.closeChans, serverConn.init, respServer, socketCloses,
      packHeartbeat]
  have hopen : S.state = ConnState.ConnOpened ∧ S.disconnects = 0 := by
    rw [← hS]
    exact ⟨rfl, rfl⟩
  simp only [runEvents_append, hrun]
  simp only [silentFor21s, silentFor30s, runEvents, h5]
  by_cases h6 : k.n6 - k.s5 > seconds 20
  · have e6 : (Event.tick k.n6).run respServer S
        = serverConn.afterWrite ((S.forceClose respServer none).1, Loop.stop) :=
      resp_tick_timeout S k.n6 hw (by omega) (by omega)
        (by rw [hlast]; simp only [seconds] at h6; omega) hl
    obtain ⟨g1, g2, g3, g4, g5⟩ := hclose _ e6
    rw [resp_tick_exited _ k.n7 g5]
    simp only [if_pos h6]
    exact ⟨hopen.1, hopen.1, g1, g2, g1, g2, g3, g4⟩
  · have e6 : (Event.tick k.n6).run respServer S = S :=
      resp_tick_in_time S k.n6 hw (by omega) (by omega)
        (by rw [hlast]; simp only [seconds] at h6; omega)
    have e7 : (Event.tick k.n7).run respServer S
        = serverConn.afterWrite ((S.forceClose respServer none).1, Loop.stop) :=
      resp_tick_timeout S k.n7 hw (by omega) (by omega) (by rw [hlast]; omega) hl
    rw [e6]
    obtain ⟨g1, g2, g3, g4, _⟩ := hclose _ e7
    simp only [if_neg h6]
    exact ⟨hopen.1, hopen.1, hopen.1, hopen.2, g1, g2, g3, g4⟩

/-- C6 as amended, with the writer's clock read one nanosecond after the firing of 60 s:
the connection is closed by the tick of 60 s. -/
theorem closed_at_first_late_tick_witness :
    Clocks.late.timely = true
      ∧ (runEvents respServer (heartbeatEvery8s Clocks.late false ++ silentFor21s Clocks.late)
          (serverConn.init respServer 0)).state = ConnState.ConnClosed :=
  ⟨by decide, (closed_at_first_late_tick Clocks.late false (by decide)).2.2.1⟩

end tcp

namespace tcp

theorem opened_writer_selecting {srv : server} {c : serverConn} (h : Inv srv c)
    (hs : c.state = ConnState.ConnOpened) (hl : c.locked = false) :
    c.writer = WriterPc.selecting := by
  rw [locked_false] at hl
  obtain ⟨state, conn, q, pu, qc, dc, cc, last, reader, writer, closer, wire, rec, con, dis,
    recv, ds, crashed⟩ := c
  simp only at hs hl
  subst hs
  cases writer <;> simp_all [Inv]

/-- A heartbeat timeout while a graceful close is draining: the graceful close of an
Opened connection goes ahead, and the ticker firing next with more than two intervals
elapsed leaves the close stuck, with nothing written, closed, recycled or signalled. -/
theorem timeout_during_drain (srv : server) (c : serverConn) (now : Int)
    (hd : 0 < srv.opts.heartbeatInterval)
    (hlo : -9223372036854775808 ≤ now - 2 * srv.opts.heartbeatInterval)
    (hhi : now - 2 * srv.opts.heartbeatInterval < 9223372036854775808)
    (hinv : Inv srv c) (hs : c.state = ConnState.ConnOpened) (hl : c.locked = false)
    (ht : now - c.lastHeartbeatTime > 2 * srv.opts.heartbeatInterval) :
    c.graceCloseEnter.2 = none
      ∧ Stuck ((Event.tick now).run srv c.graceCloseEnter.1)
      ∧ ((Event.tick now).run srv c.graceCloseEnter.1).wire = c.wire
      ∧ SockEvent.close ∉ c.wire
      ∧ ((Event.tick now).run srv c.graceCloseEnter.1).recycled = 0
      ∧ ((Event.tick now).run srv c.graceCloseEnter.1).disconnects = 0
      ∧ ((Event.tick now).run srv c.graceCloseEnter.1).doneSent = 0
      ∧ ((Event.tick now).run srv c.graceCloseEnter.1).chWrite
          = (if c.chWrite.length < chWriteCap then c.chWrite ++ [chWrite.closeSig]
             else c.chWrite)
      ∧ ((Event.tick now).run srv c.graceCloseEnter.1).writer
          = (if c.chWrite.length < chWriteCap then WriterPc.exited else WriterPc.locking) := by
  have hw := opened_writer_selecting hinv hs hl
  have hdl := deadline_eq now srv.opts.heartbeatInterval hlo hhi
  have hto : c.lastHeartbeatTime < deadline now srv.opts.heartbeatInterval := by
    rw [hdl]; omega
  rw [locked_false] at hl
  obtain ⟨state, conn, q, pu, qc, dc, cc, last, reader, writer, closer, wire, rec, con, dis,
    recv, ds, crashed⟩ := c
  simp only at hs hl hw hto
  subst hs hw
  simp only [Inv] at hinv
  obtain ⟨h0, h1, h2, h3, h4, h5, h6, h7, h8, h9, h10, h11, h12⟩ := hinv
  obtain ⟨_, hp⟩ := hl
  subst h0 h1 h2 h3 h4 h5 h8 h9 h10 hp
  by_cases hlt : q.length < chWriteCap
  · simp [serverConn.graceCloseEnter, serverConn.checkState, hlt, Event.run, hd, hto,
      locked_iff, serverConn.writeTick, serverConn.forceClose, serverConn.afterWrite, Stuck,
      h7]
  · simp [serverConn.graceCloseEnter, serverConn.checkState, hlt, Event.run, hd, hto,
      locked_iff, Stuck, h7]

theorem graceful_of_not_forced (srv : server) (isForce : List Bool) (during : List Event)
    (cerr : Option Nat) (c : serverConn) (hf : isForce.head? ≠ some true) :
    c.Close srv isForce during cerr = c.graceClose srv true during cerr := by
  unfold serverConn.Close
  rw [if_neg]
  exact fun h => hf h.2

theorem stuck_refuses_close (srv : server) (c : serverConn) (h : Stuck c)
    (during : List Event) (isForce : List Bool) (cerr : Option Nat) :
    c.Close srv isForce during cerr
      = (c, Outcome.returned (some Error.ErrConnectionHanged)) := by
  have hk := stuck_checkState h
  unfold serverConn.Close
  split_ifs
  · simp only [serverConn.forceClose, hk]
  · simp only [serverConn.graceClose, serverConn.graceCloseEnter, hk]

theorem stuck_not_resumed {c : serverConn} (h : Stuck c) : c.closer ≠ Closer.resumed := by
  rcases h.2.2 with ⟨h1, _⟩ | ⟨h1, _⟩ <;> rw [h1] <;> decide

/-- What a graceful close meeting a heartbeat timeout leaves behind: the call is blocked
and the connection is stuck with the socket log, the queue and the counters as the entry
of the close and the tick left them. -/
theorem graceClose_stuck (srv : server) (c : serverConn) (now : Int) (es : List Event)
    (cerr : Option Nat)
    (hd : 0 < srv.opts.heartbeatInterval)
    (hlo : -9223372036854775808 ≤ now - 2 * srv.opts.heartbeatInterval)
    (hhi : now - 2 * srv.opts.heartbeatInterval < 9223372036854775808)
    (hinv : Inv srv c) (hs : c.state = ConnState.ConnOpened) (hl : c.locked = false)
    (ht : now - c.lastHeartbeatTime > 2 * srv.opts.heartbeatInterval) :
    (c.graceClose srv true (Event.tick now :: es) cerr).2 = Outcome.blocked
      ∧ Stuck (c.graceClose srv true (Event.tick now :: es) cerr).1
      ∧ (c.graceClose srv true (Event.tick now :: es) cerr).1.wire = c.wire
      ∧ SockEvent.close ∉ c.wire
      ∧ (c.graceClose srv true (Event.tick now :: es) cerr).1.recycled = 0
      ∧ (c.graceClose srv true (Event.tick now :: es) cerr).1.disconnects = 0
      ∧ (c.graceClose srv true (Event.tick now :: es) cerr).1.doneSent = 0
      ∧ (c.graceClose srv true (Event.tick now :: es) cerr).1.chWrite
          = (if c.chWrite.length < chWriteCap then c.chWrite ++ [chWrite.closeSig]
             else c.chWrite)
      ∧ (c.graceClose srv true (Event.tick now :: es) cerr).1.writer
          = (if c.chWrite.length < chWriteCap then WriterPc.exited else WriterPc.locking) := by
  obtain ⟨h1, h2, h3, h4, h5, h6, h7, h8, h9⟩ :=
    timeout_during_drain srv c now hd hlo hhi hinv hs hl ht
  obtain ⟨r, t, he⟩ := stuck_runEvents srv es _ h2
  have hst := stuck_keep h2 r t
  rw [← he] at hst
  have hnr := stuck_not_resumed hst
  have hg : c.graceClose srv true (Event.tick now :: es) cerr
      = (runEvents srv es ((Event.tick now).run srv c.graceCloseEnter.1), Outcome.blocked) := by
    unfold serverConn.graceClose
    rcases hc : c.graceCloseEnter with ⟨c1, r1⟩
    rw [hc] at h1 hnr
    simp only at h1 hnr
    subst h1
    simp only [runEvents]
    rw [if_neg (fun h => hnr h.1)]
  rw [hg]
  refine ⟨rfl, hst, ?_, h4, ?_, ?_, ?_, ?_, ?_⟩
  · show (runEvents srv es _).wire = _
    rw [he]; exact h3
  · show (runEvents srv es _).recycled = _
    rw [he]; exact h5
  · show (runEvents srv es _).disconnects = _
    rw [he]; exact h6
  · show (runEvents srv es _).doneSent = _
    rw [he]; exact h7
  · show (runEvents srv es _).chWrite = _
    rw [he]; exact h8
  · show (runEvents srv es _).writer = _
    rw [he]; exact h9

end tcp

namespace tcp

/-- C2 (the code departs from the claim): on a connection reached from `init`, Opened,
with the lock free, at a heartbeat interval `d > 0`, a graceful `Close` during which the
ticker fires with more than `2d` elapsed since the last-heartbeat timestamp never tears
the connection down. The writer takes the ticker case, its forced close is refused
because the state is Hanged (or waits for the lock the blocked `Close` holds), and the
writer is gone without giving the drain-complete signal: the first `Close` stays blocked
whatever the loops do; and whatever happens afterwards the state stays Hanged, the socket
is never closed, the connection is never recycled, the disconnect hook never runs, and
every later `Close`, forced or graceful, is refused with `ErrConnectionHanged` and changes
nothing. -/
theorem close_blocked_teardown_never (srv : server) (c : serverConn) (now : Int)
    (isForce : List Bool) (es : List Event) (cerr : Option Nat)
    (hd : 0 < srv.opts.heartbeatInterval)
    (hlo : -9223372036854775808 ≤ now - 2 * srv.opts.heartbeatInterval)
    (hhi : now - 2 * srv.opts.heartbeatInterval < 9223372036854775808)
    (hinv : Inv srv c) (hs : c.state = ConnState.ConnOpened) (hl : c.locked = false)
    (hf : isForce.head? ≠ some true)
    (ht : now - c.lastHeartbeatTime > 2 * srv.opts.heartbeatInterval) :
    (c.Close srv isForce (Event.tick now :: es) cerr).2 = Outcome.blocked
      ∧ ∀ (as : List Action) (isForce2 : List Bool) (during2 : List Event)
          (cerr2 : Option Nat),
          (runActions srv as (c.Close srv isForce (Event.tick now :: es) cerr).1).state
              = ConnState.ConnHanged
          ∧ socketCloses
              (runActions srv as (c.Close srv isForce (Event.tick now :: es) cerr).1) = 0
          ∧ (runActions srv as (c.Close srv isForce (Event.tick now :: es) cerr).1).recycled
              = 0
          ∧ (runActions srv as (c.Close srv isForce (Event.tick now :: es) cerr).1).disconnects
              = 0
          ∧ (runActions srv as (c.Close srv isForce (Event.tick now :: es) cerr).1).doneSent
              = 0
          ∧ (runActions srv as (c.Close srv isForce (Event.tick now :: es) cerr).1).Close srv
                isForce2 during2 cerr2
              = (runActions srv as (c.Close srv isForce (Event.tick now :: es) cerr).1,
                  Outcome.returned (some Error.ErrConnectionHanged)) := by
  rw [graceful_of_not_forced srv isForce _ cerr c hf]
  obtain ⟨h1, h2, h3, h4, h5, h6, h7, _, _⟩ :=
    graceClose_stuck srv c now es cerr hd hlo hhi hinv hs hl ht
  refine ⟨h1, ?_⟩
  intro as isForce2 during2 cerr2
  obtain ⟨r, t, he⟩ := stuck_runActions srv as _ h2
  have hst := stuck_keep h2 r t
  rw [← he] at hst
  refine ⟨hst.1, ?_, ?_, ?_, ?_, stuck_refuses_close srv _ hst during2 isForce2 cerr2⟩
  · rw [he]
    show List.count SockEvent.close
      (c.graceClose srv true (Event.tick now :: es) cerr).1.wire = 0
    rw [h3]
    exact List.count_eq_zero.2 h4
  · rw [he]; exact h5
  · rw [he]; exact h6
  · rw [he]; exact h7

/-- C2 at an interval of 10 s, a connection opened at time 0 that has received nothing and
a graceful Close during which the ticker fires at 30 s: the Close stays blocked though
the writer's queue case and the wake-up of the caller are offered afterwards, the socket
is not closed, and a forced Close made later is refused with `ErrConnectionHanged`. -/
theorem close_blocked_teardown_never_witness :
    (0 < tickServer.opts.heartbeatInterval
      ∧ -9223372036854775808 ≤ seconds 30 - 2 * tickServer.opts.heartbeatInterval
      ∧ seconds 30 - 2 * tickServer.opts.heartbeatInterval < 9223372036854775808
      ∧ Inv tickServer (serverConn.init tickServer 0)
      ∧ (serverConn.init tickServer 0).state = ConnState.ConnOpened
      ∧ (serverConn.init tickServer 0).locked = false
      ∧ ([false] : List Bool).head? ≠ some true
      ∧ seconds 30 - (serverConn.init tickServer 0).lastHeartbeatTime
          > 2 * tickServer.opts.heartbeatInterval)
    ∧ ((serverConn.init tickServer 0).Close tickServer [false]
        (Event.tick (seconds 30) :: [Event.recv, Event.closeWake]) none).2 = Outcome.blocked
    ∧ socketCloses (runActions tickServer [Action.event Event.recv]
        ((serverConn.init tickServer 0).Close tickServer [false]
          (Event.tick (seconds 30) :: [Event.recv, Event.closeWake]) none).1) = 0
    ∧ ((runActions tickServer [Action.event Event.recv]
        ((serverConn.init tickServer 0).Close tickServer [false]
          (Event.tick (seconds 30) :: [Event.recv, Event.closeWake]) none).1).Close
          tickServer [true] [] none).2
        = Outcome.returned (some Error.ErrConnectionHanged) :=
  ⟨⟨by decide, by decide, by decide, inv_init tickServer 0, rfl, rfl, by decide, by decide⟩,
    (close_blocked_teardown_never tickServer (serverConn.init tickServer 0) (seconds 30)
      [false] [Event.recv, Event.closeWake] none (by decide) (by decide) (by decide)
      (inv_init tickServer 0) rfl rfl (by decide) (by decide)).1,
    ((close_blocked_teardown_never tickServer (serverConn.init tickServer 0) (seconds 30)
      [false] [Event.recv, Event.closeWake] none (by decide) (by decide) (by decide)
      (inv_init tickServer 0) rfl rfl (by decide) (by decide)).2
        [Action.event Event.recv] [true] [] none).2.1,
    congrArg Prod.snd
      ((close_blocked_teardown_never tickServer (serverConn.init tickServer 0) (seconds 30)
        [false] [Event.recv, Event.closeWake] none (by decide) (by decide) (by decide)
        (inv_init tickServer 0) rfl rfl (by decide) (by decide)).2
          [Action.event Event.recv] [true] [] none).2.2.2.2.2⟩

theorem inv_pushed (srv : server) (msgs : List (List Nat)) (t0 : Int)
    (hn : msgs.length < chWriteCap) :
    runSteps srv (msgs.map Step.push) (serverConn.init srv t0)
        = { serverConn.init srv t0 with
            chWrite := msgs.map (fun m => chWrite.dataPacket (packMessage m)) }
      ∧ Inv srv (runSteps srv (msgs.map Step.push) (serverConn.init srv t0)) := by
  have h := pushes_queued srv msgs (serverConn.init srv t0) rfl rfl
    (by simp [serverConn.init])
    (by simp only [serverConn.init, List.length_nil]; omega)
  have h2 : runSteps srv (msgs.map Step.push) (serverConn.init srv t0)
      = { serverConn.init srv t0 with
          chWrite := msgs.map (fun m => chWrite.dataPacket (packMessage m)) } := by
    rw [h]
    simp [serverConn.init]
  refine ⟨h2, ?_⟩
  rw [h2]
  simp [Inv, serverConn.init]
  omega

/-- C4 (the code departs from the claim): at a heartbeat interval `d > 0`, on a connection
opened at time `t0`, fewer payloads than the queue holds are pushed and a graceful `Close`
follows, during which the ticker fires with more than `2d` elapsed since `t0` (nothing
was received) before the writer has taken an item. The writer takes the ticker case, its
forced close is refused because the state is Hanged, and the writer returns: the `Close`
stays blocked, and whatever happens afterwards nothing is ever written to the socket, the
pushed frames and the stop sentinel stay in the queue, the state stays Hanged and the
socket is never closed. -/
theorem pushed_frames_never_written (srv : server) (msgs : List (List Nat)) (t0 now : Int)
    (es : List Event) (as : List Action)
    (hd : 0 < srv.opts.heartbeatInterval)
    (hlo : -9223372036854775808 ≤ now - 2 * srv.opts.heartbeatInterval)
    (hhi : now - 2 * srv.opts.heartbeatInterval < 9223372036854775808)
    (hn : msgs.length < chWriteCap)
    (ht : now - t0 > 2 * srv.opts.heartbeatInterval) :
    ((runSteps srv (msgs.map Step.push) (serverConn.init srv t0)).Close srv [false]
        (Event.tick now :: es) none).2 = Outcome.blocked
      ∧ (runActions srv as
          ((runSteps srv (msgs.map Step.push) (serverConn.init srv t0)).Close srv [false]
            (Event.tick now :: es) none).1).wire = []
      ∧ (runActions srv as
          ((runSteps srv (msgs.map Step.push) (serverConn.init srv t0)).Close srv [false]
            (Event.tick now :: es) none).1).chWrite
          = msgs.map (fun m => chWrite.dataPacket (packMessage m)) ++ [chWrite.closeSig]
      ∧ (runActions srv as
          ((runSteps srv (msgs.map Step.push) (serverConn.init srv t0)).Close srv [false]
            (Event.tick now :: es) none).1).state = ConnState.ConnHanged
      ∧ (runActions srv as
          ((runSteps srv (msgs.map Step.push) (serverConn.init srv t0)).Close srv [false]
            (Event.tick now :: es) none).1).writer = WriterPc.exited := by
  obtain ⟨hq, hinv⟩ := inv_pushed srv msgs t0 hn
  generalize runSteps srv (msgs.map Step.push) (serverConn.init srv t0) = c at hq hinv
  have hs : c.state = ConnState.ConnOpened := by rw [hq]; rfl
  have hl : c.locked = false := by rw [hq]; rfl
  have hlast : c.lastHeartbeatTime = t0 := by rw [hq]; rfl
  have hwire : c.wire = [] := by rw [hq]; rfl
  have hch : c.chWrite = msgs.map (fun m => chWrite.dataPacket (packMessage m)) := by
    rw [hq]
  have hlen : c.chWrite.length < chWriteCap := by
    rw [hch, List.length_map]; exact hn
  rw [graceful_of_not_forced srv [false] _ none c (by decide)]
  obtain ⟨h1, h2, h3, _, _, _, _, h8, h9⟩ :=
    graceClose_stuck srv c now es none hd hlo hhi hinv hs hl (by rw [hlast]; exact ht)
  obtain ⟨r, t, he⟩ := stuck_runActions srv as _ h2
  have hst := stuck_keep h2 r t
  rw [← he] at hst
  have hw : (runActions srv as (c.graceClose srv true (Event.tick now :: es) none).1).writer
      = WriterPc.exited := by
    rw [he]
    show (c.graceClose srv true (Event.tick now :: es) none).1.writer = _
    rw [h9, if_pos hlen]
  refine ⟨h1, ?_, ?_, hst.1, hw⟩
  · rw [he]
    show (c.graceClose srv true (Event.tick now :: es) none).1.wire = []
    rw [h3, hwire]
  · rw [he]
    show (c.graceClose srv true (Event.tick now :: es) none).1.chWrite = _
    rw [h8, if_pos hlen, hch]

/-- C4 at an interval of 10 s on a connection opened at time 0: three payloads are pushed,
a graceful Close follows and the ticker fires at 30 s before the writer has taken an
item. The Close stays blocked though the writer's queue case is offered again and again,
and nothing is on the socket after further steps. -/
theorem pushed_frames_never_written_witness :
    (0 < tickServer.opts.heartbeatInterval
      ∧ -9223372036854775808 ≤ seconds 30 - 2 * tickServer.opts.heartbeatInterval
      ∧ seconds 30 - 2 * tickServer.opts.heartbeatInterval < 9223372036854775808
      ∧ ([[1], [2], [3]] : List (List Nat)).length < chWriteCap
      ∧ seconds 30 - 0 > 2 * tickServer.opts.heartbeatInterval)
    ∧ ((runSteps tickServer (([[1], [2], [3]] : List (List Nat)).map Step.push)
          (serverConn.init tickServer 0)).Close tickServer [false]
          (Event.tick (seconds 30) :: [Event.recv, Event.recv, Event.recv, Event.recv])
          none).2 = Outcome.blocked
    ∧ (runActions tickServer [Action.event Event.recv, Action.forceClose none]
        ((runSteps tickServer (([[1], [2], [3]] : List (List Nat)).map Step.push)
          (serverConn.init tickServer 0)).Close tickServer [false]
          (Event.tick (seconds 30) :: [Event.recv, Event.recv, Event.recv, Event.recv])
          none).1).wire = [] :=
  ⟨⟨by decide, by decide, by decide, by decide, by decide⟩,
    (pushed_frames_never_written tickServer [[1], [2], [3]] 0 (seconds 30)
      [Event.recv, Event.recv, Event.recv, Event.recv]
      [Action.event Event.recv, Action.forceClose none]
      (by decide) (by decide) (by decide) (by decide) (by decide)).1,
    (pushed_frames_never_written tickServer [[1], [2], [3]] 0 (seconds 30)
      [Event.recv, Event.recv, Event.recv, Event.recv]
      [Action.event Event.recv, Action.forceClose none]
      (by decide) (by decide) (by decide) (by decide) (by decide)).2.1⟩

end tcp

namespace tcp

theorem inv_opened {srv : server} {c : serverConn} (h : Inv srv c)
    (hs : c.state = ConnState.ConnOpened) :
    socketCloses c = 0 ∧ c.recycled = 0 ∧ c.disconnects = 0 ∧ c.doneSent = 0 := by
  obtain ⟨state, conn, q, pu, qc, dc, cc, last, reader, writer, closer, wire, rec, con, dis,
    recv, ds, crashed⟩ := c
  subst hs
  simp [Inv] at h
  simp [socketCloses, h, List.count_eq_zero_of_not_mem]

theorem inv_closed {srv : server} {c : serverConn} (h : Inv srv c)
    (hs : c.state = ConnState.ConnClosed) :
    socketCloses c = 1 ∧ c.recycled = 1
      ∧ c.disconnects = (if srv.disconnectHandler then 1 else 0) ∧ c.doneSent ≤ 1
      ∧ c.crashed = false ∧ c.wire.getLast? = some SockEvent.close := by
  obtain ⟨state, conn, q, pu, qc, dc, cc, last, reader, writer, closer, wire, rec, con, dis,
    recv, ds, crashed⟩ := c
  subst hs
  simp [Inv] at h
  obtain ⟨h0, _, _, _, _, _, _, _, ⟨w, hw, hnw⟩, hr, hd, hds⟩ := h
  subst hw
  exact ⟨by simp [socketCloses, List.count_eq_zero_of_not_mem hnw], hr, hd, hds, h0, by simp⟩

theorem inv_graceClose {srv : server} {c : serverConn} (during : List Event)
    (cerr : Option Nat) (h : Inv srv c) (hl : c.locked = false) :
    Inv srv (c.graceClose srv true during cerr).1 := by
  have he := inv_graceCloseEnter h hl
  unfold serverConn.graceClose
  rcases hc : c.graceCloseEnter with ⟨c1, r⟩
  rw [hc] at he
  cases r with
  | some r => exact he
  | none =>
    simp only
    have h2 := inv_runEvents during he
    split_ifs with hr
    · exact (inv_graceCloseExit cerr h2 hr.1).1
    · exact h2

theorem inv_Close {srv : server} {c : serverConn} (isForce : List Bool) (during : List Event)
    (cerr : Option Nat) (h : Inv srv c) (hl : c.locked = false) :
    Inv srv (c.Close srv isForce during cerr).1 := by
  unfold serverConn.Close
  split_ifs
  · exact inv_forceClose cerr h hl
  · exact inv_graceClose during cerr h hl

theorem Close_not_crash {srv : server} {c : serverConn} (isForce : List Bool)
    (during : List Event) (cerr : Option Nat) (h : Inv srv c) (hl : c.locked = false)
    (hs : c.state = ConnState.ConnOpened) :
    (c.Close srv isForce during cerr).2 ≠ Outcome.crash := by
  have hw := opened_writer_selecting h hs hl
  rw [locked_false] at hl
  intro hcr
  unfold serverConn.Close at hcr
  split_ifs at hcr
  · have := (inv_teardown_opened cerr h hs ((locked_false c).2 hl)).2.2.1
    simp only [serverConn.forceClose, serverConn.checkState, hs] at hcr
    rw [this] at hcr
    simp at hcr
  · have he := inv_graceCloseEnter h ((locked_false c).2 hl)
    unfold serverConn.graceClose at hcr
    rcases hc : c.graceCloseEnter with ⟨c1, r⟩
    rw [hc] at hcr he
    cases r with
    | some r =>
      simp only at hcr
      subst hcr
      simp only [serverConn.graceCloseEnter, serverConn.checkState, hs] at hc
      split_ifs at hc <;> simp at hc
      have := he.1
      rw [← hc] at this
      simp at this
    | none =>
      simp only at hcr
      have h2 := inv_runEvents during he
      split_ifs at hcr with hres
      rw [(inv_graceCloseExit cerr h2 hres.1).2.1] at hcr
      simp at hcr

theorem Close_not_blocked {srv : server} {c : serverConn} (isForce : List Bool)
    (during : List Event) (cerr : Option Nat) (h : Inv srv c) (hl : c.locked = false)
    (hs : c.state = ConnState.ConnOpened)
    (hr : (c.Close srv isForce during cerr).2 ≠ Outcome.blocked) :
    (c.Close srv isForce during cerr).2 = Outcome.returned (cerr.map Error.io)
      ∧ (c.Close srv isForce during cerr).1.state = ConnState.ConnClosed := by
  have hcr := Close_not_crash isForce during cerr h hl hs
  unfold serverConn.Close at hr hcr ⊢
  split_ifs at hr hcr ⊢
  · simp only [serverConn.forceClose, serverConn.checkState, hs] at hr hcr ⊢
    refine ⟨?_, teardown_state _ _ _ _⟩
    rcases teardown_outcome srv true cerr c with ⟨h1, _⟩ | ⟨h1, _⟩
    · exact absurd h1 hcr
    · exact h1
  · rcases graceClose_opened srv true during cerr c hs with h1 | h1 | ⟨h1, h3, _⟩
    · exact absurd h1 hcr
    · exact absurd h1 hr
    · exact ⟨h1, h3⟩

theorem runCloses_closed (srv : server) (ks : List CloseCall) (c : serverConn)
    (hs : c.state = ConnState.ConnClosed) :
    runCloses srv ks c
      = (c, ks.map (fun _ => Outcome.returned (some Error.ErrConnectionClosed))) := by
  induction ks with
  | nil => rfl
  | cons k ks ih =>
    have hg := guarded_Close srv k.isForce k.during k.cerr c
    have h1 := hg.2.1.2 hs
    have h2 := hg.2.2 (by rw [hs]; decide)
    unfold runCloses
    rcases hc : c.Close srv k.isForce k.during k.cerr with ⟨c1, r⟩
    rw [hc] at h1 h2
    simp only at h1 h2
    subst h1 h2
    simp [ih]

/-- Teardown happens exactly once when the first `Close` returns: take a connection
reached from `init` by any steps, still Opened and with the lock free, and `Close` calls
made one after another on it, the first of which returns. Before the first call nothing
of the teardown has happened. The first call closes the socket, deregisters the
connection and runs the disconnect hook (when one is registered), each exactly once, and
the drain-complete signal was given at most once. Every later call returns
`ErrConnectionClosed` and leaves the connection exactly as it was. Whatever steps
follow, in any interleaving, the counts stay at one and nothing panics; and a `Close`
that finds the connection Hanged or Closed returns that error and changes nothing. -/
theorem teardown_exactly_once (srv : server) (now : Int) (before : List Action)
    (first : CloseCall) (later : List CloseCall) (c c1 : serverConn)
    (hc : c = runActions srv before (serverConn.init srv now))
    (hs : c.state = ConnState.ConnOpened) (hl : c.locked = false)
    (h1 : c1 = (c.Close srv first.isForce first.during first.cerr).1)
    (hr : (c.Close srv first.isForce first.during first.cerr).2 ≠ Outcome.blocked) :
    (socketCloses c = 0 ∧ c.recycled = 0 ∧ c.disconnects = 0 ∧ c.doneSent = 0)
      ∧ (c.Close srv first.isForce first.during first.cerr).2
          = Outcome.returned (first.cerr.map Error.io)
      ∧ (c1.state = ConnState.ConnClosed ∧ socketCloses c1 = 1 ∧ c1.recycled = 1
          ∧ c1.disconnects = (if srv.disconnectHandler then 1 else 0) ∧ c1.doneSent ≤ 1
          ∧ c1.crashed = false)
      ∧ runCloses srv later c1
          = (c1, later.map (fun _ => Outcome.returned (some Error.ErrConnectionClosed)))
      ∧ (∀ after : List Action,
          socketCloses (runActions srv after c1) = 1 ∧ (runActions srv after c1).recycled = 1
          ∧ (runActions srv after c1).disconnects = (if srv.disconnectHandler then 1 else 0)
          ∧ (runActions srv after c1).doneSent ≤ 1
          ∧ (runActions srv after c1).crashed = false)
      ∧ (∀ (d : serverConn) (k : CloseCall), d.state ≠ ConnState.ConnOpened →
          (d.Close srv k.isForce k.during k.cerr).1 = d
          ∧ ((d.Close srv k.isForce k.during k.cerr).2
                = Outcome.returned (some Error.ErrConnectionHanged)
              ∨ (d.Close srv k.isForce k.during k.cerr).2
                = Outcome.returned (some Error.ErrConnectionClosed))) := by
  have hinv : Inv srv c := by rw [hc]; exact inv_runActions before (inv_init srv now)
  have hret := Close_not_blocked first.isForce first.during first.cerr hinv hl hs hr
  have hinv1 : Inv srv c1 := by rw [h1]; exact inv_Close _ _ _ hinv hl
  have hs1 : c1.state = ConnState.ConnClosed := by rw [h1]; exact hret.2
  have hcl := inv_closed hinv1 hs1
  refine ⟨inv_opened hinv hs, hret.1, ⟨hs1, hcl.1, hcl.2.1, hcl.2.2.1, hcl.2.2.2.1,
    hcl.2.2.2.2.1⟩, runCloses_closed srv later c1 hs1, ?_, ?_⟩
  · intro after
    have hi := @inv_runActions srv after _ hinv1
    have hcs := closed_stays srv after c1 hs1
    have := inv_closed hi hcs
    exact ⟨this.1, this.2.1, this.2.2.1, this.2.2.2.1, this.2.2.2.2.1⟩
  · intro d k hd
    have hg := guarded_Close srv k.isForce k.during k.cerr d
    refine ⟨hg.2.2 hd, ?_⟩
    cases hds : d.state with
    | ConnOpened => exact absurd hds hd
    | ConnHanged => exact Or.inl (hg.1.2 hds)
    | ConnClosed => exact Or.inr (hg.2.1.2 hds)

/-- The statement above at a connection with one frame queued, closed gracefully (the
writer takes the frame and the stop sentinel while the caller waits), then force-closed,
then closed gracefully again: the two later calls return `ErrConnectionClosed`. -/
theorem teardown_exactly_once_witness :
    ((runActions respServer [Action.push [1]] (serverConn.init respServer 0)).state
        = ConnState.ConnOpened
      ∧ (runActions respServer [Action.push [1]] (serverConn.init respServer 0)).locked = false
      ∧ ((runActions respServer [Action.push [1]] (serverConn.init respServer 0)).Close
          respServer [] [Event.recv, Event.recv] none).2 ≠ Outcome.blocked)
    ∧ runCloses respServer [⟨[true], [], none⟩, ⟨[false], [Event.recv], none⟩]
        ((runActions respServer [Action.push [1]] (serverConn.init respServer 0)).Close
          respServer [] [Event.recv, Event.recv] none).1
      = (((runActions respServer [Action.push [1]] (serverConn.init respServer 0)).Close
          respServer [] [Event.recv, Event.recv] none).1,
         [Outcome.returned (some Error.ErrConnectionClosed),
          Outcome.returned (some Error.ErrConnectionClosed)]) :=
  ⟨⟨by decide, by decide, by decide⟩,
    (teardown_exactly_once respServer 0 [Action.push [1]] ⟨[], [Event.recv, Event.recv], none⟩
      [⟨[true], [], none⟩, ⟨[false], [Event.recv], none⟩] _ _ rfl (by decide) (by decide) rfl
      (by decide)).2.2.2.1⟩

end tcp

namespace tcp

theorem forceClose_open (srv : server) (cerr : Option Nat) (c : serverConn)
    (h : (c.forceClose srv cerr).1.state ≠ ConnState.ConnClosed) :
    (c.forceClose srv cerr).1 = c := by
  cases hs : c.state with
  | ConnOpened =>
    rw [forceClose_state, hs] at h
    simp at h
  | ConnHanged => simp [serverConn.forceClose, serverConn.checkState, hs]
  | ConnClosed => simp [serverConn.forceClose, serverConn.checkState, hs]

theorem sentPayloads_append (w1 w2 : List SockEvent) :
    sentPayloads (w1 ++ w2) = sentPayloads w1 ++ sentPayloads w2 := by
  simp [sentPayloads]

theorem queuedPayloads_append (q1 q2 : List chWrite) :
    queuedPayloads (q1 ++ q2) = queuedPayloads q1 ++ queuedPayloads q2 := by
  simp [queuedPayloads]

theorem blockedPayloads_append (q1 q2 : List Frame) :
    blockedPayloads (q1 ++ q2) = blockedPayloads q1 ++ blockedPayloads q2 := by
  simp [blockedPayloads]

theorem outbound_recv (srv : server) (c : serverConn)
    (h : (Event.recv.run srv c).state ≠ ConnState.ConnClosed)
    (hcap : c.pushing ≠ [] ∨ c.closer = Closer.sending → c.chWrite.length ≤ chWriteCap) :
    outbound (Event.recv.run srv c) = outbound c := by
  obtain ⟨state, conn, q, pu, qc, dc, cc, last, reader, writer, closer, wire, rec, con, dis,
    recv, ds, crashed⟩ := c
  simp only at hcap
  cases writer with
  | locking => simp [Event.run]
  | exited => simp [Event.run]
  | selecting =>
    cases q with
    | nil =>
      simp only [Event.run, if_true]
      split_ifs <;> simp [outbound]
    | cons x rest =>
      have hlt : pu ≠ [] ∨ closer = Closer.sending → rest.length < chWriteCap := by
        intro hp
        have := hcap hp
        simp only [List.length_cons] at this
        omega
      cases x with
      | closeSig =>
        simp only [Event.run, if_true] at h ⊢
        split_ifs at h ⊢ with h1
        · rfl
        · have hns : closer ≠ Closer.sending := by
            intro hc
            exact h1 (Or.inl (by simp [serverConn.wlocked, hc]))
          cases pu with
          | nil =>
            cases closer <;>
              simp [serverConn.writeItem, serverConn.afterWrite, serverConn.wakeSender,
                serverConn.rlocked, serverConn.graceCloseSend,
                outbound, queuedPayloads, blockedPayloads] at hns ⊢ <;>
              split_ifs <;> simp [outbound, queuedPayloads, blockedPayloads]
          | cons m ps =>
            have hl := hlt (Or.inl (by simp))
            cases m <;>
              simp [serverConn.writeItem, serverConn.afterWrite, serverConn.wakeSender,
                serverConn.rlocked, serverConn.pushSend, hl,
                outbound, queuedPayloads, blockedPayloads] <;>
              split_ifs <;> simp [outbound, queuedPayloads, blockedPayloads]
      | dataPacket msg =>
        have hst : state ≠ ConnState.ConnClosed := by
          intro hc
          apply h
          simp only [Event.run, if_true, afterWrite_state, allowed_writeItem,
            wakeSender_state, hc]
        have hcl : (decide (state = ConnState.ConnClosed)) = false := by simp [hst]
        cases pu with
        | nil =>
          by_cases hsd : closer = Closer.sending
          · have hl := hlt (Or.inr hsd)
            subst hsd
            cases msg <;>
              simp [Event.run, serverConn.writeItem, serverConn.afterWrite,
                serverConn.wakeSender, serverConn.rlocked, serverConn.graceCloseSend, hl,
                serverConn.isClosed, outbound, queuedPayloads, blockedPayloads,
                sentPayloads, hcl, hst] <;>
              split_ifs <;> simp_all [queuedPayloads]
          · cases msg <;>
              simp [Event.run, serverConn.writeItem, serverConn.afterWrite,
                serverConn.wakeSender, serverConn.rlocked, serverConn.graceCloseSend, hsd,
                serverConn.isClosed, outbound, queuedPayloads, blockedPayloads,
                sentPayloads, hcl, hst]
        | cons m ps =>
          have hl := hlt (Or.inl (by simp))
          cases msg <;> cases m <;>
            simp [Event.run, serverConn.writeItem, serverConn.afterWrite,
              serverConn.wakeSender, serverConn.rlocked, serverConn.pushSend, hl,
              serverConn.isClosed, outbound, queuedPayloads, blockedPayloads,
              sentPayloads, hcl, hst]

end tcp

namespace tcp

theorem inv_cap {srv : server} {c : serverConn} (h : Inv srv c) :
    c.pushing ≠ [] ∨ c.closer = Closer.sending → c.chWrite.length ≤ chWriteCap := by
  obtain ⟨state, conn, q, pu, qc, dc, cc, last, reader, writer, closer, wire, rec, con, dis,
    recv, ds, crashed⟩ := c
  cases state <;> cases closer <;> simp [Inv] at h <;> simp [h]

theorem outbound_event {srv : server} (e : Event) {c : serverConn} (hinv : Inv srv c)
    (h : (e.run srv c).state ≠ ConnState.ConnClosed) :
    outbound (e.run srv c) = outbound c := by
  cases e with
  | poll =>
    simp only [Event.run]
    split_ifs <;> rfl
  | decoded r now =>
    simp only [Event.run] at h ⊢
    split_ifs at h ⊢
    · rfl
    · rw [afterRead_state] at h
      have : outbound (c.readFrame srv r now).1 = outbound c := by
        cases r with
        | none =>
          have := forceClose_open srv none c h
          simp only [serverConn.readFrame]
          rw [this]
        | some p =>
          obtain ⟨hb, msg⟩ := p
          simp only [serverConn.readFrame, serverConn.State]
          split_ifs <;> split <;> (try split_ifs) <;>
            simp [outbound, sentPayloads_append, sentPayloads, packHeartbeat]
      rw [← this]
      unfold serverConn.afterRead
      split <;> rfl
    · rfl
  | recv => exact outbound_recv srv c h (inv_cap hinv)
  | tick now =>
    simp only [Event.run] at h ⊢
    split_ifs at h ⊢
    · rfl
    · rw [afterWrite_state] at h
      have : outbound (c.writeTick srv now).1 = outbound c := by
        unfold serverConn.writeTick at h ⊢
        split_ifs at h ⊢
        · rw [forceClose_open srv none c h]
        · rfl
        · simp [outbound, sentPayloads_append, sentPayloads, packHeartbeat]
        · rfl
      rw [← this]
      unfold serverConn.afterWrite
      split <;> rfl
    · rfl
  | closeWake =>
    simp only [Event.run, serverConn.graceCloseWake]
    split_ifs <;> rfl
  | readerLock =>
    simp only [Event.run] at h ⊢
    split_ifs at h ⊢
    · rw [afterRead_state] at h
      simp only [serverConn.afterRead]
      rw [forceClose_open srv none c h]
      rfl
    · rfl
  | writerLock =>
    simp only [Event.run] at h ⊢
    split_ifs at h ⊢
    · rw [afterWrite_state] at h
      simp only [serverConn.afterWrite]
      rw [forceClose_open srv none c h]
      rfl
    · rfl

theorem event_state_eq (srv : server) (e : Event) (c : serverConn)
    (h : c.state = ConnState.ConnHanged) : (e.run srv c).state = ConnState.ConnHanged := by
  have hfc : ∀ cerr, (c.forceClose srv cerr).1 = c := by
    intro cerr
    simp [serverConn.forceClose, serverConn.checkState, h]
  cases e with
  | poll =>
    simp only [Event.run]
    split_ifs <;> exact h
  | decoded r now =>
    simp only [Event.run]
    split_ifs
    · exact h
    · rw [afterRead_state]
      cases r with
      | none => simpa [serverConn.readFrame, hfc] using h
      | some p =>
        obtain ⟨hb, msg⟩ := p
        simp only [serverConn.readFrame, serverConn.State]
        split_ifs <;> simp [h]
    · exact h
  | recv =>
    simp only [Event.run]
    split
    · split
      · split_ifs <;> exact h
      · split_ifs
        · exact h
        · rw [afterWrite_state, allowed_writeItem, wakeSender_state]; exact h
      · rw [afterWrite_state, allowed_writeItem, wakeSender_state]; exact h
    · exact h
  | tick now =>
    simp only [Event.run]
    split_ifs
    · exact h
    · rw [afterWrite_state]
      unfold serverConn.writeTick
      split_ifs
      · rw [hfc]; exact h
      all_goals exact h
    · exact h
  | closeWake =>
    simp only [Event.run, serverConn.graceCloseWake]
    split_ifs <;> exact h
  | readerLock =>
    simp only [Event.run]
    split_ifs
    · rw [afterRead_state, hfc]; exact h
    · exact h
  | writerLock =>
    simp only [Event.run]
    split_ifs
    · rw [afterWrite_state, hfc]; exact h
    · exact h

theorem events_state_eq (srv : server) (es : List Event) :
    ∀ (c : serverConn), c.state = ConnState.ConnHanged →
      (runEvents srv es c).state = ConnState.ConnHanged := by
  induction es with
  | nil => intro c h; exact h
  | cons e es ih => intro c h; exact ih _ (event_state_eq srv e c h)

theorem outbound_events {srv : server} (es : List Event) :
    ∀ {c : serverConn}, Inv srv c → c.state = ConnState.ConnHanged →
      outbound (runEvents srv es c) = outbound c := by
  induction es with
  | nil => intro c _ _; rfl
  | cons e es ih =>
    intro c hinv h
    have h1 := event_state_eq srv e c h
    simp only [runEvents]
    rw [ih (inv_event e hinv) h1, outbound_event e hinv (by rw [h1]; decide)]

theorem inv_step {srv : server} (s : Step) {c : serverConn} (h : Inv srv c) :
    Inv srv (s.run srv c) := by
  cases s with
  | push msg => exact inv_action (Action.push msg) h
  | event e => exact inv_event e h

theorem allowed_step (srv : server) (s : Step) (c : serverConn) :
    Allowed c.state (s.run srv c).state := by
  cases s with
  | push msg => exact allowed_action srv (Action.push msg) c
  | event e => exact allowed_event srv e c

theorem step_opened_before (srv : server) (s : Step) (c : serverConn)
    (h : (s.run srv c).state = ConnState.ConnOpened) : c.state = ConnState.ConnOpened := by
  have ha := allowed_step srv s c
  rw [h] at ha
  rcases ha with h1 | h1 | h1 | h1
  · exact h1
  · simp at h1
  · simp at h1
  · simp at h1

theorem steps_opened_before (srv : server) (ss : List Step) :
    ∀ (c : serverConn), (runSteps srv ss c).state = ConnState.ConnOpened →
      c.state = ConnState.ConnOpened := by
  induction ss with
  | nil => intro c h; exact h
  | cons s ss ih => intro c h; exact step_opened_before srv s c (ih _ h)

theorem inv_runSteps {srv : server} (ss : List Step) :
    ∀ {c : serverConn}, Inv srv c → Inv srv (runSteps srv ss c) := by
  induction ss with
  | nil => intro c h; exact h
  | cons s ss ih => intro c h; exact ih (inv_step s h)

theorem outbound_push {srv : server} (msg : List Nat) {c : serverConn} (hinv : Inv srv c)
    (hs : c.state = ConnState.ConnOpened) :
    outbound ((Step.push msg).run srv c) = outbound c ++ [msg] := by
  obtain ⟨state, conn, q, pu, qc, dc, cc, last, reader, writer, closer, wire, rec, con, dis,
    recv, ds, crashed⟩ := c
  subst hs
  simp [Inv] at hinv
  by_cases hlt : q.length < chWriteCap
  · have hpu : pu = [] := by
      have hne : q.length ≠ chWriteCap := by omega
      cases writer <;> simp_all
    subst hpu
    simp [Step.run, serverConn.wlocked, serverConn.Push, serverConn.checkState, hinv, hlt,
      outbound, queuedPayloads, blockedPayloads, packMessage]
  · simp [Step.run, serverConn.wlocked, serverConn.Push, serverConn.checkState, hinv, hlt,
      outbound, queuedPayloads, blockedPayloads, packMessage]

theorem outbound_steps {srv : server} (ss : List Step) :
    ∀ {c : serverConn}, Inv srv c → (runSteps srv ss c).state = ConnState.ConnOpened →
      outbound (runSteps srv ss c) = outbound c ++ pushed ss := by
  induction ss with
  | nil => intro c _ _; simp [runSteps, pushed]
  | cons s ss ih =>
    intro c hinv hfin
    have hmid : (s.run srv c).state = ConnState.ConnOpened := steps_opened_before srv ss _ hfin
    have hs : c.state = ConnState.ConnOpened := step_opened_before srv s c hmid
    have hi := @inv_step srv s _ hinv
    simp only [runSteps]
    rw [ih hi hfin]
    cases s with
    | push msg =>
      rw [outbound_push msg hinv hs]
      simp [pushed]
    | event e =>
      simp only [Step.run] at hmid ⊢
      rw [outbound_event e hinv (by rw [hmid]; decide)]
      simp [pushed]

end tcp

namespace tcp

/-- While a graceful close is draining, an event other than the writer's queue case leaves
the writer at its `select`, the caller where it is and the queue as it is, unless it is
a ticker firing that finds the heartbeat timed out. -/
theorem draining_other (srv : server) (e : Event) (c : serverConn)
    (hs : c.state = ConnState.ConnHanged) (hw : c.writer = WriterPc.selecting)
    (hdc : c.doneClosed = false) (he : e ≠ Event.recv)
    (ht : ∀ now, e = Event.tick now →
      ¬ c.lastHeartbeatTime < deadline now srv.opts.heartbeatInterval) :
    (e.run srv c).writer = WriterPc.selecting ∧ (e.run srv c).closer = c.closer
      ∧ (e.run srv c).chWrite = c.chWrite := by
  have hfc : ∀ cerr, (c.forceClose srv cerr).1 = c := by
    intro cerr
    simp [serverConn.forceClose, serverConn.checkState, hs]
  cases e with
  | recv => exact absurd rfl he
  | poll =>
    simp only [Event.run]
    split_ifs <;> exact ⟨hw, rfl, rfl⟩
  | decoded r now =>
    simp only [Event.run]
    split_ifs
    · exact ⟨hw, rfl, rfl⟩
    · cases r with
      | none => simp [serverConn.readFrame, hfc, serverConn.afterRead, hw]
      | some p =>
        obtain ⟨hb, msg⟩ := p
        simp only [serverConn.readFrame, serverConn.State, serverConn.afterRead]
        split_ifs <;> simp [hs, hw]
    · exact ⟨hw, rfl, rfl⟩
  | tick now =>
    have hn := ht now rfl
    simp only [Event.run]
    split_ifs with h1 h2
    · exact absurd h2.1 hn
    · simp only [serverConn.writeTick, if_neg hn, serverConn.isClosed, hs,
        serverConn.afterWrite]
      split_ifs <;> simp_all
    · exact ⟨hw, rfl, rfl⟩
  | closeWake =>
    simp [Event.run, serverConn.graceCloseWake, hdc, hw]
  | readerLock =>
    simp only [Event.run]
    split_ifs
    · simp [hfc, serverConn.afterRead, hw]
    · exact ⟨hw, rfl, rfl⟩
  | writerLock =>
    simp only [Event.run]
    split_ifs with h1
    · rw [hw] at h1
      exact absurd h1.1 (by decide)
    · exact ⟨hw, rfl, rfl⟩

theorem drained_event (srv : server) (e : Event) (c : serverConn)
    (hs : c.state = ConnState.ConnHanged) (hw : c.writer = WriterPc.exited)
    (hc : c.closer = Closer.resumed) :
    (e.run srv c).writer = WriterPc.exited ∧ (e.run srv c).closer = Closer.resumed := by
  have hfc : ∀ cerr, (c.forceClose srv cerr).1 = c := by
    intro cerr
    simp [serverConn.forceClose, serverConn.checkState, hs]
  cases e with
  | recv => simp [Event.run, hw, hc]
  | poll =>
    simp only [Event.run]
    split_ifs <;> exact ⟨hw, hc⟩
  | decoded r now =>
    simp only [Event.run]
    split_ifs
    · exact ⟨hw, hc⟩
    · cases r with
      | none => simp [serverConn.readFrame, hfc, serverConn.afterRead, hw, hc]
      | some p =>
        obtain ⟨hb, msg⟩ := p
        simp only [serverConn.readFrame, serverConn.State, serverConn.afterRead]
        split_ifs <;> simp [hs, hw, hc]
    · exact ⟨hw, hc⟩
  | tick now => simp [Event.run, hw, hc]
  | closeWake => simp [Event.run, serverConn.graceCloseWake, hw, hc]
  | readerLock =>
    simp only [Event.run]
    split_ifs
    · simp [hfc, serverConn.afterRead, hw, hc]
    · exact ⟨hw, hc⟩
  | writerLock => simp [Event.run, hw, hc]

theorem drained_events (srv : server) (es : List Event) :
    ∀ (c : serverConn), c.state = ConnState.ConnHanged → c.writer = WriterPc.exited →
      c.closer = Closer.resumed → (runEvents srv es c).closer = Closer.resumed := by
  induction es with
  | nil => intro c _ _ hc; exact hc
  | cons e es ih =>
    intro c hs hw hc
    have h := drained_event srv e c hs hw hc
    exact ih _ (event_state_eq srv e c hs) h.1 h.2

theorem draining_recv {srv : server} {c : serverConn} (hinv : Inv srv c)
    (hs : c.state = ConnState.ConnHanged) (hw : c.writer = WriterPc.selecting)
    (hc : c.closer = Closer.waiting ∨ c.closer = Closer.sending) :
    ((Event.recv.run srv c).writer = WriterPc.exited
        ∧ (Event.recv.run srv c).closer = Closer.resumed)
      ∨ ((Event.recv.run srv c).writer = WriterPc.selecting
        ∧ ((Event.recv.run srv c).closer = Closer.waiting
            ∨ (Event.recv.run srv c).closer = Closer.sending)
        ∧ toDrain (Event.recv.run srv c) + 1 = toDrain c) := by
  obtain ⟨state, conn, q, pu, qc, dc, cc, last, reader, writer, closer, wire, rec, con, dis,
    recv, ds, crashed⟩ := c
  simp only at hs hw hc
  subst hs hw
  rcases hc with hc | hc <;> subst hc
  · simp only [Inv] at hinv
    obtain ⟨h0, h1, h2, h3, h4, h5, h6, h7, h8, ⟨q0, hq, hnq⟩, h10⟩ := hinv
    subst h2 h3 h8
    cases q0 with
    | nil =>
      subst hq
      left
      simp [Event.run, serverConn.wlocked, serverConn.wakeSender, serverConn.rlocked,
        serverConn.graceCloseSend, serverConn.writeItem, serverConn.afterWrite]
    | cons x rest =>
      subst hq
      cases x with
      | closeSig => simp at hnq
      | dataPacket msg =>
        right
        simp [Event.run, serverConn.wakeSender, serverConn.rlocked,
          serverConn.graceCloseSend, serverConn.writeItem, serverConn.afterWrite,
          serverConn.isClosed, toDrain]
  · simp only [Inv] at hinv
    obtain ⟨h0, h1, h2, h3, h4, h5, h6, h7, h8, h9, h10, h11, h12⟩ := hinv
    subst h2 h3 h8
    cases q with
    | nil => simp [chWriteCap] at h11
    | cons x rest =>
      cases x with
      | closeSig => simp at h9
      | dataPacket msg =>
        right
        have hlt : rest.length < chWriteCap := by
          simp only [List.length_cons] at h11
          omega
        simp [Event.run, serverConn.wakeSender, serverConn.rlocked,
          serverConn.graceCloseSend, serverConn.writeItem, serverConn.afterWrite,
          serverConn.isClosed, toDrain, hlt]

theorem inv_hanged_done {srv : server} {c : serverConn} (hinv : Inv srv c)
    (hs : c.state = ConnState.ConnHanged) :
    c.doneClosed = false ∧ c.pushing = [] ∧ SockEvent.close ∉ c.wire := by
  obtain ⟨state, conn, q, pu, qc, dc, cc, last, reader, writer, closer, wire, rec, con, dis,
    recv, ds, crashed⟩ := c
  simp only at hs
  subst hs
  simp only [Inv] at hinv
  exact ⟨hinv.2.2.2.1, hinv.2.2.2.2.2.2.2.2.1, hinv.2.2.2.2.2.1⟩

theorem toDrain_pos {srv : server} {c : serverConn} (hinv : Inv srv c)
    (hs : c.state = ConnState.ConnHanged)
    (hc : c.closer = Closer.waiting ∨ c.closer = Closer.sending) : 0 < toDrain c := by
  obtain ⟨state, conn, q, pu, qc, dc, cc, last, reader, writer, closer, wire, rec, con, dis,
    recv, ds, crashed⟩ := c
  simp only at hs hc
  subst hs
  rcases hc with hc | hc <;> subst hc
  · simp only [Inv] at hinv
    obtain ⟨_, _, _, _, _, _, _, _, _, ⟨q0, hq, _⟩, _⟩ := hinv
    subst hq
    simp [toDrain]
  · simp [toDrain]

/-- The drain of a graceful close completes: while no ticker firing finds the heartbeat
timed out, once the writer has taken as many items as there are to drain the caller has
its drain-complete signal, whatever else the loops do in between. -/
theorem drain_completes {srv : server} (es : List Event) :
    ∀ {c : serverConn}, Inv srv c → c.state = ConnState.ConnHanged →
      c.writer = WriterPc.selecting →
      (c.closer = Closer.waiting ∨ c.closer = Closer.sending) →
      inTime srv es c = true → toDrain c ≤ es.count Event.recv →
      (runEvents srv es c).closer = Closer.resumed := by
  induction es with
  | nil =>
    intro c hinv hs _ hc _ hn
    have := toDrain_pos hinv hs hc
    simp at hn
    omega
  | cons e es ih =>
    intro c hinv hs hw hc hin hn
    simp only [inTime, Bool.and_eq_true] at hin
    obtain ⟨hin1, hin2⟩ := hin
    have hs1 := event_state_eq srv e c hs
    have hinv1 := inv_event e hinv
    simp only [runEvents]
    by_cases he : e = Event.recv
    · subst he
      simp only [List.count_cons_self] at hn
      rcases draining_recv hinv hs hw hc with ⟨h1, h2⟩ | ⟨h1, h2, h3⟩
      · exact drained_events srv es _ hs1 h1 h2
      · exact ih hinv1 hs1 h1 h2 hin2 (by omega)
    · have ht : ∀ now, e = Event.tick now →
          ¬ c.lastHeartbeatTime < deadline now srv.opts.heartbeatInterval := by
        intro now hnow
        subst hnow
        simpa using hin1
      obtain ⟨h1, h2, h3⟩ := draining_other srv e c hs hw (inv_hanged_done hinv hs).1 he ht
      have hd : toDrain (e.run srv c) = toDrain c := by
        simp only [toDrain, h2, h3]
      have hcount : (e :: es).count Event.recv = es.count Event.recv := by
        rw [List.count_cons_of_ne]
        exact fun h => he h.symm
      exact ih hinv1 hs1 h1 (by rw [h2]; exact hc) hin2 (by rw [hd]; omega)

end tcp

namespace tcp

theorem graceCloseEnter_draining {srv : server} {c : serverConn} (hinv : Inv srv c)
    (hs : c.state = ConnState.ConnOpened) (hl : c.locked = false) :
    c.graceCloseEnter.2 = none
      ∧ c.graceCloseEnter.1.state = ConnState.ConnHanged
      ∧ c.graceCloseEnter.1.writer = WriterPc.selecting
      ∧ (c.graceCloseEnter.1.closer = Closer.waiting
          ∨ c.graceCloseEnter.1.closer = Closer.sending)
      ∧ toDrain c.graceCloseEnter.1 = c.chWrite.length + 1
      ∧ outbound c.graceCloseEnter.1 = outbound c := by
  have hw := opened_writer_selecting hinv hs hl
  obtain ⟨state, conn, q, pu, qc, dc, cc, last, reader, writer, closer, wire, rec, con, dis,
    recv, ds, crashed⟩ := c
  simp only at hs hw
  subst hs hw
  simp only [Inv] at hinv
  obtain ⟨h0, h1, h2, h3, h4, h5, h6, h7, h8, h9, h10, h11, h12⟩ := hinv
  subst h2
  by_cases hlt : q.length < chWriteCap
  · simp [serverConn.graceCloseEnter, serverConn.checkState, hlt, toDrain, outbound,
      queuedPayloads]
  · simp [serverConn.graceCloseEnter, serverConn.checkState, hlt, toDrain, outbound]

/-- A graceful close returns when no heartbeat timeout gets in its way: on a connection
reached from `init`, Opened and with the lock free, if no ticker firing during the close
finds the heartbeat timed out and the writer takes the queue case more often than there
are items queued, the graceful close returns, with the error of `conn.Close()` if any. -/
theorem close_returns_in_time {srv : server} {c : serverConn} (during : List Event)
    (cerr : Option Nat) (hinv : Inv srv c) (hs : c.state = ConnState.ConnOpened)
    (hl : c.locked = false) (hin : inTime srv during c.graceCloseEnter.1 = true)
    (hn : c.chWrite.length < during.count Event.recv) :
    (c.graceClose srv true during cerr).2 = Outcome.returned (cerr.map Error.io) := by
  obtain ⟨h1, h2, h3, h4, h5, _⟩ := graceCloseEnter_draining hinv hs hl
  have hi1 := inv_graceCloseEnter hinv hl
  have hres := drain_completes during hi1 h2 h3 h4 hin (by rw [h5]; omega)
  have hi2 := inv_runEvents during hi1
  have hs2 := events_state_eq srv during _ h2
  have hp := (inv_hanged_done hi2 hs2).2.1
  unfold serverConn.graceClose
  rcases hc : c.graceCloseEnter with ⟨c1, r⟩
  rw [hc] at h1 hres hi2 hp
  simp only at h1 hres hi2 hp
  subst h1
  simp only
  rw [if_pos ⟨hres, (rlocked_false _).2 hp⟩]
  exact (inv_graceCloseExit cerr hi2 hres).2.1

/-- What a graceful close that returns leaves on the socket: for payloads pushed on a
connection since `init`, in any interleaving with the loops, with the connection still
Opened and no Push still blocked when the graceful `Close` is called: if the call
returns, the socket log is a log without any close followed by the close, and the
message payloads in that log are the pushed payloads, each once and in push order. -/
theorem pushes_written_in_order_then_close (srv : server) (t0 : Int) (ss : List Step)
    (isForce : List Bool) (during : List Event) (cerr : Option Nat)
    (hs : (runSteps srv ss (serverConn.init srv t0)).state = ConnState.ConnOpened)
    (hl : (runSteps srv ss (serverConn.init srv t0)).locked = false)
    (hf : isForce.head? ≠ some true)
    (hr : ((runSteps srv ss (serverConn.init srv t0)).Close srv isForce during cerr).2
      ≠ Outcome.blocked) :
    ((runSteps srv ss (serverConn.init srv t0)).Close srv isForce during cerr).2
        = Outcome.returned (cerr.map Error.io)
      ∧ ((runSteps srv ss (serverConn.init srv t0)).Close srv isForce during cerr).1.state
        = ConnState.ConnClosed
      ∧ ∃ w, ((runSteps srv ss (serverConn.init srv t0)).Close srv isForce during cerr).1.wire
            = w ++ [SockEvent.close]
          ∧ SockEvent.close ∉ w ∧ sentPayloads w = pushed ss := by
  have hinv : Inv srv (runSteps srv ss (serverConn.init srv t0)) :=
    inv_runSteps ss (inv_init srv t0)
  have hout := outbound_steps ss (inv_init srv t0) hs
  generalize runSteps srv ss (serverConn.init srv t0) = c at hs hl hr hinv hout
  have hout0 : outbound (serverConn.init srv t0) = [] := by
    simp [outbound, serverConn.init, sentPayloads, queuedPayloads, blockedPayloads]
  rw [hout0, List.nil_append] at hout
  obtain ⟨hret, hcl⟩ := Close_not_blocked isForce during cerr hinv hl hs hr
  refine ⟨hret, hcl, ?_⟩
  rw [graceful_of_not_forced srv isForce during cerr c hf] at hr ⊢
  obtain ⟨h1, h2, _, _, _, h6⟩ := graceCloseEnter_draining hinv hs hl
  have hi1 := inv_graceCloseEnter hinv hl
  have hi2 := inv_runEvents during hi1
  have hs2 := events_state_eq srv during _ h2
  have ho2 := outbound_events during hi1 h2
  obtain ⟨_, hp, hx⟩ := inv_hanged_done hi2 hs2
  unfold serverConn.graceClose at hr ⊢
  rcases hc : c.graceCloseEnter with ⟨c1, r⟩
  rw [hc] at h1 hr hi2 hp hx ho2 h6
  simp only at h1 hr hi2 hp hx ho2 h6
  subst h1
  simp only at hr ⊢
  split_ifs at hr ⊢ with hres
  · obtain ⟨_, _, hw, _, hq⟩ := inv_graceCloseExit cerr hi2 hres.1
    refine ⟨(runEvents srv during c1).wire, hw, hx, ?_⟩
    rw [← hout, ← h6, ← ho2]
    simp [outbound, hq, hp, queuedPayloads, blockedPayloads]
  · exact absurd rfl hr

/-- The graceful close of the example when no heartbeat timeout gets in its way: three
payloads are pushed on a fresh connection, a graceful `Close` follows, and the writer
takes four items from the queue. The `Close` returns and the socket log is the three
frames in push order followed by the close. -/
theorem three_pushes_then_close :
    ((runSteps tickServer [Step.push [1], Step.push [2], Step.push [3]]
        (serverConn.init tickServer 0)).Close tickServer [false]
        [Event.recv, Event.recv, Event.recv, Event.recv] none).2
      = Outcome.returned none
    ∧ ((runSteps tickServer [Step.push [1], Step.push [2], Step.push [3]]
        (serverConn.init tickServer 0)).Close tickServer [false]
        [Event.recv, Event.recv, Event.recv, Event.recv] none).1.wire
      = [SockEvent.write (packMessage [1]), SockEvent.write (packMessage [2]),
         SockEvent.write (packMessage [3]), SockEvent.close] := by
  decide

/-- The same example through the general statement: the hypotheses hold there, and the
`Close` returns without an error. -/
theorem pushes_written_in_order_then_close_witness :
    ((runSteps tickServer [Step.push [1], Step.push [2], Step.push [3]]
        (serverConn.init tickServer 0)).state = ConnState.ConnOpened
      ∧ (runSteps tickServer [Step.push [1], Step.push [2], Step.push [3]]
        (serverConn.init tickServer 0)).locked = false
      ∧ ([false] : List Bool).head? ≠ some true
      ∧ ((runSteps tickServer [Step.push [1], Step.push [2], Step.push [3]]
          (serverConn.init tickServer 0)).Close tickServer [false]
          [Event.recv, Event.recv, Event.recv, Event.recv] none).2 ≠ Outcome.blocked)
    ∧ ((runSteps tickServer [Step.push [1], Step.push [2], Step.push [3]]
        (serverConn.init tickServer 0)).Close tickServer [false]
        [Event.recv, Event.recv, Event.recv, Event.recv] none).2
      = Outcome.returned none :=
  ⟨⟨by decide, by decide, by decide, by decide⟩,
    (pushes_written_in_order_then_close tickServer 0
      [Step.push [1], Step.push [2], Step.push [3]] [false]
      [Event.recv, Event.recv, Event.recv, Event.recv] none
      (by decide) (by decide) (by decide) (by decide)).1⟩

theorem pushed_map (msgs : List (List Nat)) : pushed (msgs.map Step.push) = msgs := by
  induction msgs with
  | nil => rfl
  | cons m ms ih =>
    simp only [List.map_cons, pushed]
    rw [ih]

theorem inTime_recvs (srv : server) (n : Nat) :
    ∀ (c : serverConn), inTime srv (List.replicate n Event.recv) c = true := by
  induction n with
  | zero => intro c; rfl
  | succ n ih => intro c; simp [List.replicate_succ, inTime, ih]

/-- The graceful close of a connection whose queue is full: the caller is blocked in its
send of the stop sentinel until the writer takes the first frame, the writer then drains
the queue and the sentinel, and the `Close` returns with the connection Closed and every
queued payload written before the close. -/
theorem full_queue_close_drains (srv : server) (t0 : Int) (msgs : List (List Nat))
    (cerr : Option Nat) (hn : msgs.length = chWriteCap) :
    ((runSteps srv (msgs.map Step.push) (serverConn.init srv t0)).graceCloseEnter.1.closer
        = Closer.sending)
      ∧ ((runSteps srv (msgs.map Step.push) (serverConn.init srv t0)).Close srv [false]
          (List.replicate (chWriteCap + 1) Event.recv) cerr).2
          = Outcome.returned (cerr.map Error.io)
      ∧ ∃ w, ((runSteps srv (msgs.map Step.push) (serverConn.init srv t0)).Close srv [false]
            (List.replicate (chWriteCap + 1) Event.recv) cerr).1.wire = w ++ [SockEvent.close]
          ∧ SockEvent.close ∉ w ∧ sentPayloads w = msgs := by
  have hq := pushes_queued srv msgs (serverConn.init srv t0) rfl rfl
    (by simp [serverConn.init])
    (by simp only [serverConn.init, List.length_nil]; omega)
  have hinv : Inv srv (runSteps srv (msgs.map Step.push) (serverConn.init srv t0)) :=
    inv_runSteps _ (inv_init srv t0)
  have hpushed := pushed_map msgs
  have hs : (runSteps srv (msgs.map Step.push) (serverConn.init srv t0)).state
      = ConnState.ConnOpened := by rw [hq]; rfl
  have hl : (runSteps srv (msgs.map Step.push) (serverConn.init srv t0)).locked = false := by
    rw [hq]; rfl
  have hlen : (runSteps srv (msgs.map Step.push) (serverConn.init srv t0)).chWrite.length
      = chWriteCap := by
    rw [hq]
    simp [serverConn.init, hn]
  have hsend : (runSteps srv (msgs.map Step.push)
      (serverConn.init srv t0)).graceCloseEnter.1.closer = Closer.sending := by
    rw [hq]
    simp [serverConn.graceCloseEnter, serverConn.checkState, serverConn.init, hn]
  have hret := close_returns_in_time (List.replicate (chWriteCap + 1) Event.recv) cerr hinv hs
    hl (inTime_recvs srv _ _) (by rw [hlen]; simp)
  have hr : ((runSteps srv (msgs.map Step.push) (serverConn.init srv t0)).Close srv [false]
      (List.replicate (chWriteCap + 1) Event.recv) cerr).2 ≠ Outcome.blocked := by
    rw [graceful_of_not_forced srv [false] _ cerr _ (by decide), hret]
    simp
  obtain ⟨h1, _, h3⟩ := pushes_written_in_order_then_close srv t0 (msgs.map Step.push) [false]
    (List.replicate (chWriteCap + 1) Event.recv) cerr hs hl (by decide) hr
  rw [hpushed] at h3
  exact ⟨hsend, h1, h3⟩

end tcp
